import Mathlib

/-!
The reification engine of go-ucfg, `reify.go`: a shallow embedding and its
verified properties.

The file embeds `reify.go` (package `ucfg`): `Config.Unpack`, `reifyInto`,
`reifyMap`, `reifyStruct`, `reifyGetField`, `reifyCfgPath`, `reifyValue`,
`reifyMergeValue`, `reifyArray`, `reifySlice`, `reifyDoArray`, `castArr`,
`reifyPrimitive`, `doReifyPrimitive`, `reifyDuration`, `reifyRegexp`,
`reifyInt` and `reifyUint`.

Conventions of the embedding

* Go's `reflect.Type` is the inductive `RType`; `reflect.Value` is `RValue`,
  either the invalid value `reflect.Value{}`, a value that is not addressable
  (`rval`) or an addressable one that names a place in memory (`lval`), each
  also in a read-only form (`rorval`, `rolval`) for what is reached through
  an unexported struct field, on which `Set`, `SetMapIndex` and `Interface`
  panic.
* Memory is an explicit `Heap` (a list of cells); pointers, maps and slices
  are references into it, so in-place effects and sharing are visible.
* A Go function `f(..) (reflect.Value, Error)` becomes
  `f .. : Heap → Outcome (RValue × Option Error)`: it returns the pair and the
  heap it leaves, or `Outcome.panic` where the Go runtime would panic.
* The mutually recursive functions are written with open recursion: each
  takes the record `r : Rec` of the functions it may call. `reifier env n`
  closes the recursion with fuel `n`, the depth of nested calls allowed;
  `Outcome.diverge` is returned when the fuel is used up.
* Machine integers are `Int`/`Nat`; narrowing is explicit (`wrapInt`).
* Functions of the package whose source is not part of `reify.go` and about
  which the specification is silent are fields of `Env`.
* The bodies of the loops of `reifyMap` and `reifyStruct` are the definitions
  `reifyMapEntry` and `reifyStructField`; a Go map is a list of entries with
  distinct keys, visited in the order of the list.
-/

namespace Ucfg

/-! ## Types (`reflect.Type`) -/

mutual
/-- The destination types the engine distinguishes. `duration` is
`time.Duration` (kind `Int64`), `regexp` is `regexp.Regexp` (kind `Struct`),
`config` is the package type `Config` and `configAlias n` a type declared as
`type n Config`. `iface m` is an interface type with `m` methods. -/
inductive RType where
  | bool | int | int8 | int16 | int32 | int64
  | uint | uint8 | uint16 | uint32 | uint64
  | float32 | float64 | string
  | duration | regexp | config
  | configAlias (name : String)
  | iface (numMethod : Nat)
  | ptr (elem : RType)
  | slice (elem : RType)
  | array (len : Nat) (elem : RType)
  | map (key : RType) (elem : RType)
  | struct (name : String) (fields : FieldList)
/-- The declared fields of a struct type, in declaration order: the Go
identifier, the raw struct tag as a list of `key:"value"` pairs, the type. -/
inductive FieldList where
  | nil
  | cons (name : String) (tags : List (String × String)) (t : RType) (rest : FieldList)
end

deriving instance DecidableEq for RType, FieldList

/-- The `reflect.Kind` of a type. -/
inductive Kind where
  | Bool | Int | Int8 | Int16 | Int32 | Int64
  | Uint | Uint8 | Uint16 | Uint32 | Uint64
  | Float32 | Float64 | String
  | Interface | Ptr | Slice | Array | Map | Struct | Invalid
  deriving DecidableEq, Repr

/-- Go's `Type.Kind()`. -/
def RType.Kind : RType → Kind
  | .bool => .Bool
  | .int => .Int | .int8 => .Int8 | .int16 => .Int16 | .int32 => .Int32
  | .int64 => .Int64
  | .uint => .Uint | .uint8 => .Uint8 | .uint16 => .Uint16 | .uint32 => .Uint32
  | .uint64 => .Uint64
  | .float32 => .Float32 | .float64 => .Float64
  | .string => .String
  | .duration => .Int64
  | .regexp => .Struct
  | .config => .Struct
  | .configAlias _ => .Struct
  | .iface _ => .Interface
  | .ptr _ => .Ptr
  | .slice _ => .Slice
  | .array _ _ => .Array
  | .map _ _ => .Map
  | .struct _ _ => .Struct

/-- Number of fields of a field list. -/
def FieldList.length : FieldList → Nat
  | .nil => 0
  | .cons _ _ _ r => r.length + 1

/-- The `i`-th declared field: identifier, tags, type. -/
def FieldList.get? : FieldList → Nat → Option (String × List (String × String) × RType)
  | .nil, _ => none
  | .cons n g t _, 0 => some (n, g, t)
  | .cons _ _ _ r, i+1 => r.get? i

/-- Go's `StructTag.Get`: the value stored under `key`, or the empty string. -/
def tagGet (tags : List (String × String)) (key : String) : String :=
  match tags.find? (fun kv => kv.1 == key) with
  | some kv => kv.2
  | none => ""

/-- `chaseTypePointers`: follow a pointer type to its first non-pointer type.
Modelled from the spec: the helper is not part of `reify.go`; "Pointer chains
are followed to their first non-pointer type for shape classification". -/
def chaseTypePointers : RType → RType
  | .ptr t => chaseTypePointers t
  | t => t

/-- `tConfig.ConvertibleTo(t)`: Go converts the struct type `Config` to
itself and to the types declared from it. -/
def convertibleFromConfig : RType → Bool
  | .config => true
  | .configAlias _ => true
  | _ => false

/-- `isInt`: the kind is one of the signed integer kinds.
Modelled from the spec: the helper is not part of `reify.go`; "(c)
signed-integer target". -/
def isInt : Kind → Bool
  | .Int | .Int8 | .Int16 | .Int32 | .Int64 => true
  | _ => false

/-- `isUint`: the kind is one of the unsigned integer kinds.
Modelled from the spec: the helper is not part of `reify.go`; "(d)
unsigned-integer target". -/
def isUint : Kind → Bool
  | .Uint | .Uint8 | .Uint16 | .Uint32 | .Uint64 => true
  | _ => false

/-- Bit size of an integer kind (`int` and `uint` taken as 64 bits wide). -/
def Kind.bits : Kind → Nat
  | .Int8 | .Uint8 => 8
  | .Int16 | .Uint16 => 16
  | .Int32 | .Uint32 | .Float32 => 32
  | _ => 64

/-! ## The configuration tree (`value`, `Config`) -/

/-- A `float64`, kept as its bit pattern: floating-point arithmetic is not
interpreted. -/
structure F64 where
  bits : Nat
  deriving DecidableEq, Repr

mutual
/-- The implementations of the interface `value`: `*cfgNil`, `*cfgBool`,
`*cfgInt`, `*cfgUint`, `*cfgFloat`, `*cfgString`, `*cfgArray`, `*cfgSub`.
Provenance (context and metadata) only feeds error messages and is left out. -/
inductive Value where
  | cfgNil
  | cfgBool (b : Bool)
  | cfgInt (i : Int)
  | cfgUint (u : Nat)
  | cfgFloat (f : F64)
  | cfgString (s : String)
  | cfgArray (arr : List Value)
  | cfgSub (c : Config)
/-- A `*Config`: `id` stands for the identity of the node (the pointer),
`fields` for `c.fields.fields`, a Go map from key to value. The list has one
entry per key; its order is the order in which `range` visits the map, which
the Go runtime leaves unspecified. -/
inductive Config where
  | mk (id : Nat) (fields : List (String × Value))
end

/-- The node identity of a `*Config`. -/
def Config.id : Config → Nat
  | .mk i _ => i

/-- The field list `c.fields.fields`. -/
def Config.fields : Config → List (String × Value)
  | .mk _ fs => fs

/-- The lookup `c.fields.fields[key]`. -/
def Config.get? (c : Config) (key : String) : Option Value :=
  (c.fields.find? (fun kv => kv.1 == key)).map (fun kv => kv.2)

/-- The `*cfgArray` that `castArr` returns: its element slice `arr`. -/
structure CfgArray where
  arr : List Value

/-- Go's `arr.Len()` on a `*cfgArray`: the number of elements. -/
def CfgArray.Len (a : CfgArray) : Nat := a.arr.length

/-! ## Errors -/

/-- The error reasons the specification names. -/
inductive Reason where
  | ErrNilConfig | ErrNilValue | ErrPointerRequired | ErrInvalidTopLevelType
  | ErrKeyInvalidType | ErrMissingField | ErrExpectedObject | ErrArraySize
  | ErrInlineNeedsObject | ErrOverflow | ErrTypeMismatch | ErrInvalidDuration
  | ErrTypeNotSupported | ErrValidation | ErrConversion | ErrCritical
  deriving DecidableEq, Repr

/-- A plain Go `error` handed on as the cause of a raised error: one of the
package's sentinel values or an error of a library. -/
inductive Cause where
  | sentinel (r : Reason)
  | lib (msg : String)
  deriving DecidableEq, Repr

/-- The value of type `Error` built by each `raise…` helper of the package,
one constructor per helper, with the arguments that are not provenance. -/
inductive Error where
  | raiseNil (reason : Reason)
  | raisePointerRequired
  | raiseInvalidTopLevelType
  | raiseKeyInvalidTypeUnpack
  | raiseCritical (cause : Cause)
  | raiseInlineNeedsObject (field : String)
  | raiseValidation (cause : Cause)
  | raiseMissing (field : String)
  | raiseExpectedObject
  | raiseArraySize
  | raiseConversion (cause : Cause) (target : String)
  | raiseToTypeNotSupported
  | raiseInvalidDuration (cause : Cause)
  deriving DecidableEq, Repr

/-- The reason an `Error` reports.
Modelled from the spec: the `raise…` helpers are not part of `reify.go`; the
reasons are those of sections 4, 6 and 7 (`raiseConversion` reports its cause,
"failing with `ErrOverflow`"; "Parse failure → `ErrInvalidDuration`"). -/
def Error.reason : Error → Reason
  | .raiseNil r => r
  | .raisePointerRequired => .ErrPointerRequired
  | .raiseInvalidTopLevelType => .ErrInvalidTopLevelType
  | .raiseKeyInvalidTypeUnpack => .ErrKeyInvalidType
  | .raiseCritical _ => .ErrCritical
  | .raiseInlineNeedsObject _ => .ErrInlineNeedsObject
  | .raiseValidation _ => .ErrValidation
  | .raiseMissing _ => .ErrMissingField
  | .raiseExpectedObject => .ErrExpectedObject
  | .raiseArraySize => .ErrArraySize
  | .raiseConversion (.sentinel r) _ => r
  | .raiseConversion (.lib _) _ => .ErrConversion
  | .raiseToTypeNotSupported => .ErrTypeNotSupported
  | .raiseInvalidDuration _ => .ErrInvalidDuration

/-! ## Memory and `reflect.Value` -/

/-- A place in memory: a heap cell and the path of field or element indices
that leads to a part of the value stored in it. -/
structure Place where
  cell : Nat
  path : List Nat
  deriving DecidableEq, Repr

/-- Go data. Pointers, maps and slices are references: a pointer names a
place, a map names the cell of its map object (`mapObj`), a slice names the
cell of its backing array. An interface value holds its dynamic type and
value. -/
inductive GVal where
  | bool (b : Bool)
  | int (i : Int)
  | uint (u : Nat)
  | float (f : F64)
  | str (s : String)
  | regexp (src : String)
  | config (c : Config)
  | ptr (target : Option Place)
  | mapRef (obj : Option Nat)
  | sliceRef (obj : Option Nat) (len : Nat)
  | array (elems : List GVal)
  | struct (fields : List GVal)
  | iface (dyn : Option (RType × GVal))
  | mapObj (entries : List (String × GVal))

/-- The heap: cell `a` is the `a`-th entry. -/
structure Heap where
  cells : List GVal

/-- A `reflect.Value`: the invalid value, a value that is not addressable
(`rval`), an addressable one (`lval`), and the read-only forms of the two
(`rorval`, `rolval`). Go marks a value obtained through an unexported struct
field read-only, and with it every value derived from it: `Set`,
`SetMapIndex` and `Interface` panic on such a value. -/
inductive RValue where
  | invalid
  | rval (t : RType) (v : GVal)
  | lval (t : RType) (p : Place)
  | rorval (t : RType) (v : GVal)
  | rolval (t : RType) (p : Place)

/-- What a call does: it returns `a` and leaves the heap `h`, the Go runtime
panics, or the fuel of the model is used up. -/
inductive Outcome (α : Type) where
  | ret (a : α) (h : Heap)
  | panic
  | diverge

/-- Computations on the heap. -/
def M (α : Type) : Type := Heap → Outcome α

/-- Return without touching the heap. -/
def M.pure {α : Type} (a : α) : M α := fun h => .ret a h

/-- Sequencing: a panic or divergence ends the computation. -/
def M.bind {α β : Type} (m : M α) (f : α → M β) : M β := fun h =>
  match m h with
  | .ret a h1 => f a h1
  | .panic => .panic
  | .diverge => .diverge

instance : Monad M where
  pure := M.pure
  bind := M.bind

/-- The current heap. -/
def getHeap : M Heap := fun h => .ret h h

/-- A runtime panic. -/
def goPanic {α : Type} : M α := fun _ => .panic

/-- Fuel used up. -/
def outOfFuel {α : Type} : M α := fun _ => .diverge

/-! ### Reading and writing places -/

/-- The part of a value reached by a path of field or element indices. -/
def GVal.getPath : GVal → List Nat → Option GVal
  | v, [] => some v
  | .struct fs, i :: r =>
      match fs[i]? with
      | some x => x.getPath r
      | none => none
  | .array es, i :: r =>
      match es[i]? with
      | some x => x.getPath r
      | none => none
  | _, _ :: _ => none

/-- The value with the part at a path replaced by `w`. -/
def GVal.setPath : GVal → List Nat → GVal → Option GVal
  | _, [], w => some w
  | .struct fs, i :: r, w =>
      match fs[i]? with
      | some x => (x.setPath r w).map (fun y => .struct (fs.set i y))
      | none => none
  | .array es, i :: r, w =>
      match es[i]? with
      | some x => (x.setPath r w).map (fun y => .array (es.set i y))
      | none => none
  | _, _ :: _, _ => none

/-- The value stored at a place. -/
def Heap.read (h : Heap) (p : Place) : Option GVal :=
  match h.cells[p.cell]? with
  | some v => v.getPath p.path
  | none => none

/-- The heap after storing `w` at a place. -/
def Heap.write (h : Heap) (p : Place) (w : GVal) : Option Heap :=
  match h.cells[p.cell]? with
  | some v => (v.setPath p.path w).map (fun y => ⟨h.cells.set p.cell y⟩)
  | none => none

/-- Read a place; a dangling place is a runtime fault. -/
def readPlace (p : Place) : M GVal := fun h =>
  match h.read p with
  | some v => .ret v h
  | none => .panic

/-- Write a place. -/
def writePlace (p : Place) (w : GVal) : M Unit := fun h =>
  match h.write p w with
  | some h1 => .ret () h1
  | none => .panic

/-- Allocate a fresh cell holding `v`; its address is returned. -/
def alloc (v : GVal) : M Nat := fun h => .ret h.cells.length ⟨h.cells ++ [v]⟩

mutual
/-- The zero value of a type (`reflect.Zero`). -/
def zero : RType → GVal
  | .bool => .bool false
  | .int | .int8 | .int16 | .int32 | .int64 | .duration => .int 0
  | .uint | .uint8 | .uint16 | .uint32 | .uint64 => .uint 0
  | .float32 | .float64 => .float ⟨0⟩
  | .string => .str ""
  | .regexp => .regexp ""
  | .config | .configAlias _ => .config (.mk 0 [])
  | .iface _ => .iface none
  | .ptr _ => .ptr none
  | .slice _ => .sliceRef none 0
  | .array n t => .array (List.replicate n (zero t))
  | .map _ _ => .mapRef none
  | .struct _ fs => .struct (zeroFields fs)
/-- The zero values of the fields of a struct type. -/
def zeroFields : FieldList → List GVal
  | .nil => []
  | .cons _ _ t r => zero t :: zeroFields r
end

/-! ### The operations of `reflect.Value` -/

/-- The read-only flag of a value (`flagRO`). -/
@[simp] def RValue.isRO : RValue → Bool
  | .rorval _ _ => true
  | .rolval _ _ => true
  | _ => false

/-- The value marked read-only. -/
@[simp] def RValue.asRO : RValue → RValue
  | .rval t v => .rorval t v
  | .lval t p => .rolval t p
  | w => w

/-- The value `w` as obtained from `parent` by `Elem`, `Index` or `MapIndex`:
it inherits the read-only flag of `parent`. -/
@[simp] def RValue.derived (parent w : RValue) : RValue :=
  if parent.isRO then w.asRO else w

/-- Go's test for an exported identifier: it starts with an upper-case letter
(the ASCII letters are modelled). -/
def isExported (name : String) : Bool :=
  match name.data with
  | c :: _ => c.isUpper
  | [] => false

/-- Go's `Value.Type()`; it panics on the invalid value. -/
def RValue.Type : RValue → M RType
  | .invalid => goPanic
  | .rval t _ => pure t
  | .lval t _ => pure t
  | .rorval t _ => pure t
  | .rolval t _ => pure t

/-- Go's `Value.Kind()`; `Invalid` for the invalid value. -/
def RValue.Kind : RValue → Kind
  | .invalid => .Invalid
  | .rval t _ => t.Kind
  | .lval t _ => t.Kind
  | .rorval t _ => t.Kind
  | .rolval t _ => t.Kind

/-- Go's `Value.IsValid()`. -/
def RValue.IsValid : RValue → Bool
  | .invalid => false
  | _ => true

/-- Go's `Value.CanAddr()`; `CanSet()` holds when the value is addressable
and not read-only. -/
def RValue.CanAddr : RValue → Bool
  | .lval _ _ => true
  | .rolval _ _ => true
  | _ => false

/-- The data a `reflect.Value` currently holds. -/
def RValue.load : RValue → M GVal
  | .invalid => goPanic
  | .rval _ v => pure v
  | .lval _ p => readPlace p
  | .rorval _ v => pure v
  | .rolval _ p => readPlace p

/-- Go's `Value.IsNil()`: defined on pointers, maps, slices and interfaces. -/
def RValue.IsNil (v : RValue) : M Bool := do
  match ← v.load with
  | .ptr p => pure p.isNone
  | .mapRef m => pure m.isNone
  | .sliceRef b _ => pure b.isNone
  | .iface d => pure d.isNone
  | _ => goPanic

/-- Go's `Value.Elem()`: the variable a pointer points to (addressable), or
the value an interface holds; the invalid value for a nil pointer or
interface. The result inherits the read-only flag. -/
def RValue.Elem (v : RValue) : M RValue := do
  match v.Kind, ← v.load with
  | .Ptr, .ptr (some p) =>
      match ← v.Type with
      | .ptr t => pure (v.derived (.lval t p))
      | _ => goPanic
  | .Ptr, .ptr none => pure .invalid
  | .Interface, .iface (some (t, x)) => pure (v.derived (.rval t x))
  | .Interface, .iface none => pure .invalid
  | _, _ => goPanic

/-- Go's `Value.Addr()`: a pointer to an addressable value; it keeps the
read-only flag. -/
def RValue.Addr : RValue → M RValue
  | .lval t p => pure (.rval (.ptr t) (.ptr (some p)))
  | .rolval t p => pure (.rorval (.ptr t) (.ptr (some p)))
  | _ => goPanic

/-- The data stored when `v` is assigned to a variable of type `dst`: a
value of a concrete type assigned to an interface is boxed with its type; any
other assignment needs identical types and panics otherwise. A read-only
value cannot be assigned (`mustBeExported`). -/
def storeAs (dst : RType) (v : RValue) : M GVal := do
  if v.isRO then goPanic
  else
    let t ← v.Type
    let x ← v.load
    match dst, t with
    | .iface _, .iface _ => pure x
    | .iface _, _ => pure (.iface (some (t, x)))
    | _, _ => if dst = t then pure x else goPanic

/-- Go's `Value.Set`: the destination has to be addressable and not
read-only. -/
def RValue.Set (dst : RValue) (v : RValue) : M Unit := do
  match dst with
  | .lval t p => do
      let x ← storeAs t v
      writePlace p x
  | _ => goPanic

/-- Go's `Value.NumField()` on a struct. `regexp.Regexp` and `Config` have
unexported fields only, which reflection cannot set: none is listed. -/
def RValue.NumField (v : RValue) : M Nat := do
  match ← v.Type with
  | .struct _ fs => pure fs.length
  | .regexp | .config | .configAlias _ => pure 0
  | _ => goPanic

/-- Go's `Value.Field(i)`: addressable when the struct is; read-only when
the struct is, or when the field is not exported. Embedded fields are not
modelled. -/
def RValue.Field (v : RValue) (i : Nat) : M RValue := do
  match v with
  | .lval (.struct _ fs) p =>
      match fs.get? i with
      | some (n, _, t) =>
          if isExported n then pure (.lval t ⟨p.cell, p.path ++ [i]⟩)
          else pure (.rolval t ⟨p.cell, p.path ++ [i]⟩)
      | none => goPanic
  | .rolval (.struct _ fs) p =>
      match fs.get? i with
      | some (_, _, t) => pure (.rolval t ⟨p.cell, p.path ++ [i]⟩)
      | none => goPanic
  | .rval (.struct _ fs) (.struct xs) =>
      match fs.get? i, xs[i]? with
      | some (n, _, t), some x =>
          if isExported n then pure (.rval t x) else pure (.rorval t x)
      | _, _ => goPanic
  | .rorval (.struct _ fs) (.struct xs) =>
      match fs.get? i, xs[i]? with
      | some (_, _, t), some x => pure (.rorval t x)
      | _, _ => goPanic
  | _ => goPanic

/-- Go's `Value.Index(i)` on an array or a slice: an element of a slice is
always addressable, an element of an array when the array is. The element
inherits the read-only flag. -/
def RValue.Index (v : RValue) (i : Nat) : M RValue := do
  match v with
  | .lval (.array n t) p =>
      if i < n then pure (.lval t ⟨p.cell, p.path ++ [i]⟩) else goPanic
  | .rolval (.array n t) p =>
      if i < n then pure (.rolval t ⟨p.cell, p.path ++ [i]⟩) else goPanic
  | .rval (.array _ t) (.array xs) =>
      match xs[i]? with
      | some x => pure (.rval t x)
      | none => goPanic
  | .rorval (.array _ t) (.array xs) =>
      match xs[i]? with
      | some x => pure (.rorval t x)
      | none => goPanic
  | _ =>
      match ← v.Type, ← v.load with
      | .slice t, .sliceRef (some b) n =>
          if i < n then pure (v.derived (.lval t ⟨b, [i]⟩)) else goPanic
      | _, _ => goPanic

/-- The map object a map value refers to. -/
def mapEntries (v : RValue) : M (Option (Nat × List (String × GVal))) := do
  match ← v.load with
  | .mapRef none => pure none
  | .mapRef (some a) =>
      match ← readPlace ⟨a, []⟩ with
      | .mapObj es => pure (some (a, es))
      | _ => goPanic
  | _ => goPanic

/-- Go's `Value.MapIndex(key)` for a string key: the entry, not addressable,
or the invalid value when the key is absent or the map is nil. The entry
inherits the read-only flag. -/
def RValue.MapIndex (v : RValue) (key : String) : M RValue := do
  match ← v.Type, ← mapEntries v with
  | .map _ t, some (_, es) =>
      match es.find? (fun kv => kv.1 == key) with
      | some kv => pure (v.derived (.rval t kv.2))
      | none => pure .invalid
  | .map _ _, none => pure .invalid
  | _, _ => goPanic

/-- An association list with the entry of `key` set to `x`. -/
def setEntry (es : List (String × GVal)) (key : String) (x : GVal) : List (String × GVal) :=
  if es.any (fun kv => kv.1 == key) then
    es.map (fun kv => if kv.1 == key then (key, x) else kv)
  else es ++ [(key, x)]

/-- Go's `Value.SetMapIndex(key, v)`: it updates the map object in place and
panics on a nil map and on a read-only map. -/
def RValue.SetMapIndex (m : RValue) (key : String) (v : RValue) : M Unit := do
  if m.isRO then goPanic
  else
    match ← m.Type, ← mapEntries m with
    | .map _ t, some (a, es) => do
        let x ← storeAs t v
        writePlace ⟨a, []⟩ (.mapObj (setEntry es key x))
    | _, _ => goPanic

/-- Go's `reflect.Zero(t)`. -/
def reflectZero (t : RType) : RValue := .rval t (zero t)

/-- Go's `reflect.New(t)`: a pointer to a fresh zero variable. -/
def reflectNew (t : RType) : M RValue := do
  let a ← alloc (zero t)
  pure (.rval (.ptr t) (.ptr (some ⟨a, []⟩)))

/-- Go's `reflect.MakeMap(t)`: a fresh empty map. -/
def reflectMakeMap (t : RType) : M RValue := do
  let a ← alloc (.mapObj [])
  pure (.rval t (.mapRef (some a)))

/-- Go's `reflect.MakeSlice(t, n, n)`: a slice over a fresh zeroed array. -/
def reflectMakeSlice (t : RType) (n : Nat) : M RValue := do
  match t with
  | .slice e => do
      let a ← alloc (.array (List.replicate n (zero e)))
      pure (.rval t (.sliceRef (some a) n))
  | _ => goPanic

/-! ## Options and the functions taken as given -/

/-- The type `options`: the struct tag to scan, the validator tag, the path
separator. -/
structure Options where
  tag : String
  validatorTag : String
  pathSep : String
  deriving DecidableEq, Repr

/-- An `Option` argument of `Unpack`: a change of the options. -/
abbrev UnpackOption : Type := Options → Options

/-- The type `tagOptions`. -/
structure TagOptions where
  squash : Bool
  deriving DecidableEq, Repr

/-- A parsed validator directive. -/
structure Validator where
  name : String
  param : String
  deriving DecidableEq, Repr

/-- The type `fieldOptions`. -/
structure FieldOptions where
  opts : Options
  tag : TagOptions
  validators : List Validator
  deriving DecidableEq, Repr

/-- The functions `reify.go` calls whose source is not part of the file and
which the specification does not pin down, and the library functions whose
results are not interpreted. Every theorem holds for every `Env`. -/
structure Env where
  /-- The function `makeOptions`. -/
  makeOptions : List UnpackOption → Options
  /-- The method `value.Len()`. -/
  Len : Value → Nat
  /-- The method `value.typ()`. -/
  typ : Value → RType
  /-- The method `value.reflect()`. -/
  reflect : Value → M RValue
  /-- The method `value.reify()` followed by `reflect.ValueOf`. -/
  reify : Value → M RValue
  /-- The method `value.toString()`. -/
  toString : Value → Except Cause String
  /-- The method `value.toInt()`. -/
  toInt : Value → Except Cause Int
  /-- The method `value.toUint()`. -/
  toUint : Value → Except Cause Nat
  /-- Go's `time.ParseDuration`: both results, the duration in nanoseconds
  and the error. -/
  parseDuration : String → Int × Option Cause
  /-- The expression `time.Duration(f * float64(time.Second))`. -/
  floatSeconds : F64 → Int
  /-- Go's `regexp.Compile`: the error, if any. -/
  regexpCompile : String → Option Cause
  /-- Go's `Type.ConvertibleTo`. -/
  convertibleTo : RType → RType → Bool
  /-- Go's `Value.Convert`. -/
  convert : RValue → RType → M RValue
  /-- The function `parseTags`. -/
  parseTags : String → String × TagOptions
  /-- The function `parseValidatorTags`. -/
  parseValidatorTags : String → Except Cause (List Validator)
  /-- The function `fieldName`. -/
  fieldName : String → String → String
  /-- The function `runValidators` on `v.Interface()`: it only reads. -/
  runValidators : Heap → RValue → List Validator → Option Cause
  /-- The function `tryValidate`: it only reads. -/
  tryValidate : Heap → RValue → Option Cause
  /-- The function `mergeConfig(dst, src)`: the fields `dst` is left with and
  the error. -/
  mergeConfig : Config → Config → Config × Option Error
  /-- The function `pointerize(t, base, v)`. -/
  pointerize : RType → RType → RValue → M RValue

/-- The method `value.toConfig()`.
Modelled from the spec: the method is not part of `reify.go`;
"`Value.toConfig()` fails with `ErrExpectedObject` unless the variant is
Object". -/
def Value.toConfig : Value → Except Cause Config
  | .cfgSub c => .ok c
  | _ => .error (.sentinel .ErrExpectedObject)

/-! ## Pointer and interface chasing -/

/-- Number of leading pointer constructors of a type. -/
def ptrDepth : RType → Nat
  | .ptr t => ptrDepth t + 1
  | _ => 0

/-- The loop of `chaseValuePointers`, at most `n` rounds. -/
def chaseValuePointersLoop : Nat → RValue → M RValue
  | 0, v => pure v
  | n+1, v => do
      if v.Kind == .Ptr then
        if !(← v.IsNil) then
          chaseValuePointersLoop n (← v.Elem)
        else pure v
      else pure v

/-- `chaseValuePointers`: `for v.Kind() == Ptr && !v.IsNil() { v = v.Elem() }`.
Each round strips one pointer from the type, which bounds the rounds.
Modelled from the spec: the helper is not part of `reify.go`; "Pointer chains
are followed to their first non-pointer type …, a nil pointer destination is
only allocated when a non-nil tree value exists for it". -/
def chaseValuePointers (v : RValue) : M RValue :=
  match v with
  | .invalid => pure v
  | .rval t _ => chaseValuePointersLoop (ptrDepth t) v
  | .lval t _ => chaseValuePointersLoop (ptrDepth t) v
  | .rorval t _ => chaseValuePointersLoop (ptrDepth t) v
  | .rolval t _ => chaseValuePointersLoop (ptrDepth t) v

/-- `chaseValueInterfaces`: `for v.Kind() == Interface && !v.IsNil() { v =
v.Elem() }`. The value an interface holds is of a concrete type, so the loop
runs at most once.
Modelled from the spec: the helper is not part of `reify.go`. -/
def chaseValueInterfaces (v : RValue) : M RValue := do
  if v.Kind == .Interface then
    if !(← v.IsNil) then v.Elem else pure v
  else pure v

/-- `chaseValue`: `for (v.Kind() == Ptr || v.Kind() == Interface) &&
!v.IsNil() { v = v.Elem() }`. An interface may hold a pointer to itself, so
the loop is bounded by fuel.
Modelled from the spec: the helper is not part of `reify.go`. -/
def chaseValue : Nat → RValue → M RValue
  | 0, _ => outOfFuel
  | n+1, v => do
      if v.Kind == .Ptr || v.Kind == .Interface then
        if !(← v.IsNil) then
          chaseValue n (← v.Elem)
        else pure v
      else pure v

/-- `tryTConfig`: the value behind pointers and interfaces when it is a
`Config` or of a type declared from it.
Modelled from the spec: the helper is not part of `reify.go`; "`ConfigAlias`
(destination type is itself a Config-compatible sink)". -/
def tryTConfig (fuel : Nat) (value : RValue) : M (Option RValue) := do
  let v ← chaseValue fuel value
  match v with
  | .invalid => pure none
  | .rval t _ => if convertibleFromConfig t then pure (some v) else pure none
  | .lval t _ => if convertibleFromConfig t then pure (some v) else pure none
  | .rorval t _ => if convertibleFromConfig t then pure (some v) else pure none
  | .rolval t _ => if convertibleFromConfig t then pure (some v) else pure none

/-! ## Primitive conversion -/

/-- Two's-complement narrowing of an integer to `w` bits, the result of Go's
conversion to a signed integer type of that width. -/
def wrapInt (w : Nat) (i : Int) : Int :=
  (i + 2 ^ (w - 1)) % 2 ^ w - 2 ^ (w - 1)

/-- Go's `Value.OverflowInt(x)`: truncating `x` to the bit size of the kind
changes it. -/
def overflowInt (k : Kind) (x : Int) : Bool :=
  wrapInt k.bits x != x

/-- Go's `Value.OverflowUint(x)`. -/
def overflowUint (k : Kind) (x : Nat) : Bool :=
  x % 2 ^ k.bits != x

/-- The function `reifyInt` (reify.go 498-513). -/
def reifyInt (env : Env) (_opts : FieldOptions) (val : Value) (t : RType) :
    RValue × Option Error :=
  match env.toInt val with
  | .error err => (.invalid, some (.raiseConversion err "int"))
  | .ok i =>
      if overflowInt t.Kind i then
        (.invalid, some (.raiseConversion (.sentinel .ErrOverflow) "int"))
      else (.rval t (.int (wrapInt t.Kind.bits i)), none)

/-- The function `reifyUint` (reify.go 515-530). -/
def reifyUint (env : Env) (_opts : FieldOptions) (val : Value) (t : RType) :
    RValue × Option Error :=
  match env.toUint val with
  | .error err => (.invalid, some (.raiseConversion err "uint"))
  | .ok u =>
      if overflowUint t.Kind u then
        (.invalid, some (.raiseConversion (.sentinel .ErrOverflow) "uint"))
      else (.rval t (.uint (u % 2 ^ t.Kind.bits)), none)

/-- The tail of `reifyDuration` after the switch (reify.go 475-478), on the
variables `d` and `err` declared at the top of the function. -/
def reifyDurationEnd (d : Int) (err : Option Cause) : RValue × Option Error :=
  match err with
  | some e => (.invalid, some (.raiseInvalidDuration e))
  | none => (.rval .duration (.int d), none)

/-- The function `reifyDuration` (reify.go 451-479). `time.Second` is
`1000000000`; the product is an `int64` product. In the `default` case the
statement `s, err := val.toString()` declares a new `err` for that case, so
`d, err = time.ParseDuration(s)` stores the parse error in the new variable
and the `err` tested after the switch is still nil. -/
def reifyDuration (env : Env) (_opts : FieldOptions) (val : Value) (_t : RType) :
    RValue × Option Error :=
  match val with
  | .cfgInt i => reifyDurationEnd (wrapInt 64 (i * 1000000000)) none
  | .cfgFloat f => reifyDurationEnd (env.floatSeconds f) none
  | .cfgString s => reifyDurationEnd (env.parseDuration s).1 (env.parseDuration s).2
  | _ =>
      match env.toString val with
      | .error err => (.invalid, some (.raiseInvalidDuration err))
      | .ok s => reifyDurationEnd (env.parseDuration s).1 none

/-- The function `reifyRegexp` (reify.go 481-496); `reflect.ValueOf(r).Elem()`
is the compiled expression behind the fresh pointer `r`. -/
def reifyRegexp (env : Env) (_opts : FieldOptions) (val : Value) (_t : RType) :
    M (RValue × Option Error) := do
  match env.toString val with
  | .error err => pure (.invalid, some (.raiseConversion err "regex"))
  | .ok s =>
      match env.regexpCompile s with
      | some err => pure (.invalid, some (.raiseConversion err "regex"))
      | none => do
          let a ← alloc (.regexp s)
          pure (.lval .regexp ⟨a, []⟩, none)

/-- The function `doReifyPrimitive` (reify.go 397-449). The cases of the
switch are tried in the order of the source; `extras` has the two keys
`tDuration` and `tRegexp`. -/
def doReifyPrimitive (env : Env) (opts : FieldOptions) (val : Value) (baseType : RType) :
    M (RValue × Option Error) := do
  let kind := baseType.Kind
  if env.typ val = baseType then do
    let v ← env.reflect val
    pure (v, none)
  else if kind == .String then
    match env.toString val with
    | .error err => pure (.invalid, some (.raiseConversion err "string"))
    | .ok s => pure (.rval .string (.str s), none)
  else if isInt kind then
    pure (reifyInt env opts val baseType)
  else if isUint kind then
    pure (reifyUint env opts val baseType)
  else if baseType = .duration then
    pure (reifyDuration env opts val baseType)
  else if baseType = .regexp then
    reifyRegexp env opts val baseType
  else if env.convertibleTo (env.typ val) baseType then do
    let v ← env.convert (← env.reflect val) baseType
    pure (v, none)
  else pure (.invalid, some .raiseToTypeNotSupported)

/-- The function `castArr` (reify.go 357-369). -/
def castArr (env : Env) (v : Value) : CfgArray :=
  match v with
  | .cfgArray arr => ⟨arr⟩
  | _ => if env.Len v == 0 then ⟨[]⟩ else ⟨[v]⟩

/-- The function `reifyPrimitive` (reify.go 371-395). -/
def reifyPrimitive (env : Env) (opts : FieldOptions) (val : Value) (t baseType : RType) :
    M (RValue × Option Error) := do
  match val with
  | .cfgNil => do
      let v ← env.pointerize t baseType (reflectZero baseType)
      pure (v, none)
  | _ => do
      let (v, err) ← doReifyPrimitive env opts val baseType
      match err with
      | some e => pure (v, some e)
      | none =>
          match env.runValidators (← getHeap) v opts.validators with
          | some e => pure (.invalid, some (.raiseValidation e))
          | none =>
              match env.tryValidate (← getHeap) v with
              | some e => pure (.invalid, some (.raiseValidation e))
              | none => do
                  let w ← env.pointerize t baseType v
                  pure (w, none)

/-! ## Path resolution -/

/-- The worker of `stringsSplit`: `skip` counts the characters of a matched
separator still to be dropped, `cur` holds the current segment reversed. -/
def splitGo (sep : List Char) : Nat → List Char → List Char → List String
  | _, [], cur => [String.mk cur.reverse]
  | skip+1, _ :: rest, cur => splitGo sep skip rest cur
  | 0, c :: rest, cur =>
      if sep.isPrefixOf (c :: rest) then
        String.mk cur.reverse :: splitGo sep (sep.length - 1) rest []
      else splitGo sep 0 rest (c :: cur)

/-- Go's `strings.Split(s, sep)` for a separator that is not empty. -/
def stringsSplit (s sep : String) : List String :=
  splitGo sep.data 0 s.data []

/-- The loop of `reifyCfgPath` and the statement after it, on the remaining
`path` and the current `field`. `strings.Split` returns at least one segment
(`splitGo_ne_nil`), so the case of the empty path, where `path[0]` would
panic, is never reached. -/
def reifyCfgPathLoop : Config → List String → String → Option Config × String × Option Error
  | cfg, [], field => (some cfg, field, none)
  | cfg, [last], _ => (some cfg, last, none)
  | cfg, seg :: rest, _ =>
      match cfg.get? seg with
      | none => (none, seg, some (.raiseMissing seg))
      | some sub =>
          match sub.toConfig with
          | .error _ => (none, seg, some .raiseExpectedObject)
          | .ok cSub => reifyCfgPathLoop cSub rest seg

/-- The function `reifyCfgPath` (reify.go 152-176). -/
def reifyCfgPath (cfg : Config) (opts : Options) (field : String) :
    Option Config × String × Option Error :=
  if opts.pathSep == "" then (some cfg, field, none)
  else reifyCfgPathLoop cfg (stringsSplit field opts.pathSep) field

/-! ## The reifier -/

/-- A `for … range` loop whose body may return an error: the first error
ends the loop. -/
def forEachM {α : Type} (body : α → M (Option Error)) : List α → M (Option Error)
  | [] => pure none
  | x :: xs => do
      match ← body x with
      | some e => pure (some e)
      | none => forEachM body xs

/-- The literal `fieldOptions{opts: opts}`. -/
def fieldOptionsOf (opts : Options) : FieldOptions := ⟨opts, ⟨false⟩, []⟩

/-- The call `mergeConfig(to.Addr().Interface().(*Config), from)` on a
`reflect.Value` that holds a `Config`: `Addr` needs an addressable value. -/
def mergeConfigAt (env : Env) (dst : RValue) (src : Config) : M (Option Error) := do
  match dst with
  | .lval _ p =>
      match ← readPlace p with
      | .config c => do
          writePlace p (.config (env.mergeConfig c src).1)
          pure (env.mergeConfig c src).2
      | _ => goPanic
  | _ => goPanic

/-- The functions of the mutual recursion as they are available to a caller:
`fuel` is the depth of calls they may still make. -/
structure Rec where
  fuel : Nat
  reifyInto : Options → RValue → Config → M (Option Error)
  reifyMap : Options → RValue → Config → M (Option Error)
  reifyStruct : Options → RValue → Config → M (Option Error)
  reifyGetField : Config → FieldOptions → String → RValue → M (Option Error)
  reifyValue : FieldOptions → RType → Value → M (RValue × Option Error)
  reifyMergeValue : FieldOptions → RValue → Value → M (RValue × Option Error)
  reifyArray : FieldOptions → RValue → RType → CfgArray → M (RValue × Option Error)
  reifySlice : FieldOptions → RType → CfgArray → M (RValue × Option Error)
  reifyDoArray : FieldOptions → RValue → RType → CfgArray → M (RValue × Option Error)

/-- The function `reifyInto` (reify.go 28-44). The last line takes
`to.Interface()`, which panics on a read-only value. -/
def reifyInto (env : Env) (r : Rec) (opts : Options) (dst0 : RValue) (src : Config) :
    M (Option Error) := do
  let dst ← chaseValuePointers dst0
  match ← tryTConfig r.fuel dst with
  | some tc => mergeConfigAt env tc src
  | none => do
      let tTo := chaseTypePointers (← dst.Type)
      match tTo.Kind with
      | .Map => r.reifyMap opts dst src
      | .Struct => r.reifyStruct opts dst src
      | _ => if dst.isRO then goPanic else pure (some .raiseInvalidTopLevelType)

/-- The body of the loop of `reifyMap` (reify.go 58-75) for the source entry
`kv`, with `e` the element type `to.Type().Elem()`: the error it returns ends
the loop. -/
def reifyMapEntry (r : Rec) (opts : Options) (dst : RValue) (e : RType)
    (kv : String × Value) : M (Option Error) := do
  let old ← dst.MapIndex kv.1
  let (v, err) ←
    if !old.IsValid then r.reifyValue (fieldOptionsOf opts) e kv.2
    else r.reifyMergeValue (fieldOptionsOf opts) old kv.2
  match err with
  | some er => pure (some er)
  | none => do
      dst.SetMapIndex kv.1 v
      pure none

/-- The function `reifyMap` (reify.go 46-78). The fields of the source are
visited in the order of its list. -/
def reifyMap (_env : Env) (r : Rec) (opts : Options) (dst : RValue) (src : Config) :
    M (Option Error) := do
  match ← dst.Type with
  | .map k e =>
      if k.Kind != .String then pure (some .raiseKeyInvalidTypeUnpack)
      else if src.fields.length == 0 then pure none
      else do
        if ← dst.IsNil then
          dst.Set (← reflectMakeMap (.map k e))
        forEachM (reifyMapEntry r opts dst e) src.fields
  | _ => goPanic

/-- The body of the loop of `reifyStruct` (reify.go 89-116) for field `i` of
the copy `dst`: the error it returns ends the loop. -/
def reifyStructField (env : Env) (r : Rec) (opts : Options) (cfg : Config) (dst : RValue)
    (i : Nat) : M (Option Error) := do
  match ← dst.Type with
  | .struct _ fs =>
      match fs.get? i with
      | none => goPanic
      | some (stName, stTag, _) => do
          let vField ← dst.Field i
          let (name, tagOpts) := env.parseTags (tagGet stTag opts.tag)
          match env.parseValidatorTags (tagGet stTag opts.validatorTag) with
          | .error err => pure (some (.raiseCritical err))
          | .ok validators =>
              if tagOpts.squash then do
                let vField ← chaseValue r.fuel vField
                match vField.Kind with
                | .Struct => r.reifyInto opts vField cfg
                | .Map => r.reifyInto opts vField cfg
                | _ => pure (some (.raiseInlineNeedsObject stName))
              else
                r.reifyGetField cfg ⟨opts, tagOpts, validators⟩
                  (env.fieldName name stName) vField
  | _ => goPanic

/-- The function `reifyStruct` (reify.go 80-124). -/
def reifyStruct (env : Env) (r : Rec) (opts : Options) (orig0 : RValue) (cfg : Config) :
    M (Option Error) := do
  let orig ← chaseValuePointers orig0
  let dst ← chaseValuePointers (← reflectNew (chaseTypePointers (← orig.Type)))
  if orig.Kind == .Struct then
    dst.Set orig
  let numField ← dst.NumField
  let r ← forEachM (reifyStructField env r opts cfg dst) (List.range numField)
  match r with
  | some e => pure (some e)
  | none =>
      match env.tryValidate (← getHeap) dst with
      | some err => pure (some (.raiseValidation err))
      | none => do
          orig.Set (← env.pointerize (← orig.Type) (← dst.Type) dst)
          pure none

/-- The function `reifyGetField` (reify.go 126-150). -/
def reifyGetField (_env : Env) (r : Rec) (cfg : Config) (opts : FieldOptions) (name : String)
    (dst : RValue) : M (Option Error) := do
  match reifyCfgPath cfg opts.opts name with
  | (_, _, some err) => pure (some err)
  | (none, _, none) => goPanic
  | (some src, field, none) =>
      match src.get? field with
      | none => pure none
      | some value => do
          let (v, err) ← r.reifyMergeValue opts dst value
          match err with
          | some e => pure (some e)
          | none => do
              dst.Set v
              pure none

/-- The function `reifyValue` (reify.go 178-251). -/
def reifyValue (env : Env) (r : Rec) (opts : FieldOptions) (t : RType) (val : Value) :
    M (RValue × Option Error) := do
  if t = .iface 0 then do
    let v ← env.reify val
    pure (v, none)
  else
    let baseType := chaseTypePointers t
    if convertibleFromConfig baseType then
      match val.toConfig with
      | .error _ => pure (.invalid, some .raiseExpectedObject)
      | .ok cfg => do
          let a ← alloc (.config cfg)
          let v : RValue := .rval (.ptr baseType) (.ptr (some ⟨a, []⟩))
          if t = baseType then do
            let w ← v.Elem
            pure (w, none)
          else do
            let w ← env.pointerize t baseType v
            pure (w, none)
    else if baseType.Kind == .Struct then
      match val.toConfig with
      | .error _ => do
          let (v, check) ← reifyPrimitive env opts val t baseType
          match check with
          | none => pure (v, none)
          | some _ => pure (.invalid, some .raiseExpectedObject)
      | .ok sub => do
          let newSt ← reflectNew baseType
          match ← r.reifyInto opts.opts newSt sub with
          | some err => pure (.invalid, some err)
          | none =>
              if t.Kind != .Ptr then do
                let w ← newSt.Elem
                pure (w, none)
              else do
                let w ← env.pointerize t baseType newSt
                pure (w, none)
    else
      match baseType with
      | .map k _ =>
          match val.toConfig with
          | .error _ => pure (.invalid, some .raiseExpectedObject)
          | .ok sub =>
              if k.Kind != .String then
                pure (.invalid, some .raiseKeyInvalidTypeUnpack)
              else do
                let newMap ← reflectMakeMap baseType
                match ← r.reifyInto opts.opts newMap sub with
                | some err => pure (.invalid, some err)
                | none => pure (newMap, none)
      | .slice _ => do
          let (v, err) ← r.reifySlice opts baseType (castArr env val)
          match err with
          | some e => pure (.invalid, some e)
          | none => do
              let w ← env.pointerize t baseType v
              pure (w, none)
      | _ => reifyPrimitive env opts val t baseType

/-- The function `reifyMergeValue` (reify.go 253-315). -/
def reifyMergeValue (env : Env) (r : Rec) (opts : FieldOptions) (oldValue : RValue) (val : Value) :
    M (RValue × Option Error) := do
  let old0 ← chaseValueInterfaces oldValue
  let t ← old0.Type
  let old ← chaseValuePointers old0
  let isNilRef ←
    if old.Kind == .Ptr || old.Kind == .Interface then old.IsNil else pure false
  if isNilRef then r.reifyValue opts t val
  else
    let baseType := chaseTypePointers (← old.Type)
    if convertibleFromConfig baseType then
      match val.toConfig with
      | .error _ => pure (.invalid, some .raiseExpectedObject)
      | .ok sub =>
          if t = baseType then pure (.invalid, some .raisePointerRequired)
          else do
            let isNilPtr ← if old.Kind == .Ptr then old.IsNil else pure false
            if isNilPtr then do
              let v ← env.convert (← env.reflect val) (.ptr baseType)
              let w ← env.pointerize t baseType v
              pure (w, none)
            else
              match ← chaseValuePointers old with
              | .lval tOld p =>
                  match ← readPlace p with
                  | .config subOld =>
                      if sub.id == subOld.id then pure (oldValue, none)
                      else do
                        let err ← mergeConfigAt env (.lval tOld p) sub
                        pure (oldValue, err)
                  | _ => goPanic
              | _ => goPanic
    else
      match baseType with
      | .map _ _ =>
          match val.toConfig with
          | .error _ => pure (.invalid, some .raiseExpectedObject)
          | .ok sub => do
              let err ← r.reifyMap opts.opts old sub
              pure (old, err)
      | .struct _ _ | .regexp =>
          match val.toConfig with
          | .error _ => pure (.invalid, some .raiseExpectedObject)
          | .ok sub => do
              let err ← r.reifyStruct opts.opts old sub
              pure (oldValue, err)
      | .array _ _ => r.reifyArray opts old baseType (castArr env val)
      | .slice _ => r.reifySlice opts baseType (castArr env val)
      | _ => reifyPrimitive env opts val t baseType

/-- The function `reifyArray` (reify.go 317-326). -/
def reifyArray (_env : Env) (r : Rec) (opts : FieldOptions) (dst : RValue) (tTo : RType)
    (arr : CfgArray) : M (RValue × Option Error) :=
  match tTo with
  | .array n elemT =>
      if arr.Len != n then pure (.invalid, some .raiseArraySize)
      else r.reifyDoArray opts dst elemT arr
  | _ => goPanic

/-- The function `reifySlice` (reify.go 328-335). -/
def reifySlice (_env : Env) (r : Rec) (opts : FieldOptions) (tTo : RType) (arr : CfgArray) :
    M (RValue × Option Error) := do
  let dst ← reflectMakeSlice tTo arr.Len
  match tTo with
  | .slice elemT => r.reifyDoArray opts dst elemT arr
  | _ => goPanic

/-- The function `reifyDoArray` (reify.go 337-355). The error of
`runValidators` is handed to `raiseValidation`, whose result is dropped. -/
def reifyDoArray (env : Env) (r : Rec) (opts : FieldOptions) (dst : RValue) (elemT : RType)
    (arr : CfgArray) : M (RValue × Option Error) := do
  let r ← forEachM (fun (ix : Nat × Value) => do
    let (v, err) ← r.reifyValue opts elemT ix.2
    match err with
    | some e => pure (some e)
    | none => do
        (← dst.Index ix.1).Set v
        pure none) arr.arr.enum
  match r with
  | some e => pure (.invalid, some e)
  | none =>
      if dst.isRO then goPanic
      else
        match env.runValidators (← getHeap) dst opts.validators with
        | some err =>
            let _dropped : Error := .raiseValidation err
            pure (dst, none)
        | none => pure (dst, none)

/-- The recursion closed: with fuel `0` every call gives up, with fuel `n + 1`
a call runs the body of its function, whose own calls have fuel `n`. -/
def reifier (env : Env) : Nat → Rec
  | 0 =>
      { fuel := 0
        reifyInto := fun _ _ _ => outOfFuel
        reifyMap := fun _ _ _ => outOfFuel
        reifyStruct := fun _ _ _ => outOfFuel
        reifyGetField := fun _ _ _ _ => outOfFuel
        reifyValue := fun _ _ _ => outOfFuel
        reifyMergeValue := fun _ _ _ => outOfFuel
        reifyArray := fun _ _ _ _ => outOfFuel
        reifySlice := fun _ _ _ => outOfFuel
        reifyDoArray := fun _ _ _ _ => outOfFuel }
  | n+1 =>
      { fuel := n + 1
        reifyInto := reifyInto env (reifier env n)
        reifyMap := reifyMap env (reifier env n)
        reifyStruct := reifyStruct env (reifier env n)
        reifyGetField := reifyGetField env (reifier env n)
        reifyValue := reifyValue env (reifier env n)
        reifyMergeValue := reifyMergeValue env (reifier env n)
        reifyArray := reifyArray env (reifier env n)
        reifySlice := reifySlice env (reifier env n)
        reifyDoArray := reifyDoArray env (reifier env n) }

/-- The method `Config.Unpack` (reify.go 10-26). The receiver `c` and the
argument `to` may be nil; `to` is an interface value, a type with data. -/
def Unpack (env : Env) (fuel : Nat) (c : Option Config) (dst : Option (RType × GVal))
    (options : List UnpackOption) : M (Option Error) :=
  let opts := env.makeOptions options
  match c with
  | none => pure (some (.raiseNil .ErrNilConfig))
  | some cfg =>
      match dst with
      | none => pure (some (.raiseNil .ErrNilValue))
      | some (t, v) =>
          let vTo := RValue.rval t v
          if vTo.Kind != .Ptr && vTo.Kind != .Map then pure (some .raisePointerRequired)
          else (reifier env fuel).reifyInto opts vTo cfg

/-! ## A sample environment

The theorems below hold for every `Env`. Closed examples need one: the
sample follows the specification where it speaks ("Int→String formats
decimal, String→Int parses", the tag options, the merge of two Configs) and
the documentation of the Go library for `time.ParseDuration` on literals
without a fraction. Floating point and regular expressions are not
interpreted by it. -/

/-- The value of a decimal digit. -/
def digitVal (c : Char) : Nat := c.toNat - 48

/-- The number written by a list of decimal digits. -/
def digitsVal (cs : List Char) : Nat := cs.foldl (fun n c => 10 * n + digitVal c) 0

/-- Nanoseconds of a unit of `time.ParseDuration`. -/
def unitNanos (u : String) : Option Int :=
  if u == "ns" then some 1
  else if u == "us" || u == "µs" || u == "μs" then some 1000
  else if u == "ms" then some 1000000
  else if u == "s" then some 1000000000
  else if u == "m" then some 60000000000
  else if u == "h" then some 3600000000000
  else none

/-- The groups `digits unit` of a duration literal, summed; `none` when the
text is not such a sequence. -/
def durationGroups : Nat → List Char → Option Int
  | 0, _ => none
  | fuel+1, cs =>
      let ds := cs.takeWhile Char.isDigit
      let rest := cs.dropWhile Char.isDigit
      let us := rest.takeWhile (fun c => !Char.isDigit c && c != '.')
      let tail := rest.dropWhile (fun c => !Char.isDigit c && c != '.')
      if ds.isEmpty then none
      else
        match unitNanos (String.mk us) with
        | none => none
        | some n =>
            if tail.isEmpty then some (digitsVal ds * n)
            else (durationGroups fuel tail).map (fun r => digitsVal ds * n + r)

/-- The sample `time.ParseDuration`: a signed sequence of whole numbers with
units, the literal `0`; every other text is rejected with duration 0. -/
def sampleParseDuration (s : String) : Int × Option Cause :=
  let neg := s.data.head? == some '-'
  let body := if s.data.head? == some '-' || s.data.head? == some '+' then s.data.drop 1 else s.data
  if body == ['0'] then (0, none)
  else
    match durationGroups (body.length + 1) body with
    | some d => if - 2 ^ 63 ≤ d ∧ d < 2 ^ 63 then (if neg then - d else d, none)
                else (0, some (.lib "time: invalid duration"))
    | none => (0, some (.lib "time: invalid duration"))

/-- The decimal numeral of a natural number, digit by digit. -/
def natDigits : Nat → Nat → List Char
  | 0, _ => []
  | fuel+1, n =>
      if n < 10 then [Char.ofNat (48 + n)]
      else natDigits fuel (n / 10) ++ [Char.ofNat (48 + n % 10)]

/-- The decimal numeral of an integer. -/
def intDecimal (i : Int) : String :=
  if i < 0 then String.mk ('-' :: natDigits 20 i.natAbs) else String.mk (natDigits 20 i.natAbs)

/-- The sample `toString`: scalars format; the other variants do not
coerce. -/
def sampleToString : Value → Except Cause String
  | .cfgBool b => .ok (if b then "true" else "false")
  | .cfgInt i => .ok (intDecimal i)
  | .cfgUint u => .ok (intDecimal u)
  | .cfgString s => .ok s
  | _ => .error (.sentinel .ErrTypeMismatch)

/-- The sample `toInt`: integers in the `int64` range; a string of decimal
digits with an optional sign parses. -/
def sampleToInt : Value → Except Cause Int
  | .cfgInt i => .ok i
  | .cfgUint u => if u < 2 ^ 63 then .ok u else .error (.sentinel .ErrOverflow)
  | .cfgString s =>
      let neg := s.data.head? == some '-'
      let body := if neg then s.data.drop 1 else s.data
      if !body.isEmpty && body.all Char.isDigit && digitsVal body < 2 ^ 63 then
        .ok (if neg then - (digitsVal body : Int) else digitsVal body)
      else .error (.sentinel .ErrTypeMismatch)
  | _ => .error (.sentinel .ErrTypeMismatch)

/-- The sample `toUint`. -/
def sampleToUint : Value → Except Cause Nat
  | .cfgUint u => .ok u
  | .cfgInt i => if 0 ≤ i then .ok i.toNat else .error (.sentinel .ErrTypeMismatch)
  | .cfgString s =>
      if !s.data.isEmpty && s.data.all Char.isDigit && digitsVal s.data < 2 ^ 64 then
        .ok (digitsVal s.data)
      else .error (.sentinel .ErrTypeMismatch)
  | _ => .error (.sentinel .ErrTypeMismatch)

/-- The sample `typ`: the native type of a scalar; the other variants are
handled as config nodes. -/
def sampleTyp : Value → RType
  | .cfgBool _ => .bool
  | .cfgInt _ => .int64
  | .cfgUint _ => .uint64
  | .cfgFloat _ => .float64
  | .cfgString _ => .string
  | _ => .ptr .config

/-- The sample `reflect`: a scalar as a value of its native type, an object
as a pointer to its node. -/
def sampleReflect : Value → M RValue
  | .cfgBool b => pure (.rval .bool (.bool b))
  | .cfgInt i => pure (.rval .int64 (.int i))
  | .cfgUint u => pure (.rval .uint64 (.uint u))
  | .cfgFloat f => pure (.rval .float64 (.float f))
  | .cfgString s => pure (.rval .string (.str s))
  | .cfgSub c => do
      let a ← alloc (.config c)
      pure (.rval (.ptr .config) (.ptr (some ⟨a, []⟩)))
  | _ => pure (.rval (.ptr .config) (.ptr none))

/-- The sample `pointerize`: nothing to do when the type is reached or the
target is an interface, else one pointer level is added per round, through a
fresh variable when the value is not addressable. -/
def samplePointerizeLoop : Nat → RType → RValue → M RValue
  | 0, _, v => pure v
  | n+1, t, v => do
      if t = (← v.Type) then pure v
      else if v.CanAddr then samplePointerizeLoop n t (← v.Addr)
      else do
        let tmp ← reflectNew (← v.Type)
        (← tmp.Elem).Set v
        samplePointerizeLoop n t tmp

/-- The sample `pointerize(t, base, v)`. -/
def samplePointerize (t base : RType) (v : RValue) : M RValue :=
  if t = base then pure v
  else if t.Kind == .Interface then pure v
  else samplePointerizeLoop (ptrDepth t) t v

/-- One step of the sample `mergeConfig`: the entry of `kv.1` in `dst` is
inserted, merged object into object, or overwritten. -/
def mergeEntry (mergeSub : Config → Config → Config) (dst : List (String × Value))
    (kv : String × Value) : List (String × Value) :=
  if dst.any (fun e => e.1 == kv.1) then
    dst.map (fun e =>
      if e.1 == kv.1 then
        match e.2, kv.2 with
        | .cfgSub a, .cfgSub b => (e.1, .cfgSub (mergeSub a b))
        | _, _ => (e.1, kv.2)
      else e)
  else dst ++ [kv]

/-- The sample `mergeConfig`, to a nesting depth of `fuel`. -/
def sampleMergeConfig : Nat → Config → Config → Config
  | 0, dst, _ => dst
  | fuel+1, dst, src =>
      .mk dst.id (src.fields.foldl (mergeEntry (sampleMergeConfig fuel)) dst.fields)

/-- The sample `parseTags`: the text before the first comma is the name,
`squash` after it sets the flag. -/
def sampleParseTags (tag : String) : String × TagOptions :=
  match stringsSplit tag "," with
  | [] => ("", ⟨false⟩)
  | name :: rest => (name, ⟨rest.any (fun o => o == "squash")⟩)

/-- The sample environment. -/
def sampleEnv : Env where
  makeOptions := fun os => os.foldl (fun o f => f o) ⟨"config", "validate", ""⟩
  Len := fun v =>
    match v with
    | .cfgNil => 0
    | .cfgArray a => a.length
    | _ => 1
  typ := sampleTyp
  reflect := sampleReflect
  reify := sampleReflect
  toString := sampleToString
  toInt := sampleToInt
  toUint := sampleToUint
  parseDuration := sampleParseDuration
  floatSeconds := fun _ => 0
  regexpCompile := fun _ => none
  convertibleTo := fun a b => decide (a = b)
  convert := fun v _ => pure v
  parseTags := sampleParseTags
  parseValidatorTags := fun _ => .ok []
  fieldName := fun tagName structName =>
    if tagName == "" then String.mk (structName.data.map Char.toLower) else tagName
  runValidators := fun _ _ _ => none
  tryValidate := fun _ _ => none
  mergeConfig := fun dst src => (sampleMergeConfig 64 dst src, none)
  pointerize := samplePointerize

/-- The sample environment with a validator that rejects every slice and
every array, and accepts every other value. -/
def strictSeqEnv : Env :=
  { sampleEnv with
    runValidators := fun _ v _ =>
      match v.Kind with
      | .Slice => some (.lib "sequence rejected")
      | .Array => some (.lib "sequence rejected")
      | _ => none }

/-- The descent of the reference path lookup, in the words of the spec: each
segment "must resolve to an existing Object-valued key in the current Config,
descending one level per segment (failing with `ErrMissingField` or
`ErrExpectedObject` on mismatch)". A failure names the segment it occurs at. -/
def descendSpec : Config → List String → Except (String × Error) Config
  | cfg, [] => .ok cfg
  | cfg, seg :: rest =>
      match cfg.get? seg with
      | none => .error (seg, .raiseMissing seg)
      | some (.cfgSub sub) => descendSpec sub rest
      | some _ => .error (seg, .raiseExpectedObject)

/-- The reference path lookup on the segments `s1..sn` of a name, in the words
of the spec: all but the last segment are descended through, "the last segment
is the actual lookup key in the final Config". -/
def pathLookupSpec (cfg : Config) (segs : List String) : Option Config × String × Option Error :=
  match descendSpec cfg segs.dropLast with
  | .ok sub => (some sub, segs.getLast?.getD "", none)
  | .error (seg, err) => (none, seg, some err)

/-- The sample type `struct { A int; B int }`. -/
def sampleInner : RType := .struct "Inner" (.cons "A" [] .int (.cons "B" [] .int .nil))

/-- The sample type with a squash field: `struct { Inner Inner }` where the
field carries the tag `config:",squash"`. -/
def sampleOuter : RType :=
  .struct "Outer" (.cons "Inner" [("config", ",squash")] sampleInner .nil)

/-- A sample Config with the keys `a` and `b` and a nested object named after
the squash field, holding other values under the same keys. -/
def sampleSquashConfig : Config :=
  .mk 0 [("a", .cfgInt 1), ("b", .cfgInt 2),
    ("inner", .cfgSub (.mk 1 [("a", .cfgInt 10), ("b", .cfgInt 20)]))]

/-- The sample type `struct { A int8; B int }` with `B` tagged
`config:",squash"`. -/
def sampleSquashScalar : RType :=
  .struct "S" (.cons "A" [] .int8 (.cons "B" [("config", ",squash")] .int .nil))

/-- The sample type `struct { M map[string]int; B int }` with `B` tagged
`config:",squash"`. -/
def sampleSquashAfterMap : RType :=
  .struct "S" (.cons "M" [] (.map .string .int) (.cons "B" [("config", ",squash")] .int .nil))

/-- The sample type `struct { B int; A int8 }` with the first field `B`
tagged `config:",squash"`. -/
def sampleSquashFirst : RType :=
  .struct "S" (.cons "B" [("config", ",squash")] .int (.cons "A" [] .int8 .nil))

/-! ## Notions used by the theorems -/

/-- A computation that leaves the heap as it found it. -/
def ReadOnly {α : Type} (m : M α) : Prop := ∀ h a h1, m h = .ret a h1 → h1 = h

/-- The types whose values hold no reference: booleans, integers, floats,
strings and durations. -/
def RType.isScalar : RType → Bool
  | .bool | .int | .int8 | .int16 | .int32 | .int64
  | .uint | .uint8 | .uint16 | .uint32 | .uint64
  | .float32 | .float64 | .string | .duration => true
  | _ => false

/-- Every field of the list is of a scalar type. -/
def FieldList.allScalar : FieldList → Bool
  | .nil => true
  | .cons _ _ t r => t.isScalar && r.allScalar

/-- The computation `m`, started on a heap of at least `n` cells, keeps the
first `n` cells as they are, and what it returns satisfies `Q`. -/
def Keeps {α : Type} (n : Nat) (m : M α) (Q : α → Prop) : Prop :=
  ∀ h a h1, n ≤ h.cells.length → m h = .ret a h1 →
    (n ≤ h1.cells.length ∧ ∀ b, b < n → h1.cells[b]? = h.cells[b]?) ∧ Q a

/-- The computation `m`, started on a heap of at least `n` cells, keeps the
first `n` cells as they are whenever it returns an error. -/
def KeepsOnError (n : Nat) (m : M (Option Error)) : Prop :=
  ∀ h e h1, n ≤ h.cells.length → m h = .ret (some e) h1 →
    ∀ b, b < n → h1.cells[b]? = h.cells[b]?

/-- The computation `m` never returns an error. -/
def ReturnsNone (m : M (Option Error)) : Prop :=
  ∀ h r h1, m h = .ret r h1 → r = none

/-- The value a map object holds under `key`, if any. -/
def entryOf (es : List (String × GVal)) (key : String) : Option GVal :=
  (es.find? (fun kv => kv.1 == key)).map (fun kv => kv.2)

/-- The call the loop of `reifyMap` makes for the source entry `kv` when the
map holds the entries `es`: `reifyValue` into the element type for a key that
is absent, `reifyMergeValue` against the old entry for a key that is present. -/
def entryCall (r : Rec) (opts : Options) (e : RType) (es : List (String × GVal))
    (kv : String × Value) : M (RValue × Option Error) :=
  match entryOf es kv.1 with
  | none => r.reifyValue (fieldOptionsOf opts) e kv.2
  | some old => r.reifyMergeValue (fieldOptionsOf opts) (.rval e old) kv.2

/-- The source value the loop of `reifyStruct` looks up for field `i` of a
struct with the fields `fs` when no path separator is set: the value of `cfg`
under the name `fieldName` gives the field. -/
def fieldValue (env : Env) (opts : Options) (cfg : Config) (fs : FieldList) (i : Nat) :
    Option Value :=
  match fs.get? i with
  | some (stName, stTag, _) =>
      cfg.get? (env.fieldName (env.parseTags (tagGet stTag opts.tag)).1 stName)
  | none => none

/-- What `reifyMap` of `src` leaves in a map object (cell `a`) that held the
entries `es`, stated of the entries `fin` it holds afterwards: a key is
present exactly when it was present before or is a key of the source; the
entry of a key that is no key of the source is as before; the entry of a
source key is the value `xv` stored from the result `w` of the call made for
it (`entryCall`: `reifyValue` for a key that was absent, `reifyMergeValue`
against the old entry for a key that was present), a call that ran on a heap
on which the map still held the old entry of that key and returned no
error. -/
def MergedEntries (r : Rec) (opts : Options) (e : RType) (a : Nat)
    (es fin : List (String × GVal)) (src : Config) : Prop :=
  (∀ key, (entryOf fin key).isSome = true ↔
    ((entryOf es key).isSome = true ∨ key ∈ src.fields.map (fun kv => kv.1))) ∧
  (∀ key, key ∉ src.fields.map (fun kv => kv.1) → entryOf fin key = entryOf es key) ∧
  (∀ kv, kv ∈ src.fields → ∃ ha w hb xv,
    (∃ c, ha.cells[a]? = some (.mapObj c) ∧ entryOf c kv.1 = entryOf es kv.1) ∧
    entryCall r opts e es kv ha = .ret (w, none) hb ∧
    storeAs e w hb = .ret xv hb ∧ entryOf fin kv.1 = some xv)

/-! ## Basic facts -/

@[simp] theorem pure_apply {α : Type} (a : α) (h : Heap) : (pure a : M α) h = .ret a h := rfl

@[simp] theorem bind_apply {α β : Type} (m : M α) (f : α → M β) (h : Heap) :
    (m >>= f) h = match m h with
      | .ret a h1 => f a h1
      | .panic => .panic
      | .diverge => .diverge := rfl

/-- Narrowing to the width of a kind keeps exactly the integers of the range
of that width. -/
theorem wrapInt_eq_iff (k : Kind) (i : Int) :
    wrapInt k.bits i = i ↔ - 2 ^ (k.bits - 1) ≤ i ∧ i < 2 ^ (k.bits - 1) := by
  cases k <;> simp only [Kind.bits, wrapInt] <;> norm_num <;> omega

/-- Within the range of the target `reifyInt` returns the integer itself. -/
theorem reifyInt_ok (env : Env) (opts : FieldOptions) (val : Value) (t : RType) (i : Int)
    (hi : env.toInt val = .ok i)
    (hr : - 2 ^ (t.Kind.bits - 1) ≤ i ∧ i < 2 ^ (t.Kind.bits - 1)) :
    reifyInt env opts val t = (.rval t (.int i), none) := by
  have hw := (wrapInt_eq_iff t.Kind i).mpr hr
  unfold reifyInt overflowInt
  rw [hi]
  simp [hw]

theorem reifier_fuel (env : Env) (n : Nat) : (reifier env n).fuel = n := by
  cases n <;> rfl

theorem ptrDepth_eq_zero (t : RType) (hp : t.Kind ≠ .Ptr) : ptrDepth t = 0 := by
  cases t <;> first | rfl | exact absurd rfl hp

theorem chaseTypePointers_self (t : RType) (hp : t.Kind ≠ .Ptr) : chaseTypePointers t = t := by
  cases t <;> first | rfl | exact absurd rfl hp

theorem convertibleFromConfig_false (t : RType) (hs : t.Kind ≠ .Struct) :
    convertibleFromConfig t = false := by
  cases t <;> first | rfl | exact absurd rfl hs

theorem chaseValuePointersLoop_stop (n : Nat) (v : RValue) (h : Heap) (hp : v.Kind ≠ .Ptr) :
    chaseValuePointersLoop n v h = .ret v h := by
  cases n <;> simp [chaseValuePointersLoop, hp]

theorem chaseValuePointers_stop (v : RValue) (h : Heap) (hp : v.Kind ≠ .Ptr) :
    chaseValuePointers v h = .ret v h := by
  cases v <;> simp [chaseValuePointers, chaseValuePointersLoop_stop _ _ _ hp]

theorem chaseValuePointers_ptr (t : RType) (p : Place) (h : Heap) (hp : t.Kind ≠ .Ptr) :
    chaseValuePointers (.rval (.ptr t) (.ptr (some p))) h = .ret (.lval t p) h := by
  have hk : (RValue.lval t p).Kind ≠ .Ptr := hp
  simp [chaseValuePointers, ptrDepth, chaseValuePointersLoop, RValue.IsNil, RValue.load,
    RValue.Elem, RValue.Kind, RType.Kind, RValue.Type, chaseValuePointersLoop_stop _ _ _ hk]

theorem chaseValue_stop (n : Nat) (v : RValue) (h : Heap) (hp : v.Kind ≠ .Ptr)
    (hi : v.Kind ≠ .Interface) : chaseValue (n + 1) v h = .ret v h := by
  simp [chaseValue, hp, hi]

theorem tryTConfig_none (n : Nat) (t : RType) (p : Place) (h : Heap) (hp : t.Kind ≠ .Ptr)
    (hi : t.Kind ≠ .Interface) (hs : t.Kind ≠ .Struct) :
    tryTConfig (n + 1) (.lval t p) h = .ret none h := by
  have := chaseValue_stop n (.lval t p) h hp hi
  simp [tryTConfig, this, convertibleFromConfig_false t hs]

theorem reifyInto_ptr_other (env : Env) (r : Rec) (n : Nat) (hr : r.fuel = n + 1) (opts : Options)
    (c : Config) (t : RType) (p : Place) (h : Heap)
    (hp : t.Kind ≠ .Ptr) (hi : t.Kind ≠ .Interface) (hm : t.Kind ≠ .Map) (hs : t.Kind ≠ .Struct) :
    reifyInto env r opts (.rval (.ptr t) (.ptr (some p))) c h
      = .ret (some .raiseInvalidTopLevelType) h := by
  simp only [reifyInto, bind_apply, chaseValuePointers_ptr t p h hp, hr,
    tryTConfig_none n t p h hp hi hs, RValue.Type, pure_apply, chaseTypePointers_self t hp,
    RValue.isRO, Bool.false_eq_true, if_false]

theorem readOnly_pure {α : Type} (a : α) : ReadOnly (pure a : M α) := by
  intro h b h1 e
  simp at e
  exact e.2.symm

theorem readOnly_bind {α β : Type} {m : M α} {f : α → M β} (hm : ReadOnly m)
    (hf : ∀ a, ReadOnly (f a)) : ReadOnly (m >>= f) := by
  intro h b h1 e
  simp only [bind_apply] at e
  cases hmh : m h with
  | ret a h2 =>
      rw [hmh] at e
      have := hm h a h2 hmh
      subst this
      exact hf a _ b h1 e
  | panic => rw [hmh] at e; cases e
  | diverge => rw [hmh] at e; cases e

theorem readOnly_goPanic {α : Type} : ReadOnly (goPanic : M α) := by
  intro h b h1 e; cases e

theorem readOnly_outOfFuel {α : Type} : ReadOnly (outOfFuel : M α) := by
  intro h b h1 e; cases e

theorem readOnly_readPlace (p : Place) : ReadOnly (readPlace p) := by
  intro h b h1 e
  unfold Ucfg.readPlace at e
  split at e
  · cases e; rfl
  · cases e

theorem readOnly_load (v : RValue) : ReadOnly v.load := by
  cases v
  · exact readOnly_goPanic
  · exact readOnly_pure _
  · exact readOnly_readPlace _
  · exact readOnly_pure _
  · exact readOnly_readPlace _

theorem readOnly_Type (v : RValue) : ReadOnly v.Type := by
  cases v
  · exact readOnly_goPanic
  · exact readOnly_pure _
  · exact readOnly_pure _
  · exact readOnly_pure _
  · exact readOnly_pure _

theorem readOnly_IsNil (v : RValue) : ReadOnly v.IsNil := by
  unfold RValue.IsNil
  refine readOnly_bind (readOnly_load v) (fun a => ?_)
  split <;> first | exact readOnly_pure _ | exact readOnly_goPanic

theorem readOnly_Elem (v : RValue) : ReadOnly v.Elem := by
  unfold RValue.Elem
  refine readOnly_bind (readOnly_load v) (fun a => ?_)
  split
  · refine readOnly_bind (readOnly_Type v) (fun t => ?_)
    split <;> first | exact readOnly_pure _ | exact readOnly_goPanic
  all_goals first | exact readOnly_pure _ | exact readOnly_goPanic

theorem readOnly_chaseValuePointersLoop (n : Nat) : ∀ v, ReadOnly (chaseValuePointersLoop n v) := by
  induction n with
  | zero => intro v; exact readOnly_pure _
  | succ n ih =>
      intro v
      unfold Ucfg.chaseValuePointersLoop
      split
      · refine readOnly_bind (readOnly_IsNil v) (fun b => ?_)
        split
        · exact readOnly_bind (readOnly_Elem v) (fun w => ih w)
        · exact readOnly_pure _
      · exact readOnly_pure _

theorem readOnly_chaseValuePointers (v : RValue) : ReadOnly (chaseValuePointers v) := by
  cases v
  · exact readOnly_pure _
  · exact readOnly_chaseValuePointersLoop _ _
  · exact readOnly_chaseValuePointersLoop _ _
  · exact readOnly_chaseValuePointersLoop _ _
  · exact readOnly_chaseValuePointersLoop _ _

theorem readOnly_chaseValue (n : Nat) : ∀ v, ReadOnly (chaseValue n v) := by
  induction n with
  | zero => intro v; exact readOnly_outOfFuel
  | succ n ih =>
      intro v
      unfold Ucfg.chaseValue
      split
      · refine readOnly_bind (readOnly_IsNil v) (fun b => ?_)
        split
        · exact readOnly_bind (readOnly_Elem v) (fun w => ih w)
        · exact readOnly_pure _
      · exact readOnly_pure _

theorem readOnly_tryTConfig (n : Nat) (v : RValue) : ReadOnly (tryTConfig n v) := by
  unfold Ucfg.tryTConfig
  refine readOnly_bind (readOnly_chaseValue n v) (fun w => ?_)
  split
  · exact readOnly_pure _
  · split <;> exact readOnly_pure _
  · split <;> exact readOnly_pure _
  · split <;> exact readOnly_pure _
  · split <;> exact readOnly_pure _

theorem setPath_append_index (path : List Nat) : ∀ (v : GVal) (zs : List GVal) (k : Nat) (w : GVal),
    v.getPath path = some (.array zs) → k < zs.length →
    ∃ v1, v.setPath (path ++ [k]) w = some v1 ∧ v1.getPath path = some (.array (zs.set k w)) := by
  induction path with
  | nil =>
      intro v zs k w hg hk
      simp only [GVal.getPath, Option.some.injEq] at hg
      subst hg
      refine ⟨.array (zs.set k w), ?_, ?_⟩
      · simp [GVal.setPath, List.getElem?_eq_getElem hk]
      · simp [GVal.getPath]
  | cons i rest ih =>
      intro v zs k w hg hk
      cases v with
      | array xs =>
          simp only [GVal.getPath] at hg
          cases hx : xs[i]? with
          | none => rw [hx] at hg; cases hg
          | some x =>
              rw [hx] at hg
              obtain ⟨v1, hs, hgp⟩ := ih x zs k w hg hk
              have hi : i < xs.length := by
                rcases Nat.lt_or_ge i xs.length with h | h
                · exact h
                · rw [List.getElem?_eq_none h] at hx; cases hx
              refine ⟨.array (xs.set i v1), ?_, ?_⟩
              · simp [GVal.setPath, hx, hs]
              · simp [GVal.getPath, hi, hgp]
      | struct xs =>
          simp only [GVal.getPath] at hg
          cases hx : xs[i]? with
          | none => rw [hx] at hg; cases hg
          | some x =>
              rw [hx] at hg
              obtain ⟨v1, hs, hgp⟩ := ih x zs k w hg hk
              have hi : i < xs.length := by
                rcases Nat.lt_or_ge i xs.length with h | h
                · exact h
                · rw [List.getElem?_eq_none h] at hx; cases hx
              refine ⟨.struct (xs.set i v1), ?_, ?_⟩
              · simp [GVal.setPath, hx, hs]
              · simp [GVal.getPath, hi, hgp]
      | _ => simp [GVal.getPath] at hg

theorem Heap.write_index (h : Heap) (p : Place) (zs : List GVal) (k : Nat) (w : GVal)
    (hr : h.read p = some (.array zs)) (hk : k < zs.length) :
    ∃ h1, h.write ⟨p.cell, p.path ++ [k]⟩ w = some h1 ∧
      h1.read p = some (.array (zs.set k w)) := by
  unfold Heap.read at hr
  cases hc : h.cells[p.cell]? with
  | none => rw [hc] at hr; cases hr
  | some v =>
      rw [hc] at hr
      obtain ⟨v1, hs, hg⟩ := setPath_append_index p.path v zs k w hr hk
      have hi : p.cell < h.cells.length := by
        rcases Nat.lt_or_ge p.cell h.cells.length with h' | h'
        · exact h'
        · rw [List.getElem?_eq_none h'] at hc; cases hc
      refine ⟨⟨h.cells.set p.cell v1⟩, ?_, ?_⟩
      · simp [Heap.write, hc, hs]
      · simp [Heap.read, hi, hg]

theorem storeAs_same (e : RType) (x : GVal) (h : Heap) :
    storeAs e (.rval e x) h = .ret x h := by
  cases e <;> simp [storeAs, RValue.Type, RValue.load]

theorem reifyDoArray_loop (r : Rec) (opts : FieldOptions) (e : RType) (n : Nat) (p : Place)
    (x : Nat → GVal) :
    ∀ (vs : List Value) (k : Nat) (zs : List GVal) (h : Heap),
      h.read p = some (.array zs) → zs.length = n → k + vs.length = n →
      (∀ i v, vs[i]? = some v → ∀ h1, ∃ w h2,
        r.reifyValue opts e v h1 = .ret (w, none) h2 ∧
        storeAs e w h2 = .ret (x (k + i)) h2 ∧
        h2.cells[p.cell]? = h1.cells[p.cell]?) →
      ∃ h1 zs1,
        forEachM (fun (ix : Nat × Value) => do
          let (v, err) ← r.reifyValue opts e ix.2
          match err with
          | some er => pure (some er)
          | none => do
              (← (RValue.lval (.array n e) p).Index ix.1).Set v
              pure none) (vs.enumFrom k) h = .ret none h1 ∧
        h1.read p = some (.array zs1) ∧ zs1.length = n ∧
        (∀ i, i < k → zs1[i]? = zs[i]?) ∧
        (∀ i, k ≤ i → i < n → zs1[i]? = some (x i)) := by
  intro vs
  induction vs with
  | nil =>
      intro k zs h hr hl hk _
      refine ⟨h, zs, rfl, hr, hl, fun _ _ => rfl, ?_⟩
      intro i h1 h2
      simp at hk
      omega
  | cons v rest ih =>
      intro k zs h hr hl hk hconv
      have hkn : k < n := by simp at hk; omega
      obtain ⟨w, h0, hrv, hst, hcell⟩ := hconv 0 v (by simp) h
      have hr0 : h0.read p = some (.array zs) := by
        simp only [Heap.read, hcell]
        exact hr
      obtain ⟨h2, hw, hr2⟩ := Heap.write_index h0 p zs k (x k) hr0 (by omega)
      obtain ⟨h3, zs3, hloop, hr3, hl3, hlow, hhigh⟩ :=
        ih (k + 1) (zs.set k (x k)) h2 hr2 (by simp [hl]) (by simp at hk; omega)
          (fun i u hi h1 => by
            have := hconv (i + 1) u (by simpa using hi) h1
            rw [show k + (i + 1) = k + 1 + i by omega] at this
            exact this)
      refine ⟨h3, zs3, ?_, hr3, hl3, ?_, ?_⟩
      · simp only [List.enumFrom, forEachM, bind_apply]
        simp only [Nat.add_zero] at hst
        simp only [hrv, RValue.Index, hkn, if_true, pure_apply, RValue.Set,
          hst, bind_apply, writePlace, hw]
        exact hloop
      · intro i hi
        rw [hlow i (by omega)]
        simp [List.getElem?_set, show k ≠ i by omega]
      · intro i hi1 hi2
        rcases Nat.eq_or_lt_of_le hi1 with heq | hlt
        · subst heq
          rw [hlow k (by omega)]
          simp [List.getElem?_set, show k < zs.length by omega]
        · exact hhigh i (by omega) hi2

theorem keeps_pure {α : Type} {n : Nat} {Q : α → Prop} (a : α) (hQ : Q a) :
    Keeps n (pure a : M α) Q := by
  intro h b h1 hn e
  simp at e
  obtain ⟨rfl, rfl⟩ := e
  exact ⟨⟨hn, fun _ _ => rfl⟩, hQ⟩

theorem keeps_bind {α β : Type} {n : Nat} {m : M α} {f : α → M β} {Q : α → Prop}
    {R : β → Prop} (hm : Keeps n m Q) (hf : ∀ a, Q a → Keeps n (f a) R) :
    Keeps n (m >>= f) R := by
  intro h b h1 hn e
  simp only [bind_apply] at e
  cases hmh : m h with
  | ret a h2 =>
      rw [hmh] at e
      obtain ⟨⟨hl, hk⟩, hq⟩ := hm h a h2 hn hmh
      obtain ⟨⟨hl2, hk2⟩, hr⟩ := hf a hq h2 b h1 hl e
      exact ⟨⟨hl2, fun c hc => (hk2 c hc).trans (hk c hc)⟩, hr⟩
  | panic => rw [hmh] at e; cases e
  | diverge => rw [hmh] at e; cases e

theorem keeps_weaken {α : Type} {n : Nat} {m : M α} {Q R : α → Prop} (hm : Keeps n m Q)
    (hqr : ∀ a, Q a → R a) : Keeps n m R := by
  intro h a h1 hn e
  exact ⟨(hm h a h1 hn e).1, hqr a (hm h a h1 hn e).2⟩

theorem keeps_of_readOnly {α : Type} {n : Nat} {m : M α} (hm : ReadOnly m) :
    Keeps n m (fun _ => True) := by
  intro h a h1 hn e
  have := hm h a h1 e
  subst this
  exact ⟨⟨hn, fun _ _ => rfl⟩, trivial⟩

theorem keeps_goPanic {α : Type} {n : Nat} {Q : α → Prop} : Keeps n (goPanic : M α) Q := by
  intro h a h1 _ e; cases e

theorem keeps_outOfFuel {α : Type} {n : Nat} {Q : α → Prop} : Keeps n (outOfFuel : M α) Q := by
  intro h a h1 _ e; cases e

theorem keeps_alloc {n : Nat} (v : GVal) : Keeps n (alloc v) (fun a => n ≤ a) := by
  intro h a h1 hn e
  simp only [Ucfg.alloc, Outcome.ret.injEq] at e
  obtain ⟨rfl, rfl⟩ := e
  refine ⟨⟨?_, ?_⟩, hn⟩
  · simp; omega
  · intro b hb
    simp [List.getElem?_append_left (show b < h.cells.length by omega)]

theorem keeps_writePlace {n : Nat} (p : Place) (w : GVal) (hp : n ≤ p.cell) :
    Keeps n (writePlace p w) (fun _ => True) := by
  intro h a h1 hn e
  unfold Ucfg.writePlace at e
  cases hw : h.write p w with
  | none => rw [hw] at e; cases e
  | some h2 =>
      rw [hw] at e
      simp only [Outcome.ret.injEq] at e
      obtain ⟨_, rfl⟩ := e
      unfold Heap.write at hw
      cases hc : h.cells[p.cell]? with
      | none => rw [hc] at hw; cases hw
      | some v =>
          rw [hc] at hw
          simp only at hw
          cases hs : v.setPath p.path w with
          | none => rw [hs] at hw; cases hw
          | some y =>
              rw [hs] at hw
              simp only [Option.map_some', Option.some.injEq] at hw
              subst hw
              refine ⟨⟨by simpa using hn, ?_⟩, trivial⟩
              intro b hb
              simp [List.getElem?_set, show p.cell ≠ b by omega]

theorem keeps_forEachM {α : Type} {n : Nat} {body : α → M (Option Error)}
    (hb : ∀ x, Keeps n (body x) (fun _ => True)) :
    ∀ l, Keeps n (forEachM body l) (fun _ => True) := by
  intro l
  induction l with
  | nil => exact keeps_pure _ trivial
  | cons x xs ih =>
      unfold Ucfg.forEachM
      refine keeps_bind (hb x) (fun r _ => ?_)
      split
      · exact keeps_pure _ trivial
      · exact ih

theorem isScalar_kind (t : RType) (ht : t.isScalar = true) :
    t.Kind ≠ .Ptr ∧ t.Kind ≠ .Interface ∧ t.Kind ≠ .Struct ∧ t.Kind ≠ .Map ∧
    (∀ k e, t ≠ .map k e) ∧ (∀ n fs, t ≠ .struct n fs) ∧ t ≠ .regexp ∧
    (∀ n e, t ≠ .array n e) ∧ (∀ e, t ≠ .slice e) := by
  cases t <;> simp_all [RType.isScalar, RType.Kind]

theorem reifyMergeValue_scalar (env : Env) (r : Rec) (opts : FieldOptions) (t : RType)
    (pl : Place) (val : Value) (ht : t.isScalar = true) (h : Heap) :
    reifyMergeValue env r opts (.lval t pl) val h = reifyPrimitive env opts val t t h := by
  obtain ⟨hp, hi, hs, hm, hmap, hst, hre, har, hsl⟩ := isScalar_kind t ht
  have hk2 : (RValue.lval t pl).Kind ≠ .Ptr := hp
  have hb : ((RValue.lval t pl).Kind == Kind.Ptr) = false := by simp [RValue.Kind, hp]
  have hb2 : ((RValue.lval t pl).Kind == Kind.Interface) = false := by simp [RValue.Kind, hi]
  have hc : chaseValuePointers (.lval t pl) = pure (.lval t pl) := by
    funext h1; exact chaseValuePointers_stop _ h1 hk2
  have hcf := convertibleFromConfig_false t hs
  have hct := chaseTypePointers_self t hp
  simp only [reifyMergeValue, chaseValueInterfaces, hb, hb2, hc, RValue.Type, bind_apply,
    pure_apply, if_false, Bool.false_eq_true, hcf, hct, Bool.or_false, Bool.or_self]

theorem reifyMergeValue_scalar_ro (env : Env) (r : Rec) (opts : FieldOptions) (t : RType)
    (pl : Place) (val : Value) (ht : t.isScalar = true) (h : Heap) :
    reifyMergeValue env r opts (.rolval t pl) val h = reifyPrimitive env opts val t t h := by
  obtain ⟨hp, hi, hs, hm, hmap, hst, hre, har, hsl⟩ := isScalar_kind t ht
  have hk2 : (RValue.rolval t pl).Kind ≠ .Ptr := hp
  have hb : ((RValue.rolval t pl).Kind == Kind.Ptr) = false := by simp [RValue.Kind, hp]
  have hb2 : ((RValue.rolval t pl).Kind == Kind.Interface) = false := by simp [RValue.Kind, hi]
  have hc : chaseValuePointers (.rolval t pl) = pure (.rolval t pl) := by
    funext h1; exact chaseValuePointers_stop _ h1 hk2
  have hcf := convertibleFromConfig_false t hs
  have hct := chaseTypePointers_self t hp
  simp only [reifyMergeValue, chaseValueInterfaces, hb, hb2, hc, RValue.Type, bind_apply,
    pure_apply, if_false, Bool.false_eq_true, hcf, hct, Bool.or_false, Bool.or_self]

theorem readOnly_getHeap : ReadOnly getHeap := by
  intro h a h1 e
  simp only [Ucfg.getHeap, Outcome.ret.injEq] at e
  exact e.2.symm

theorem keeps_doReifyPrimitive (env : Env) (n : Nat) (opts : FieldOptions) (val : Value)
    (base : RType)
    (hrf : ∀ v, Keeps n (env.reflect v) (fun _ => True))
    (hcv : ∀ v t, Keeps n (env.convert v t) (fun _ => True)) :
    Keeps n (doReifyPrimitive env opts val base) (fun _ => True) := by
  unfold Ucfg.doReifyPrimitive reifyRegexp
  dsimp only
  repeat' first
    | exact keeps_pure _ trivial
    | exact keeps_goPanic
    | exact hrf _
    | exact hcv _ _
    | exact keeps_weaken (keeps_alloc _) (fun _ _ => trivial)
    | refine keeps_bind (Q := fun _ => True) ?_ (fun _ _ => ?_)
    | split

theorem keeps_reifyPrimitive (env : Env) (n : Nat) (opts : FieldOptions) (val : Value)
    (t : RType)
    (hpz : ∀ t v, env.pointerize t t v = (Pure.pure v : M RValue))
    (hrf : ∀ v, Keeps n (env.reflect v) (fun _ => True))
    (hcv : ∀ v t, Keeps n (env.convert v t) (fun _ => True)) :
    Keeps n (reifyPrimitive env opts val t t) (fun _ => True) := by
  unfold Ucfg.reifyPrimitive
  simp only [hpz]
  repeat' first
    | exact keeps_pure _ trivial
    | exact keeps_goPanic
    | exact keeps_doReifyPrimitive env n opts _ _ hrf hcv
    | exact keeps_of_readOnly readOnly_getHeap
    | refine keeps_bind (Q := fun _ => True) ?_ (fun _ _ => ?_)
    | split

theorem pure_bind_M {α β : Type} (a : α) (f : α → M β) : (pure a >>= f) = f a := by
  funext h; rfl

theorem bind_assoc_M {α β γ : Type} (m : M α) (f : α → M β) (g : β → M γ) :
    (m >>= f >>= g) = (m >>= fun a => f a >>= g) := by
  funext h
  simp only [bind_apply]
  cases m h <;> rfl

theorem keepsOnError_of_keeps {n : Nat} {m : M (Option Error)} {Q : Option Error → Prop}
    (hm : Keeps n m Q) : KeepsOnError n m := by
  intro h e h1 hn hr
  exact (hm h _ h1 hn hr).1.2

theorem keepsOnError_bind {α : Type} {n : Nat} {m : M α} {f : α → M (Option Error)}
    {Q : α → Prop} (hm : Keeps n m Q) (hf : ∀ a, Q a → KeepsOnError n (f a)) :
    KeepsOnError n (m >>= f) := by
  intro h e h1 hn hr
  simp only [bind_apply] at hr
  cases hmh : m h with
  | ret a h2 =>
      rw [hmh] at hr
      obtain ⟨⟨hl, hk⟩, hq⟩ := hm h a h2 hn hmh
      intro b hb
      exact (hf a hq h2 e h1 hl hr b hb).trans (hk b hb)
  | panic => rw [hmh] at hr; cases hr
  | diverge => rw [hmh] at hr; cases hr

theorem keepsOnError_of_returnsNone {n : Nat} {m : M (Option Error)} (hm : ReturnsNone m) :
    KeepsOnError n m := by
  intro h e h1 _ hr
  cases hm h _ h1 hr

theorem returnsNone_pure_none : ReturnsNone (pure none) := by
  intro h r h1 e
  simp at e
  exact e.1.symm

theorem returnsNone_bind {α : Type} {m : M α} {f : α → M (Option Error)}
    (hf : ∀ a, ReturnsNone (f a)) : ReturnsNone (m >>= f) := by
  intro h r h1 e
  simp only [bind_apply] at e
  cases hmh : m h with
  | ret a h2 => rw [hmh] at e; exact hf a h2 r h1 e
  | panic => rw [hmh] at e; cases e
  | diverge => rw [hmh] at e; cases e

theorem readOnly_storeAs (t : RType) (v : RValue) : ReadOnly (storeAs t v) := by
  unfold Ucfg.storeAs
  split
  · exact readOnly_goPanic
  · refine readOnly_bind (readOnly_Type v) (fun a => ?_)
    refine readOnly_bind (readOnly_load v) (fun x => ?_)
    split
    · exact readOnly_pure _
    · exact readOnly_pure _
    · split
      · exact readOnly_pure _
      · exact readOnly_goPanic

theorem keeps_Set {n : Nat} (t : RType) (pl : Place) (v : RValue) (hp : n ≤ pl.cell) :
    Keeps n ((RValue.lval t pl).Set v) (fun _ => True) := by
  unfold RValue.Set
  exact keeps_bind (keeps_of_readOnly (readOnly_storeAs t v))
    (fun x _ => keeps_writePlace pl x hp)

theorem keeps_Set_ro {n : Nat} (t : RType) (pl : Place) (v : RValue) :
    Keeps n ((RValue.rolval t pl).Set v) (fun _ => True) :=
  keeps_goPanic

theorem keeps_chaseValue_scalar {n : Nat} (k : Nat) (t : RType) (pl : Place)
    (ht : t.isScalar = true) :
    Keeps n (chaseValue k (.lval t pl)) (fun v => v = .lval t pl) := by
  obtain ⟨hp, hi, _⟩ := isScalar_kind t ht
  cases k with
  | zero => exact keeps_outOfFuel
  | succ k =>
      have : chaseValue (k + 1) (.lval t pl) = Pure.pure (.lval t pl) := by
        funext h; exact chaseValue_stop k _ h hp hi
      rw [this]
      exact keeps_pure _ rfl

theorem keeps_chaseValue_scalar_ro {n : Nat} (k : Nat) (t : RType) (pl : Place)
    (ht : t.isScalar = true) :
    Keeps n (chaseValue k (.rolval t pl)) (fun v => v = .rolval t pl) := by
  obtain ⟨hp, hi, _⟩ := isScalar_kind t ht
  cases k with
  | zero => exact keeps_outOfFuel
  | succ k =>
      have : chaseValue (k + 1) (.rolval t pl) = Pure.pure (.rolval t pl) := by
        funext h; exact chaseValue_stop k _ h hp hi
      rw [this]
      exact keeps_pure _ rfl

theorem keeps_reifier_reifyMergeValue (env : Env) (n k : Nat) (opts : FieldOptions) (t : RType)
    (pl : Place) (val : Value) (ht : t.isScalar = true)
    (hpz : ∀ t v, env.pointerize t t v = (Pure.pure v : M RValue))
    (hrf : ∀ v, Keeps n (env.reflect v) (fun _ => True))
    (hcv : ∀ v t, Keeps n (env.convert v t) (fun _ => True)) :
    Keeps n ((reifier env k).reifyMergeValue opts (.lval t pl) val) (fun _ => True) := by
  cases k with
  | zero => exact keeps_outOfFuel
  | succ k =>
      have : (reifier env (k + 1)).reifyMergeValue opts (.lval t pl) val
          = Ucfg.reifyPrimitive env opts val t t := by
        funext h; exact reifyMergeValue_scalar env _ opts t pl val ht h
      rw [this]
      exact keeps_reifyPrimitive env n opts val t hpz hrf hcv

theorem keeps_reifier_reifyMergeValue_ro (env : Env) (n k : Nat) (opts : FieldOptions) (t : RType)
    (pl : Place) (val : Value) (ht : t.isScalar = true)
    (hpz : ∀ t v, env.pointerize t t v = (Pure.pure v : M RValue))
    (hrf : ∀ v, Keeps n (env.reflect v) (fun _ => True))
    (hcv : ∀ v t, Keeps n (env.convert v t) (fun _ => True)) :
    Keeps n ((reifier env k).reifyMergeValue opts (.rolval t pl) val) (fun _ => True) := by
  cases k with
  | zero => exact keeps_outOfFuel
  | succ k =>
      have : (reifier env (k + 1)).reifyMergeValue opts (.rolval t pl) val
          = Ucfg.reifyPrimitive env opts val t t := by
        funext h; exact reifyMergeValue_scalar_ro env _ opts t pl val ht h
      rw [this]
      exact keeps_reifyPrimitive env n opts val t hpz hrf hcv

theorem keeps_reifier_reifyGetField (env : Env) (n k : Nat) (cfg : Config) (opts : FieldOptions)
    (name : String) (t : RType) (pl : Place) (ht : t.isScalar = true) (hp : n ≤ pl.cell)
    (hpz : ∀ t v, env.pointerize t t v = (Pure.pure v : M RValue))
    (hrf : ∀ v, Keeps n (env.reflect v) (fun _ => True))
    (hcv : ∀ v t, Keeps n (env.convert v t) (fun _ => True)) :
    Keeps n ((reifier env k).reifyGetField cfg opts name (.lval t pl)) (fun _ => True) := by
  cases k with
  | zero => exact keeps_outOfFuel
  | succ k =>
      show Keeps n (reifyGetField env (reifier env k) cfg opts name (.lval t pl)) _
      unfold Ucfg.reifyGetField
      repeat' first
        | exact keeps_pure _ trivial
        | exact keeps_goPanic
        | exact keeps_reifier_reifyMergeValue env n k _ t pl _ ht hpz hrf hcv
        | exact keeps_Set t pl _ hp
        | refine keeps_bind (Q := fun _ => True) ?_ (fun _ _ => ?_)
        | split

theorem keeps_reifier_reifyGetField_ro (env : Env) (n k : Nat) (cfg : Config) (opts : FieldOptions)
    (name : String) (t : RType) (pl : Place) (ht : t.isScalar = true) (hp : n ≤ pl.cell)
    (hpz : ∀ t v, env.pointerize t t v = (Pure.pure v : M RValue))
    (hrf : ∀ v, Keeps n (env.reflect v) (fun _ => True))
    (hcv : ∀ v t, Keeps n (env.convert v t) (fun _ => True)) :
    Keeps n ((reifier env k).reifyGetField cfg opts name (.rolval t pl)) (fun _ => True) := by
  cases k with
  | zero => exact keeps_outOfFuel
  | succ k =>
      show Keeps n (reifyGetField env (reifier env k) cfg opts name (.rolval t pl)) _
      unfold Ucfg.reifyGetField
      repeat' first
        | exact keeps_pure _ trivial
        | exact keeps_goPanic
        | exact keeps_reifier_reifyMergeValue_ro env n k _ t pl _ ht hpz hrf hcv
        | exact keeps_Set_ro t pl _
        | refine keeps_bind (Q := fun _ => True) ?_ (fun _ _ => ?_)
        | split

theorem allScalar_get : ∀ (fs : FieldList), fs.allScalar = true →
    ∀ i nm tg t, fs.get? i = some (nm, tg, t) → t.isScalar = true
  | .nil, _, i, _, _, _, h => by cases i <;> simp [FieldList.get?] at h
  | .cons _ _ t r, hfs, 0, _, _, t1, h => by
      simp only [FieldList.allScalar, Bool.and_eq_true] at hfs
      simp only [FieldList.get?, Option.some.injEq, Prod.mk.injEq] at h
      rw [← h.2.2]; exact hfs.1
  | .cons _ _ _ r, hfs, i+1, nm, tg, t1, h => by
      simp only [FieldList.allScalar, Bool.and_eq_true] at hfs
      exact allScalar_get r hfs.2 i nm tg t1 (by simpa [FieldList.get?] using h)

theorem keepsOnError_reifyStruct (env : Env) (n k : Nat) (opts : Options) (name : String)
    (fs : FieldList) (p : Place) (cfg : Config) (hfs : fs.allScalar = true)
    (hpz : ∀ t v, env.pointerize t t v = (Pure.pure v : M RValue))
    (hrf : ∀ v, Keeps n (env.reflect v) (fun _ => True))
    (hcv : ∀ v t, Keeps n (env.convert v t) (fun _ => True)) :
    KeepsOnError n (reifyStruct env (reifier env k) opts (.lval (.struct name fs) p) cfg) := by
  have hc : chaseValuePointers (.lval (.struct name fs) p)
      = Pure.pure (.lval (.struct name fs) p) := by
    funext h1; exact chaseValuePointers_stop _ h1 (by simp [RValue.Kind, RType.Kind])
  have hc2 : ∀ a : Nat, chaseValuePointers
      (.rval (.ptr (.struct name fs)) (.ptr (some ⟨a, []⟩)))
      = Pure.pure (.lval (.struct name fs) ⟨a, []⟩) := by
    intro a; funext h1
    exact chaseValuePointers_ptr _ _ h1 (by simp [RType.Kind])
  unfold Ucfg.reifyStruct
  simp only [hc, pure_bind_M, RValue.Type, chaseTypePointers, reflectNew, bind_assoc_M, hc2,
    RValue.Kind, RType.Kind, beq_self_eq_true, if_true, RValue.NumField, reifyStructField]
  refine keepsOnError_bind (keeps_alloc _) (fun a ha => ?_)
  refine keepsOnError_bind (keeps_Set _ ⟨a, []⟩ _ ha) (fun _ _ => ?_)
  refine keepsOnError_bind (Q := fun _ => True) (keeps_forEachM (fun i => ?_) _) (fun r _ => ?_)
  · simp only [reifyStructField, RValue.Type, pure_bind_M]
    cases hg : fs.get? i with
    | none => exact keeps_goPanic
    | some f =>
        obtain ⟨stName, stTag, t⟩ := f
        have ht := allScalar_get fs hfs i stName stTag t hg
        simp only [RValue.Field, hg, List.nil_append]
        by_cases hex : isExported stName = true
        · simp only [hex, if_true, pure_bind_M]
          split
          · exact keeps_pure _ trivial
          · split
            · refine keeps_bind (keeps_chaseValue_scalar _ t ⟨a, [i]⟩ ht) (fun v hv => ?_)
              subst hv
              obtain ⟨hp, hi, hs, hm, _⟩ := isScalar_kind t ht
              split
              · rename_i hk; exact absurd hk hs
              · rename_i hk; exact absurd hk hm
              · exact keeps_pure _ trivial
            · exact keeps_reifier_reifyGetField env n k cfg _ _ t ⟨a, [i]⟩ ht ha hpz hrf hcv
        · rw [if_neg hex]
          simp only [pure_bind_M]
          split
          · exact keeps_pure _ trivial
          · split
            · refine keeps_bind (keeps_chaseValue_scalar_ro _ t ⟨a, [i]⟩ ht) (fun v hv => ?_)
              subst hv
              obtain ⟨hp, hi, hs, hm, _⟩ := isScalar_kind t ht
              split
              · rename_i hk; exact absurd hk hs
              · rename_i hk; exact absurd hk hm
              · exact keeps_pure _ trivial
            · exact keeps_reifier_reifyGetField_ro env n k cfg _ _ t ⟨a, [i]⟩ ht ha hpz hrf
                hcv
  · split
    · exact keepsOnError_of_keeps (keeps_pure (Q := fun _ => True) _ trivial)
    · refine keepsOnError_bind (keeps_of_readOnly readOnly_getHeap) (fun hh _ => ?_)
      split
      · exact keepsOnError_of_keeps (keeps_pure (Q := fun _ => True) _ trivial)
      · exact keepsOnError_of_returnsNone
          (returnsNone_bind (fun _ => returnsNone_bind (fun _ => returnsNone_pure_none)))

theorem tryTConfig_struct (k : Nat) (name : String) (fs : FieldList) (p : Place) (h : Heap) :
    tryTConfig (k + 1) (.lval (.struct name fs) p) h = .ret none h := by
  have := chaseValue_stop k (.lval (.struct name fs) p) h (by simp [RValue.Kind, RType.Kind])
    (by simp [RValue.Kind, RType.Kind])
  simp [tryTConfig, this, convertibleFromConfig]

theorem Unpack_ptr_struct (env : Env) (k : Nat) (c : Config) (name : String) (fs : FieldList)
    (p : Place) (options : List UnpackOption) (h : Heap) :
    Unpack env (k + 2) (some c) (some (.ptr (.struct name fs), .ptr (some p))) options h
      = reifyStruct env (reifier env k) (env.makeOptions options)
          (.lval (.struct name fs) p) c h := by
  have e1 : (reifier env (k + 2)).reifyInto = reifyInto env (reifier env (k + 1)) := rfl
  have e2 : (reifier env (k + 1)).fuel = k + 1 := rfl
  have e3 : (reifier env (k + 1)).reifyStruct = reifyStruct env (reifier env k) := rfl
  simp only [Unpack, RValue.Kind, RType.Kind, e1, reifyInto, bind_apply,
    chaseValuePointers_ptr (.struct name fs) p h (by simp [RType.Kind]), e2,
    tryTConfig_struct, RValue.Type, pure_apply, chaseTypePointers, e3]
  rfl

theorem readOnly_chaseValueInterfaces (v : RValue) : ReadOnly (chaseValueInterfaces v) := by
  unfold Ucfg.chaseValueInterfaces
  split
  · refine readOnly_bind (readOnly_IsNil v) (fun b => ?_)
    split
    · exact readOnly_Elem v
    · exact readOnly_pure _
  · exact readOnly_pure _

theorem splitGo_ne_nil (sep : List Char) :
    ∀ (l : List Char) (skip : Nat) (cur : List Char), splitGo sep skip l cur ≠ [] := by
  intro l
  induction l with
  | nil => intro skip cur; cases skip <;> simp [splitGo]
  | cons c rest ih =>
      intro skip cur
      cases skip with
      | zero =>
          unfold splitGo
          split
          · simp
          · exact ih _ _
      | succ k =>
          unfold splitGo
          exact ih _ _

theorem reifyCfgPathLoop_spec :
    ∀ (segs : List String) (cfg : Config) (field : String), segs ≠ [] →
      reifyCfgPathLoop cfg segs field = pathLookupSpec cfg segs := by
  intro segs
  induction segs with
  | nil => intro cfg field hne; exact absurd rfl hne
  | cons seg rest ih =>
      intro cfg field _
      cases rest with
      | nil => simp [reifyCfgPathLoop, pathLookupSpec, descendSpec]
      | cons s2 rest2 =>
          have hrec := fun c => ih c seg (List.cons_ne_nil s2 rest2)
          unfold reifyCfgPathLoop
          simp only [pathLookupSpec, List.dropLast_cons₂, descendSpec]
          cases hg : cfg.get? seg with
          | none => simp
          | some sub =>
              cases sub <;> simp [Value.toConfig]
              rename_i c
              rw [hrec c]
              simp [pathLookupSpec]

theorem Heap.read_cell_lt (h : Heap) (p : Place) (v : GVal) (hr : h.read p = some v) :
    p.cell < h.cells.length := by
  unfold Heap.read at hr
  rcases Nat.lt_or_ge p.cell h.cells.length with hlt | hge
  · exact hlt
  · rw [List.getElem?_eq_none hge] at hr
    cases hr

theorem reifyDoArray_loop_at (r : Rec) (opts : FieldOptions) (e : RType) (n : Nat) (p : Place)
    (dst : RValue) (x : Nat → GVal)
    (hidx : ∀ i, i < n → ∀ h, dst.Index i h = .ret (.lval e ⟨p.cell, p.path ++ [i]⟩) h) :
    ∀ (vs : List Value) (k : Nat) (zs : List GVal) (h : Heap),
      h.read p = some (.array zs) → zs.length = n → k + vs.length = n →
      (∀ i v, vs[i]? = some v → ∀ h1, p.cell < h1.cells.length → ∃ w h2,
        r.reifyValue opts e v h1 = .ret (w, none) h2 ∧
        storeAs e w h2 = .ret (x (k + i)) h2 ∧
        h2.cells[p.cell]? = h1.cells[p.cell]?) →
      ∃ h1 zs1,
        forEachM (fun (ix : Nat × Value) => do
          let (v, err) ← r.reifyValue opts e ix.2
          match err with
          | some er => pure (some er)
          | none => do
              (← dst.Index ix.1).Set v
              pure none) (vs.enumFrom k) h = .ret none h1 ∧
        h1.read p = some (.array zs1) ∧ zs1.length = n ∧
        (∀ i, i < k → zs1[i]? = zs[i]?) ∧
        (∀ i, k ≤ i → i < n → zs1[i]? = some (x i)) := by
  intro vs
  induction vs with
  | nil =>
      intro k zs h hr hl hk _
      refine ⟨h, zs, rfl, hr, hl, fun _ _ => rfl, ?_⟩
      intro i h1 h2
      simp at hk
      omega
  | cons v rest ih =>
      intro k zs h hr hl hk hconv
      have hkn : k < n := by simp at hk; omega
      obtain ⟨w, h0, hrv, hst, hcell⟩ := hconv 0 v (by simp) h (Heap.read_cell_lt h p _ hr)
      have hr0 : h0.read p = some (.array zs) := by
        simp only [Heap.read, hcell]
        exact hr
      obtain ⟨h2, hw, hr2⟩ := Heap.write_index h0 p zs k (x k) hr0 (by omega)
      obtain ⟨h3, zs3, hloop, hr3, hl3, hlow, hhigh⟩ :=
        ih (k + 1) (zs.set k (x k)) h2 hr2 (by simp [hl]) (by simp at hk; omega)
          (fun i u hi h1 hlt => by
            have := hconv (i + 1) u (by simpa using hi) h1 hlt
            rw [show k + (i + 1) = k + 1 + i by omega] at this
            exact this)
      refine ⟨h3, zs3, ?_, hr3, hl3, ?_, ?_⟩
      · simp only [List.enumFrom, forEachM, bind_apply]
        simp only [Nat.add_zero] at hst
        simp only [hrv, hidx k hkn, RValue.Set, hst, bind_apply, writePlace, hw]
        exact hloop
      · intro i hi
        rw [hlow i (by omega)]
        simp [List.getElem?_set, show k ≠ i by omega]
      · intro i hi1 hi2
        rcases Nat.eq_or_lt_of_le hi1 with heq | hlt
        · subst heq
          rw [hlow k (by omega)]
          simp [List.getElem?_set, show k < zs.length by omega]
        · exact hhigh i (by omega) hi2

theorem reifyMergeValue_slice (env : Env) (r : Rec) (opts : FieldOptions) (oldValue : RValue)
    (e : RType) (val : Value) (h : Heap) (hT : oldValue.Type h = .ret (.slice e) h) :
    reifyMergeValue env r opts oldValue val h
      = r.reifySlice opts (.slice e) (castArr env val) h := by
  have hk : oldValue.Kind = .Slice := by
    cases oldValue <;> simp [RValue.Type, goPanic] at hT <;> simp [RValue.Kind, hT, RType.Kind]
  have hc : chaseValuePointers oldValue = pure oldValue := by
    funext h1; exact chaseValuePointers_stop _ h1 (by simp [hk])
  have hT2 : oldValue.Type = pure (.slice e) := by
    cases oldValue <;> simp [RValue.Type, goPanic] at hT <;> simp [RValue.Type, hT]
  simp [reifyMergeValue, chaseValueInterfaces, hk, hc, hT2, chaseTypePointers,
    convertibleFromConfig]

theorem bind_ret_inv {α β : Type} (m : M α) (f : α → M β) (h : Heap) (b : β) (h1 : Heap)
    (e : (m >>= f) h = .ret b h1) : ∃ a h2, m h = .ret a h2 ∧ f a h2 = .ret b h1 := by
  simp only [bind_apply] at e
  cases hm : m h with
  | ret a h2 => rw [hm] at e; exact ⟨a, h2, rfl, e⟩
  | panic => rw [hm] at e; cases e
  | diverge => rw [hm] at e; cases e

theorem forEachM_ret_none {α : Type} (body : α → M (Option Error)) :
    ∀ (l : List α) (h h1 : Heap), forEachM body l h = .ret none h1 →
      ∀ x, x ∈ l → ∃ h2 h3, body x h2 = .ret none h3 := by
  intro l
  induction l with
  | nil => intro h h1 _ x hx; cases hx
  | cons y ys ih =>
      intro h h1 e x hx
      unfold forEachM at e
      obtain ⟨a, h2, hb, hrest⟩ := bind_ret_inv _ _ _ _ _ e
      cases a with
      | some er => simp at hrest
      | none =>
          rcases List.mem_cons.mp hx with hxy | hxs
          · subst hxy; exact ⟨h, h2, hb⟩
          · exact ih h2 h1 hrest x hxs

theorem FieldList.get?_lt : ∀ (fs : FieldList) (i : Nat) (f : String × List (String × String) × RType),
    fs.get? i = some f → i < fs.length
  | .nil, _, _, hg => by simp [FieldList.get?] at hg
  | .cons _ _ _ r, 0, _, _ => by simp [FieldList.length]
  | .cons _ _ _ r, i + 1, f, hg => by
      have := FieldList.get?_lt r i f (by simpa [FieldList.get?] using hg)
      simp [FieldList.length, this]

theorem entryOf_nil (key : String) : entryOf [] key = none := rfl

theorem entryOf_cons (kv : String × GVal) (es : List (String × GVal)) (key : String) :
    entryOf (kv :: es) key = if kv.1 = key then some kv.2 else entryOf es key := by
  unfold entryOf
  by_cases hk : kv.1 = key
  · have hb : (kv.1 == key) = true := by simp [hk]
    rw [if_pos hk]
    simp only [List.find?_cons, hb, Option.map_some']
  · have hb : (kv.1 == key) = false := by simp [hk]
    simp only [List.find?_cons, hb, hk, if_false]

theorem entryOf_none_iff (es : List (String × GVal)) (key : String) :
    entryOf es key = none ↔ es.any (fun kv => kv.1 == key) = false := by
  induction es with
  | nil => simp [entryOf]
  | cons kv es ih =>
      rw [entryOf_cons]
      by_cases hk : kv.1 = key
      · simp [hk]
      · simp [hk, ih]

theorem entryOf_map_set (key : String) (x : GVal) (key1 : String) :
    ∀ (es : List (String × GVal)),
      entryOf (es.map (fun kv => if kv.1 == key then (key, x) else kv)) key1
        = if key1 = key then (if es.any (fun kv => kv.1 == key) then some x else none)
          else entryOf es key1 := by
  intro es
  induction es with
  | nil => simp [entryOf]
  | cons kv es ih =>
      simp only [List.map_cons, entryOf_cons, ih, List.any_cons]
      by_cases hk : kv.1 = key
      · by_cases h1 : key1 = key
        · simp [hk, h1]
        · have : ¬ key = key1 := fun hh => h1 hh.symm
          simp [hk, h1, this]
      · by_cases h1 : key1 = key
        · subst h1
          have hb : (kv.1 == key1) = false := by simp [hk]
          simp [hk]
          rw [hb, Bool.false_or]
        · simp [hk, h1]

theorem entryOf_append_single (key : String) (x : GVal) (key1 : String) :
    ∀ (es : List (String × GVal)),
      entryOf (es ++ [(key, x)]) key1
        = match entryOf es key1 with
          | some y => some y
          | none => if key1 = key then some x else none := by
  intro es
  induction es with
  | nil =>
      by_cases h1 : key1 = key
      · simp [entryOf_cons, entryOf_nil, h1]
      · have : ¬ key = key1 := fun hh => h1 hh.symm
        simp [entryOf_cons, entryOf_nil, h1, this]
  | cons kv es ih =>
      simp only [List.cons_append, entryOf_cons, ih]
      by_cases hk : kv.1 = key1
      · simp [hk]
      · simp [hk]

theorem entryOf_setEntry (es : List (String × GVal)) (key : String) (x : GVal) (key1 : String) :
    entryOf (setEntry es key x) key1 = if key1 = key then some x else entryOf es key1 := by
  unfold setEntry
  by_cases ha : es.any (fun kv => kv.1 == key) = true
  · simp only [ha, if_true, entryOf_map_set]
  · have hf : es.any (fun kv => kv.1 == key) = false := Bool.eq_false_iff.mpr ha
    rw [if_neg ha, entryOf_append_single]
    by_cases h1 : key1 = key
    · subst h1
      simp [(entryOf_none_iff es key1).mpr hf]
    · simp only [h1, if_false]
      cases entryOf es key1 <;> rfl

theorem GVal.setPath_getPath : ∀ (path : List Nat) (v w x : GVal),
    v.getPath path = some x → ∃ v1, v.setPath path w = some v1 ∧ v1.getPath path = some w := by
  intro path
  induction path with
  | nil => intro v w x _; exact ⟨w, by simp [GVal.setPath], by simp [GVal.getPath]⟩
  | cons i rest ih =>
      intro v w x hg
      cases v with
      | struct fs =>
          simp only [GVal.getPath] at hg
          cases hf : fs[i]? with
          | none => rw [hf] at hg; cases hg
          | some y =>
              rw [hf] at hg
              obtain ⟨y1, hs, hg1⟩ := ih y w x hg
              have hi : i < fs.length := by
                rcases Nat.lt_or_ge i fs.length with hlt | hge
                · exact hlt
                · rw [List.getElem?_eq_none hge] at hf; cases hf
              refine ⟨.struct (fs.set i y1), by simp [GVal.setPath, hf, hs], ?_⟩
              simp [GVal.getPath, List.getElem?_set, hi, hg1]
      | array fs =>
          simp only [GVal.getPath] at hg
          cases hf : fs[i]? with
          | none => rw [hf] at hg; cases hg
          | some y =>
              rw [hf] at hg
              obtain ⟨y1, hs, hg1⟩ := ih y w x hg
              have hi : i < fs.length := by
                rcases Nat.lt_or_ge i fs.length with hlt | hge
                · exact hlt
                · rw [List.getElem?_eq_none hge] at hf; cases hf
              refine ⟨.array (fs.set i y1), by simp [GVal.setPath, hf, hs], ?_⟩
              simp [GVal.getPath, List.getElem?_set, hi, hg1]
      | _ => simp [GVal.getPath] at hg

theorem Heap.write_read (h : Heap) (p : Place) (v w : GVal) (hr : h.read p = some v) :
    ∃ h1, h.write p w = some h1 ∧ h1.read p = some w ∧
      (∀ c, c ≠ p.cell → h1.cells[c]? = h.cells[c]?) ∧ h1.cells.length = h.cells.length := by
  have hlt := Heap.read_cell_lt h p v hr
  unfold Heap.read at hr
  cases hc : h.cells[p.cell]? with
  | none => rw [hc] at hr; cases hr
  | some y =>
      rw [hc] at hr
      obtain ⟨y1, hs, hg⟩ := GVal.setPath_getPath p.path y w v hr
      refine ⟨⟨h.cells.set p.cell y1⟩, by simp [Heap.write, hc, hs], ?_, ?_, by simp⟩
      · simp [Heap.read, List.getElem?_set, hlt, hg]
      · intro c hcne
        simp [List.getElem?_set, Ne.symm hcne]

theorem load_lval_iff (t : RType) (p : Place) (v : GVal) (h : Heap) :
    (RValue.lval t p).load h = .ret v h ↔ h.read p = some v := by
  simp only [RValue.load, readPlace]
  cases h.read p with
  | none => simp
  | some y => simp

theorem load_lval_frame (t : RType) (p : Place) (v : GVal) (h1 h3 : Heap)
    (hl1 : (RValue.lval t p).load h1 = .ret v h1)
    (hcell : h3.cells[p.cell]? = h1.cells[p.cell]?) :
    (RValue.lval t p).load h3 = .ret v h3 := by
  rw [load_lval_iff] at hl1 ⊢
  simp only [Heap.read, hcell]
  exact hl1

theorem reifyMap_empty (env : Env) (r : Rec) (opts : Options) (dst : RValue) (k e : RType)
    (src : Config) (h : Heap) (hT : dst.Type h = .ret (.map k e) h) (hk : k.Kind = .String)
    (hs : src.fields = []) : reifyMap env r opts dst src h = .ret none h := by
  simp [reifyMap, hT, hk, hs]

theorem write_field_cell (h : Heap) (c : Nat) (zs : List GVal) (i : Nat) (w : GVal)
    (hc : h.cells[c]? = some (.struct zs)) (hi : i < zs.length) :
    h.write ⟨c, [i]⟩ w = some ⟨h.cells.set c (.struct (zs.set i w))⟩ := by
  simp [Heap.write, hc, GVal.setPath, List.getElem?_eq_getElem hi]

theorem FieldList.get?_of_lt : ∀ (fs : FieldList) (i : Nat), i < fs.length →
    ∃ stName stTag t, fs.get? i = some (stName, stTag, t)
  | .nil, _, hi => by simp [FieldList.length] at hi
  | .cons n g t _, 0, _ => ⟨n, g, t, rfl⟩
  | .cons _ _ _ r, i + 1, hi => by
      have := FieldList.get?_of_lt r i (by simpa [FieldList.length] using hi)
      simpa [FieldList.get?] using this

theorem forEachM_append_none {α : Type} (body : α → M (Option Error)) :
    ∀ (l1 l2 : List α) (h h1 : Heap), forEachM body l1 h = .ret none h1 →
      forEachM body (l1 ++ l2) h = forEachM body l2 h1 := by
  intro l1
  induction l1 with
  | nil => intro l2 h h1 e; simp only [forEachM, pure_apply] at e; cases e; rfl
  | cons x xs ih =>
      intro l2 h h1 e
      simp only [List.cons_append, forEachM, bind_apply] at e ⊢
      cases hb : body x h with
      | ret a h2 =>
          rw [hb] at e
          cases a with
          | some er => simp at e
          | none => exact ih l2 h2 h1 e
      | panic => rw [hb] at e; cases e
      | diverge => rw [hb] at e; cases e

theorem forEachM_append_some {α : Type} (body : α → M (Option Error)) :
    ∀ (l1 l2 : List α) (h h1 : Heap) (er : Error), forEachM body l1 h = .ret (some er) h1 →
      forEachM body (l1 ++ l2) h = .ret (some er) h1 := by
  intro l1
  induction l1 with
  | nil => intro l2 h h1 er e; simp [forEachM] at e
  | cons x xs ih =>
      intro l2 h h1 er e
      simp only [List.cons_append, forEachM, bind_apply] at e ⊢
      cases hb : body x h with
      | ret a h2 =>
          rw [hb] at e
          cases a with
          | some er1 => exact e
          | none => exact ih l2 h2 h1 er e
      | panic => rw [hb] at e; cases e
      | diverge => rw [hb] at e; cases e

theorem range_split (n i : Nat) (hi : i < n) :
    ∃ rest, List.range n = List.range i ++ i :: rest := by
  obtain ⟨k, rfl⟩ : ∃ k, n = i + (k + 1) := ⟨n - i - 1, by omega⟩
  refine ⟨((List.range k).map Nat.succ).map (fun x => i + x), ?_⟩
  rw [List.range_add, List.range_succ_eq_map]
  simp

/-- The value `to.Field(i)` of the copy in cell `c`. -/
theorem Field_copy (name : String) (fs : FieldList) (c i : Nat) (stName : String)
    (stTag : List (String × String)) (t : RType) (h : Heap)
    (hg : fs.get? i = some (stName, stTag, t)) :
    (RValue.lval (.struct name fs) ⟨c, []⟩).Field i h
      = .ret (if isExported stName then .lval t ⟨c, [i]⟩ else .rolval t ⟨c, [i]⟩) h := by
  simp only [RValue.Field, hg, List.nil_append]
  split <;> rfl

theorem reifyStruct_run (env : Env) (r : Rec) (opts : Options) (cfg : Config) (name : String)
    (fs : FieldList) (p : Place) (h : Heap) (g : GVal) (hr : h.read p = some g) :
    reifyStruct env r opts (.lval (.struct name fs) p) cfg h
      = ((forEachM (reifyStructField env r opts cfg (.lval (.struct name fs) ⟨h.cells.length, []⟩))
            (List.range fs.length)) >>= fun res =>
          match res with
          | some e => (pure (some e) : M (Option Error))
          | none => do
              match env.tryValidate (← getHeap) (.lval (.struct name fs) ⟨h.cells.length, []⟩) with
              | some err => pure (some (.raiseValidation err))
              | none => do
                  (RValue.lval (.struct name fs) p).Set
                    (← env.pointerize (.struct name fs) (.struct name fs)
                      (.lval (.struct name fs) ⟨h.cells.length, []⟩))
                  pure none) ⟨h.cells ++ [g]⟩ := by
  have hc : chaseValuePointers (.lval (.struct name fs) p)
      = Pure.pure (.lval (.struct name fs) p) := by
    funext h1; exact chaseValuePointers_stop _ h1 (by simp [RValue.Kind, RType.Kind])
  have hc2 : ∀ a : Nat, chaseValuePointers
      (.rval (.ptr (.struct name fs)) (.ptr (some ⟨a, []⟩)))
      = Pure.pure (.lval (.struct name fs) ⟨a, []⟩) := by
    intro a; funext h1
    exact chaseValuePointers_ptr _ _ h1 (by simp [RType.Kind])
  have hlt := Heap.read_cell_lt h p g hr
  have hset : (RValue.lval (.struct name fs) ⟨h.cells.length, []⟩).Set
      (.lval (.struct name fs) p) ⟨h.cells ++ [zero (.struct name fs)]⟩
      = .ret () ⟨h.cells ++ [g]⟩ := by
    have hr2 : (⟨h.cells ++ [zero (.struct name fs)]⟩ : Heap).read p = some g := by
      simp only [Heap.read, List.getElem?_append_left hlt]
      exact hr
    simp [RValue.Set, storeAs, RValue.Type, RValue.load, readPlace, hr2, writePlace,
      Heap.write, GVal.setPath]
  unfold reifyStruct
  simp only [hc, pure_bind_M, RValue.Type, chaseTypePointers, reflectNew, bind_assoc_M,
    hc2, RValue.Kind, RType.Kind, beq_self_eq_true, if_true, RValue.NumField,
    bind_apply, alloc, hset, pure_apply]

/-- Following the pointers of a value whose type is a chain of pointers to a
type that is no struct, map or interface never arrives at a struct or map. -/
theorem chaseValue_kind : ∀ (n : Nat) (v : RValue) (t : RType) (h : Heap) (v1 : RValue)
    (h1 : Heap), v.Type h = .ret t h →
    (chaseTypePointers t).Kind ≠ .Struct → (chaseTypePointers t).Kind ≠ .Map →
    (chaseTypePointers t).Kind ≠ .Interface →
    chaseValue n v h = .ret v1 h1 → v1.Kind ≠ .Struct ∧ v1.Kind ≠ .Map := by
  intro n
  induction n with
  | zero => intro v t h v1 h1 _ _ _ _ e; simp [chaseValue, outOfFuel] at e
  | succ n ih =>
      intro v t h v1 h1 hT hs hm hi e
      have hk : v.Kind = t.Kind := by
        cases v <;> simp [RValue.Type, goPanic] at hT <;> simp [RValue.Kind, hT]
      by_cases hp : t.Kind = .Ptr
      · obtain ⟨t0, rfl⟩ : ∃ t0, t = .ptr t0 := by
          cases t <;> simp [RType.Kind] at hp
          exact ⟨_, rfl⟩
        simp only [chaseValue, hk, hp, beq_self_eq_true, Bool.true_or, if_true, bind_apply] at e
        cases hn : v.IsNil h with
        | ret b h2 =>
            rw [hn] at e
            have := readOnly_IsNil v h b h2 hn
            subst this
            cases b with
            | true =>
                simp at e
                obtain ⟨rfl, rfl⟩ := e
                rw [hk, hp]
                exact ⟨by decide, by decide⟩
            | false =>
                simp only [Bool.not_false, if_true, bind_apply] at e
                cases he : v.Elem h2 with
                | ret w h3 =>
                    rw [he] at e
                    have := readOnly_Elem v h2 w h3 he
                    subst this
                    have hwT : w.Type h3 = .ret t0 h3 := by
                      simp only [RValue.Elem, hk, RType.Kind, bind_apply] at he
                      simp only [RValue.IsNil, bind_apply] at hn
                      cases hl : v.load h3 with
                      | ret x h4 =>
                          rw [hl] at he hn
                          have := readOnly_load v h3 x h4 hl
                          subst this
                          cases x <;> simp [goPanic] at he hn
                          rename_i tg
                          cases tg with
                          | none => simp at hn
                          | some q =>
                              simp [hT] at he
                              rw [← he]
                              cases v <;> simp [RValue.derived, RValue.isRO, RValue.asRO,
                                RValue.Type]
                      | panic => rw [hl] at hn; cases hn
                      | diverge => rw [hl] at hn; cases hn
                    exact ih w t0 h3 v1 h1 hwT (by simpa [chaseTypePointers] using hs)
                      (by simpa [chaseTypePointers] using hm)
                      (by simpa [chaseTypePointers] using hi) e
                | panic => rw [he] at e; cases e
                | diverge => rw [he] at e; cases e
        | panic => rw [hn] at e; cases e
        | diverge => rw [hn] at e; cases e
      · have hct := chaseTypePointers_self t hp
        rw [hct] at hs hm hi
        have hkp : v.Kind ≠ .Ptr := by rw [hk]; exact hp
        have hki : v.Kind ≠ .Interface := by rw [hk]; exact hi
        rw [chaseValue_stop n v h hkp hki] at e
        cases e
        rw [hk]
        exact ⟨hs, hm⟩

theorem reifyStructField_squash (env : Env) (r : Rec) (opts : Options) (cfg : Config)
    (name : String) (fs : FieldList) (c i : Nat) (stName : String)
    (stTag : List (String × String)) (t : RType)
    (hg : fs.get? i = some (stName, stTag, t))
    (hsq : (env.parseTags (tagGet stTag opts.tag)).2.squash = true) (h : Heap) :
    reifyStructField env r opts cfg (.lval (.struct name fs) ⟨c, []⟩) i h
      = match env.parseValidatorTags (tagGet stTag opts.validatorTag) with
        | .error err => .ret (some (.raiseCritical err)) h
        | .ok _ =>
            ((chaseValue r.fuel
                (if isExported stName then .lval t ⟨c, [i]⟩ else .rolval t ⟨c, [i]⟩)) >>=
              fun v => match v.Kind with
                | .Struct => r.reifyInto opts v cfg
                | .Map => r.reifyInto opts v cfg
                | _ => (pure (some (.raiseInlineNeedsObject stName)) : M (Option Error))) h := by
  simp only [reifyStructField, RValue.Type, bind_apply, pure_apply, hg,
    Field_copy name fs c i stName stTag t h hg, hsq, if_true]
  cases env.parseValidatorTags (tagGet stTag opts.validatorTag) <;> rfl

theorem reifyStructField_squash_other (env : Env) (r : Rec) (opts : Options) (cfg : Config)
    (name : String) (fs : FieldList) (c i : Nat) (stName : String)
    (stTag : List (String × String)) (t : RType)
    (hg : fs.get? i = some (stName, stTag, t))
    (hsq : (env.parseTags (tagGet stTag opts.tag)).2.squash = true) (h : Heap)
    (vals : List Validator) (v : RValue)
    (hv : env.parseValidatorTags (tagGet stTag opts.validatorTag) = .ok vals)
    (hc : chaseValue r.fuel
      (if isExported stName then .lval t ⟨c, [i]⟩ else .rolval t ⟨c, [i]⟩) h = .ret v h)
    (hs : v.Kind ≠ .Struct) (hm : v.Kind ≠ .Map) :
    reifyStructField env r opts cfg (.lval (.struct name fs) ⟨c, []⟩) i h
      = .ret (some (.raiseInlineNeedsObject stName)) h := by
  rw [reifyStructField_squash env r opts cfg name fs c i stName stTag t hg hsq h, hv]
  simp only [bind_apply, hc]
  rfl

theorem reifyStructField_squash_fails (env : Env) (r : Rec) (opts : Options) (cfg : Config)
    (name : String) (fs : FieldList) (c i : Nat) (stName : String)
    (stTag : List (String × String)) (t : RType)
    (hg : fs.get? i = some (stName, stTag, t))
    (hsq : (env.parseTags (tagGet stTag opts.tag)).2.squash = true)
    (hs : (chaseTypePointers t).Kind ≠ .Struct) (hm : (chaseTypePointers t).Kind ≠ .Map)
    (hi : (chaseTypePointers t).Kind ≠ .Interface) (h h1 : Heap) :
    reifyStructField env r opts cfg (.lval (.struct name fs) ⟨c, []⟩) i h ≠ .ret none h1 := by
  rw [reifyStructField_squash env r opts cfg name fs c i stName stTag t hg hsq h]
  cases env.parseValidatorTags (tagGet stTag opts.validatorTag) with
  | error err => simp
  | ok vals =>
      simp only [bind_apply]
      cases hc : chaseValue r.fuel
          (if isExported stName then .lval t ⟨c, [i]⟩ else .rolval t ⟨c, [i]⟩) h with
      | ret v h2 =>
          have hT : (if isExported stName then RValue.lval t ⟨c, [i]⟩
              else RValue.rolval t ⟨c, [i]⟩).Type h = .ret t h := by
            split <;> rfl
          obtain ⟨hk1, hk2⟩ := chaseValue_kind r.fuel _ t h v h2 hT hs hm hi hc
          simp only []
          simp
      | panic => simp
      | diverge => simp

theorem mapEntries_eval (dst : RValue) (a : Nat) (cur : List (String × GVal)) (h : Heap)
    (hl : dst.load h = .ret (.mapRef (some a)) h)
    (hc : h.cells[a]? = some (.mapObj cur)) :
    mapEntries dst h = .ret (some (a, cur)) h := by
  simp [mapEntries, hl, readPlace, Heap.read, hc, GVal.getPath]

theorem MapIndex_eval (dst : RValue) (k e : RType) (a : Nat) (cur : List (String × GVal))
    (key : String) (h : Heap) (hro : dst.isRO = false) (hT : dst.Type h = .ret (.map k e) h)
    (hl : dst.load h = .ret (.mapRef (some a)) h)
    (hc : h.cells[a]? = some (.mapObj cur)) :
    dst.MapIndex key h
      = .ret (match entryOf cur key with
          | some v => .rval e v
          | none => .invalid) h := by
  simp only [RValue.MapIndex, bind_apply, hT, mapEntries_eval dst a cur h hl hc, entryOf,
    RValue.derived, hro]
  cases List.find? (fun kv => kv.1 == key) cur <;> rfl

theorem SetMapIndex_eval (dst : RValue) (k e : RType) (a : Nat) (cur : List (String × GVal))
    (key : String) (w : RValue) (h : Heap) (hro : dst.isRO = false)
    (hT : dst.Type h = .ret (.map k e) h)
    (hl : dst.load h = .ret (.mapRef (some a)) h)
    (hc : h.cells[a]? = some (.mapObj cur)) :
    dst.SetMapIndex key w h
      = match storeAs e w h with
        | .ret xv h2 => .ret () ⟨h2.cells.set a (.mapObj (setEntry cur key xv))⟩
        | .panic => .panic
        | .diverge => .diverge := by
  simp only [RValue.SetMapIndex, hro, Bool.false_eq_true, if_false, bind_apply, hT,
    mapEntries_eval dst a cur h hl hc]
  cases hs : storeAs e w h with
  | ret xv h2 =>
      have := readOnly_storeAs e w h xv h2 hs
      subst this
      simp [writePlace, Heap.write, hc, GVal.setPath]
  | panic => rfl
  | diverge => rfl

/-- One round of the loop of `reifyMap` that returns no error: the call
`entryCall` returned a value and no error, the value was stored, and the map
object received it under the key. -/
theorem reifyMapEntry_inv (r : Rec) (opts : Options) (dst : RValue) (k e : RType) (a : Nat)
    (cur : List (String × GVal)) (kv : String × Value) (h h1 : Heap)
    (hro : dst.isRO = false)
    (hT : ∀ h, dst.Type h = .ret (.map k e) h)
    (hl : dst.load h = .ret (.mapRef (some a)) h)
    (hc : h.cells[a]? = some (.mapObj cur))
    (hfr : ∀ w hb, entryCall r opts e cur kv h = .ret (w, none) hb →
      hb.cells[a]? = h.cells[a]? ∧ dst.load hb = .ret (.mapRef (some a)) hb)
    (hrun : reifyMapEntry r opts dst e kv h = .ret none h1) :
    ∃ w hb xv, entryCall r opts e cur kv h = .ret (w, none) hb ∧
      storeAs e w hb = .ret xv hb ∧
      h1 = ⟨hb.cells.set a (.mapObj (setEntry cur kv.1 xv))⟩ := by
  unfold reifyMapEntry at hrun
  simp only [bind_apply, MapIndex_eval dst k e a cur kv.1 h hro (hT h) hl hc] at hrun
  have hcall : ∀ res hb, entryCall r opts e cur kv h = .ret res hb →
      (match res.2 with
        | some er => (pure (some er) : M (Option Error))
        | none => do
            dst.SetMapIndex kv.1 res.1
            pure none) hb = .ret none h1 →
      ∃ w hb xv, entryCall r opts e cur kv h = .ret (w, none) hb ∧
        storeAs e w hb = .ret xv hb ∧
        h1 = ⟨hb.cells.set a (.mapObj (setEntry cur kv.1 xv))⟩ := by
    intro res hb hcall htail
    rcases res with ⟨w, _ | er⟩
    · obtain ⟨hca, hlb⟩ := hfr w hb hcall
      simp only [bind_apply, SetMapIndex_eval dst k e a cur kv.1 w hb hro (hT hb) hlb
        (hca.trans hc)] at htail
      cases hs : storeAs e w hb with
      | ret xv h2 =>
          have := readOnly_storeAs e w hb xv h2 hs
          subst this
          rw [hs] at htail
          simp only [pure_apply, Outcome.ret.injEq, true_and] at htail
          exact ⟨w, h2, xv, hcall, hs, htail.symm⟩
      | panic => rw [hs] at htail; cases htail
      | diverge => rw [hs] at htail; cases htail
    · simp at htail
  unfold entryCall at hcall
  cases he : entryOf cur kv.1 with
  | none =>
      simp only [he, RValue.IsValid, Bool.not_false, if_true] at hrun hcall
      obtain ⟨res, hb, hres, htail⟩ := bind_ret_inv _ _ _ _ _ hrun
      obtain ⟨w, hb1, xv, h1c, h2c, h3c⟩ := hcall res hb hres htail
      refine ⟨w, hb1, xv, ?_, h2c, h3c⟩
      unfold entryCall
      simp only [he]
      exact h1c
  | some old =>
      simp only [he, RValue.IsValid, Bool.not_true, Bool.false_eq_true, if_false] at hrun hcall
      obtain ⟨res, hb, hres, htail⟩ := bind_ret_inv _ _ _ _ _ hrun
      obtain ⟨w, hb1, xv, h1c, h2c, h3c⟩ := hcall res hb hres htail
      refine ⟨w, hb1, xv, ?_, h2c, h3c⟩
      unfold entryCall
      simp only [he]
      exact h1c
theorem entryCall_congr (r : Rec) (opts : Options) (e : RType) (cur es : List (String × GVal))
    (kv : String × Value) (hs : entryOf cur kv.1 = entryOf es kv.1) :
    entryCall r opts e cur kv = entryCall r opts e es kv := by
  unfold entryCall
  rw [hs]

/-- A run of the loop of `reifyMap` that returns no error, the calls for the
entries leaving the map object and the map value alone: every key that is not
visited keeps its entry, and the entry of a visited key is what the call for
it returned, on a heap on which the map held the old entry of that key. -/
theorem reifyMap_loop_inv (r : Rec) (opts : Options) (dst : RValue) (k e : RType) (a : Nat)
    (es : List (String × GVal)) (hro : dst.isRO = false)
    (hT : ∀ h, dst.Type h = .ret (.map k e) h)
    (hset : ∀ h c, dst.load h = .ret (.mapRef (some a)) h →
      dst.load ⟨h.cells.set a c⟩ = .ret (.mapRef (some a)) ⟨h.cells.set a c⟩) :
    ∀ (l : List (String × Value)) (cur : List (String × GVal)) (h h1 : Heap),
      (l.map (fun kv => kv.1)).Nodup →
      dst.load h = .ret (.mapRef (some a)) h →
      h.cells[a]? = some (.mapObj cur) →
      (∀ kv, kv ∈ l → entryOf cur kv.1 = entryOf es kv.1) →
      (∀ kv, kv ∈ l → ∀ ha w hb, dst.load ha = .ret (.mapRef (some a)) ha →
        (∃ c, ha.cells[a]? = some (.mapObj c)) →
        entryCall r opts e es kv ha = .ret (w, none) hb →
        hb.cells[a]? = ha.cells[a]? ∧ dst.load hb = .ret (.mapRef (some a)) hb) →
      forEachM (reifyMapEntry r opts dst e) l h = .ret none h1 →
      ∃ fin, h1.cells[a]? = some (.mapObj fin) ∧
        dst.load h1 = .ret (.mapRef (some a)) h1 ∧
        (∀ key, key ∉ l.map (fun kv => kv.1) → entryOf fin key = entryOf cur key) ∧
        (∀ kv, kv ∈ l → ∃ ha w hb xv,
          (∃ c, ha.cells[a]? = some (.mapObj c) ∧ entryOf c kv.1 = entryOf es kv.1) ∧
          entryCall r opts e es kv ha = .ret (w, none) hb ∧
          storeAs e w hb = .ret xv hb ∧ entryOf fin kv.1 = some xv) := by
  intro l
  induction l with
  | nil =>
      intro cur h h1 _ hl hc _ _ hrun
      simp only [forEachM, pure_apply, Outcome.ret.injEq, true_and] at hrun
      subst hrun
      exact ⟨cur, hc, hl, fun _ _ => rfl, fun kv hm => by cases hm⟩
  | cons kv rest ih =>
      intro cur h h1 hnd hl hc hsame hfr hrun
      simp only [List.map_cons, List.nodup_cons] at hnd
      obtain ⟨hnotin, hnd2⟩ := hnd
      unfold forEachM at hrun
      obtain ⟨res, h2, hbody, hrest⟩ := bind_ret_inv _ _ _ _ _ hrun
      cases res with
      | some er => simp at hrest
      | none =>
          have hcg := entryCall_congr r opts e cur es kv (hsame kv (List.mem_cons_self _ _))
          obtain ⟨w, hb, xv, hcall, hst, rfl⟩ :=
            reifyMapEntry_inv r opts dst k e a cur kv h h2 hro hT hl hc
              (fun w hb hcl => by
                rw [hcg] at hcl
                exact hfr kv (List.mem_cons_self _ _) h w hb hl ⟨cur, hc⟩ hcl)
              hbody
          rw [hcg] at hcall
          obtain ⟨hca, hlb⟩ := hfr kv (List.mem_cons_self _ _) h w hb hl ⟨cur, hc⟩ hcall
          have hcb : hb.cells[a]? = some (.mapObj cur) := hca.trans hc
          have halt : a < hb.cells.length := by
            rcases Nat.lt_or_ge a hb.cells.length with hlt | hge
            · exact hlt
            · rw [List.getElem?_eq_none hge] at hcb
              cases hcb
          have hc3 : (⟨hb.cells.set a (.mapObj (setEntry cur kv.1 xv))⟩ : Heap).cells[a]?
              = some (.mapObj (setEntry cur kv.1 xv)) := by
            simp [List.getElem?_set, halt]
          obtain ⟨fin, hcf, hlf, hkeep, hnew⟩ :=
            ih (setEntry cur kv.1 xv) _ h1 hnd2 (hset hb _ hlb) hc3
              (fun kv1 hm => by
                have hne : kv1.1 ≠ kv.1 := by
                  intro heq
                  exact hnotin (heq ▸ List.mem_map_of_mem (fun kv => kv.1) hm)
                rw [entryOf_setEntry, if_neg hne]
                exact hsame kv1 (List.mem_cons_of_mem _ hm))
              (fun kv1 hm => hfr kv1 (List.mem_cons_of_mem _ hm))
              hrest
          refine ⟨fin, hcf, hlf, ?_, ?_⟩
          · intro key hkey
            simp only [List.map_cons, List.mem_cons, not_or] at hkey
            rw [hkeep key hkey.2, entryOf_setEntry, if_neg hkey.1]
          · intro kv1 hm
            rcases List.mem_cons.mp hm with rfl | hm1
            · refine ⟨h, w, hb, xv, ⟨cur, hc, hsame _ (List.mem_cons_self _ _)⟩, hcall, hst, ?_⟩
              rw [hkeep _ hnotin, entryOf_setEntry, if_pos rfl]
            · exact hnew kv1 hm1

theorem mergedEntries_of (r : Rec) (opts : Options) (e : RType) (a : Nat)
    (es fin : List (String × GVal)) (src : Config)
    (hkeep : ∀ key, key ∉ src.fields.map (fun kv => kv.1) → entryOf fin key = entryOf es key)
    (hnew : ∀ kv, kv ∈ src.fields → ∃ ha w hb xv,
      (∃ c, ha.cells[a]? = some (.mapObj c) ∧ entryOf c kv.1 = entryOf es kv.1) ∧
      entryCall r opts e es kv ha = .ret (w, none) hb ∧
      storeAs e w hb = .ret xv hb ∧ entryOf fin kv.1 = some xv) :
    MergedEntries r opts e a es fin src := by
  refine ⟨?_, hkeep, hnew⟩
  intro key
  by_cases hm : key ∈ src.fields.map (fun kv => kv.1)
  · obtain ⟨kv, hkv, rfl⟩ := List.mem_map.mp hm
    obtain ⟨_, _, _, xv, _, _, _, hx⟩ := hnew kv hkv
    simp [hx, hm]
  · rw [hkeep key hm]
    simp [hm]

theorem reifyMap_nonempty (env : Env) (r : Rec) (opts : Options) (dst : RValue) (k e : RType)
    (src : Config) (h : Heap) (hT : dst.Type h = .ret (.map k e) h) (hk : k.Kind = .String)
    (hne : src.fields ≠ []) :
    reifyMap env r opts dst src h
      = ((do
          if ← dst.IsNil then
            dst.Set (← reflectMakeMap (.map k e))
          forEachM (reifyMapEntry r opts dst e) src.fields) : M (Option Error)) h := by
  have hlen : (src.fields.length == 0) = false := by
    cases hs : src.fields with
    | nil => exact absurd hs hne
    | cons _ _ => rfl
  simp only [reifyMap, bind_apply, hT, hk, hlen]
  rfl

theorem reifyInto_struct (env : Env) (r : Rec) (opts : Options) (cfg : Config) (name : String)
    (fs : FieldList) (p : Place) (h : Heap) (hf : r.fuel ≠ 0) :
    reifyInto env r opts (.lval (.struct name fs) p) cfg h
      = r.reifyStruct opts (.lval (.struct name fs) p) cfg h := by
  obtain ⟨n, hn⟩ := Nat.exists_eq_succ_of_ne_zero hf
  have hc := chaseValuePointers_stop (.lval (.struct name fs) p) h
    (by simp [RValue.Kind, RType.Kind])
  simp [reifyInto, hc, hn, tryTConfig_struct, RValue.Type, chaseTypePointers, RType.Kind]

/-- The body of the loop of `reifyStruct` for a squash field that is a struct
by value and exported: `reifyStruct` on that field with the same Config. -/
theorem reifyStructField_squash_struct (env : Env) (n : Nat) (opts : Options) (cfg : Config)
    (name : String) (fs : FieldList) (c i : Nat) (stName : String)
    (stTag : List (String × String)) (nameI : String) (fsI : FieldList)
    (vals : List Validator) (h : Heap)
    (hg : fs.get? i = some (stName, stTag, .struct nameI fsI))
    (hsq : (env.parseTags (tagGet stTag opts.tag)).2.squash = true)
    (hex : isExported stName = true)
    (hv : env.parseValidatorTags (tagGet stTag opts.validatorTag) = .ok vals) :
    reifyStructField env (reifier env (n + 2)) opts cfg (.lval (.struct name fs) ⟨c, []⟩) i h
      = reifyStruct env (reifier env n) opts (.lval (.struct nameI fsI) ⟨c, [i]⟩) cfg h := by
  rw [reifyStructField_squash env _ opts cfg name fs c i stName stTag _ hg hsq h, hv]
  have hk : chaseValue (n + 1 + 1) (.lval (.struct nameI fsI) ⟨c, [i]⟩) h
      = .ret (.lval (.struct nameI fsI) ⟨c, [i]⟩) h :=
    chaseValue_stop (n + 1) _ h (by simp [RValue.Kind, RType.Kind])
      (by simp [RValue.Kind, RType.Kind])
  have hri : (reifier env (n + 2)).reifyInto = reifyInto env (reifier env (n + 1)) := rfl
  simp only [reifier_fuel, hex, if_true, bind_apply, hk, RValue.Kind, RType.Kind, hri]
  exact reifyInto_struct env (reifier env (n + 1)) opts cfg nameI fsI ⟨c, [i]⟩ h
    (by rw [reifier_fuel]; omega)

/-- The body of the loop of `reifyStruct` for a field that is not marked
squash, no path separator being set: the value of the Config under the
field's name is merged into the field. -/
theorem reifyStructField_plain (env : Env) (n : Nat) (opts : Options) (cfg : Config)
    (name : String) (fs : FieldList) (c j : Nat) (nm : String)
    (tg : List (String × String)) (t : RType) (h : Heap)
    (hg : fs.get? j = some (nm, tg, t))
    (hsq : (env.parseTags (tagGet tg opts.tag)).2.squash = false)
    (hsep : opts.pathSep = "") :
    reifyStructField env (reifier env (n + 1)) opts cfg (.lval (.struct name fs) ⟨c, []⟩) j h
      = match env.parseValidatorTags (tagGet tg opts.validatorTag) with
        | .error err => .ret (some (.raiseCritical err)) h
        | .ok vals =>
            match fieldValue env opts cfg fs j with
            | none => .ret none h
            | some v =>
                (((reifier env n).reifyMergeValue
                    ⟨opts, (env.parseTags (tagGet tg opts.tag)).2, vals⟩
                    (if isExported nm then .lval t ⟨c, [j]⟩ else .rolval t ⟨c, [j]⟩) v) >>=
                  fun res => match res.2 with
                    | some e => (pure (some e) : M (Option Error))
                    | none => do
                        (if isExported nm then RValue.lval t ⟨c, [j]⟩
                          else RValue.rolval t ⟨c, [j]⟩).Set res.1
                        pure none) h := by
  have e1 : (reifier env (n + 1)).reifyGetField = reifyGetField env (reifier env n) := rfl
  simp only [reifyStructField, RValue.Type, bind_apply, pure_apply, hg,
    Field_copy name fs c j nm tg t h hg, hsq, Bool.false_eq_true, if_false, fieldValue]
  cases env.parseValidatorTags (tagGet tg opts.validatorTag) with
  | error err => rfl
  | ok vals =>
      simp only [e1, reifyGetField, reifyCfgPath, hsep, beq_self_eq_true, if_true]
      cases cfg.get? (env.fieldName (env.parseTags (tagGet tg opts.tag)).1 nm) with
      | none => rfl
      | some v => rfl

theorem setPath_some_getPath : ∀ (path : List Nat) (v w v1 : GVal),
    v.setPath path w = some v1 → v1.getPath path = some w := by
  intro path
  induction path with
  | nil =>
      intro v w v1 hs
      simp only [GVal.setPath, Option.some.injEq] at hs
      subst hs
      simp [GVal.getPath]
  | cons i rest ih =>
      intro v w v1 hs
      cases v with
      | struct fs =>
          simp only [GVal.setPath] at hs
          cases hf : fs[i]? with
          | none => rw [hf] at hs; cases hs
          | some y =>
              rw [hf] at hs
              simp only [] at hs
              cases hy : y.setPath rest w with
              | none => rw [hy] at hs; cases hs
              | some y1 =>
                  rw [hy] at hs
                  simp only [Option.map_some', Option.some.injEq] at hs
                  subst hs
                  have hi : i < fs.length := by
                    rcases Nat.lt_or_ge i fs.length with hlt | hge
                    · exact hlt
                    · rw [List.getElem?_eq_none hge] at hf; cases hf
                  simp [GVal.getPath, List.getElem?_set, hi, ih y w y1 hy]
      | array fs =>
          simp only [GVal.setPath] at hs
          cases hf : fs[i]? with
          | none => rw [hf] at hs; cases hs
          | some y =>
              rw [hf] at hs
              simp only [] at hs
              cases hy : y.setPath rest w with
              | none => rw [hy] at hs; cases hs
              | some y1 =>
                  rw [hy] at hs
                  simp only [Option.map_some', Option.some.injEq] at hs
                  subst hs
                  have hi : i < fs.length := by
                    rcases Nat.lt_or_ge i fs.length with hlt | hge
                    · exact hlt
                    · rw [List.getElem?_eq_none hge] at hf; cases hf
                  simp [GVal.getPath, List.getElem?_set, hi, ih y w y1 hy]
      | _ => simp [GVal.setPath] at hs

theorem Heap.write_some_read (h h1 : Heap) (p : Place) (w : GVal)
    (hw : h.write p w = some h1) : h1.read p = some w := by
  unfold Heap.write at hw
  cases hc : h.cells[p.cell]? with
  | none => rw [hc] at hw; cases hw
  | some v =>
      rw [hc] at hw
      simp only [] at hw
      cases hs : v.setPath p.path w with
      | none => rw [hs] at hw; cases hw
      | some v1 =>
          rw [hs] at hw
          simp only [Option.map_some', Option.some.injEq] at hw
          subst hw
          have hlt : p.cell < h.cells.length := by
            rcases Nat.lt_or_ge p.cell h.cells.length with hlt | hge
            · exact hlt
            · rw [List.getElem?_eq_none hge] at hc; cases hc
          simp [Heap.read, List.getElem?_set, hlt, setPath_some_getPath p.path v w v1 hs]

/-- A run of the loop of `reifyStruct` over fields that are not marked
squash, no path separator being set, that returns no error, the calls for the
fields leaving the other fields of the copy alone: a field that is not visited
or has no value in the Config is as before, and a field with a value in the
Config holds what the call of `reifyMergeValue` with that value returned. -/
theorem reifyStruct_loop_inv (env : Env) (n : Nat) (opts : Options) (cfg : Config)
    (name : String) (fs : FieldList) (c : Nat) (hsep : opts.pathSep = "")
    (hnosq : ∀ j nm tg t, fs.get? j = some (nm, tg, t) →
      (env.parseTags (tagGet tg opts.tag)).2.squash = false) :
    ∀ (l : List Nat) (cur : List GVal) (h h1 : Heap),
      l.Nodup → (∀ j, j ∈ l → j < fs.length) →
      h.cells[c]? = some (.struct cur) → cur.length = fs.length →
      (∀ j nm tg t vals v, j ∈ l → fs.get? j = some (nm, tg, t) →
        env.parseValidatorTags (tagGet tg opts.validatorTag) = .ok vals →
        fieldValue env opts cfg fs j = some v →
        ∀ ha zs w hb, ha.cells[c]? = some (.struct zs) → zs.length = fs.length →
        (reifier env n).reifyMergeValue ⟨opts, (env.parseTags (tagGet tg opts.tag)).2, vals⟩
          (.lval t ⟨c, [j]⟩) v ha = .ret (w, none) hb →
        ∃ zs1, hb.cells[c]? = some (.struct zs1) ∧ zs1.length = fs.length ∧
          ∀ j1, j1 ≠ j → zs1[j1]? = zs[j1]?) →
      forEachM (reifyStructField env (reifier env (n + 1)) opts cfg
        (.lval (.struct name fs) ⟨c, []⟩)) l h = .ret none h1 →
      ∃ fin, h1.cells[c]? = some (.struct fin) ∧ fin.length = fs.length ∧
        (∀ j, (j ∉ l ∨ fieldValue env opts cfg fs j = none) → fin[j]? = cur[j]?) ∧
        (∀ j nm tg t v, j ∈ l → fs.get? j = some (nm, tg, t) →
          fieldValue env opts cfg fs j = some v →
          ∃ vals ha w hb xv,
            env.parseValidatorTags (tagGet tg opts.validatorTag) = .ok vals ∧
            isExported nm = true ∧
            (reifier env n).reifyMergeValue
              ⟨opts, (env.parseTags (tagGet tg opts.tag)).2, vals⟩
              (.lval t ⟨c, [j]⟩) v ha = .ret (w, none) hb ∧
            storeAs t w hb = .ret xv hb ∧ fin[j]? = some xv) := by
  intro l
  induction l with
  | nil =>
      intro cur h h1 _ _ hc hlen _ hrun
      simp only [forEachM, pure_apply, Outcome.ret.injEq, true_and] at hrun
      subst hrun
      exact ⟨cur, hc, hlen, fun _ _ => rfl, fun j nm tg t v hm => by cases hm⟩
  | cons j rest ih =>
      intro cur h h1 hnd hlt hc hlen hfr hrun
      simp only [List.nodup_cons] at hnd
      obtain ⟨hnotin, hnd2⟩ := hnd
      have hj : j < fs.length := hlt j (List.mem_cons_self _ _)
      obtain ⟨nm, tg, t, hg⟩ := FieldList.get?_of_lt fs j hj
      unfold forEachM at hrun
      obtain ⟨res, h2, hbody, hrest⟩ := bind_ret_inv _ _ _ _ _ hrun
      cases res with
      | some er => simp at hrest
      | none =>
          rw [reifyStructField_plain env n opts cfg name fs c j nm tg t h hg
            (hnosq j nm tg t hg) hsep] at hbody
          cases hv : env.parseValidatorTags (tagGet tg opts.validatorTag) with
          | error err => rw [hv] at hbody; simp at hbody
          | ok vals =>
              rw [hv] at hbody
              simp only [] at hbody
              cases hval : fieldValue env opts cfg fs j with
              | none =>
                  rw [hval] at hbody
                  simp only [Outcome.ret.injEq, true_and] at hbody
                  subst hbody
                  obtain ⟨fin, hcf, hlf, hkeep, hnew⟩ :=
                    ih cur h h1 hnd2 (fun j1 hj1 => hlt j1 (List.mem_cons_of_mem _ hj1)) hc hlen
                      (fun j1 nm1 tg1 t1 vals1 v1 hm1 =>
                        hfr j1 nm1 tg1 t1 vals1 v1 (List.mem_cons_of_mem _ hm1)) hrest
                  refine ⟨fin, hcf, hlf, ?_, ?_⟩
                  · intro j1 hj1
                    by_cases hji : j1 = j
                    · subst hji
                      exact hkeep j1 (Or.inl hnotin)
                    · refine hkeep j1 ?_
                      rcases hj1 with hj1 | hj1
                      · exact Or.inl (fun hm => hj1 (List.mem_cons_of_mem _ hm))
                      · exact Or.inr hj1
                  · intro j1 nm1 tg1 t1 v1 hm1 hg1 hval1
                    rcases List.mem_cons.mp hm1 with rfl | hm2
                    · rw [hval] at hval1; cases hval1
                    · exact hnew j1 nm1 tg1 t1 v1 hm2 hg1 hval1
              | some v =>
                  rw [hval] at hbody
                  simp only [] at hbody
                  obtain ⟨res, hb, hcall, htail⟩ := bind_ret_inv _ _ _ _ _ hbody
                  rcases res with ⟨w, _ | er⟩
                  · by_cases hex : isExported nm = true
                    · simp only [hex, if_true] at hcall htail
                      obtain ⟨zs1, hcb, hlb, hoth⟩ :=
                        hfr j nm tg t vals v (List.mem_cons_self _ _) hg hv hval h cur w hb hc
                          hlen hcall
                      obtain ⟨u, h3, hset, hpure⟩ := bind_ret_inv _ _ _ _ _ htail
                      simp only [pure_apply, Outcome.ret.injEq, true_and] at hpure
                      subst hpure
                      unfold RValue.Set at hset
                      obtain ⟨xv, h4, hst, hwr⟩ := bind_ret_inv _ _ _ _ _ hset
                      have := readOnly_storeAs t w hb xv h4 hst
                      subst this
                      have hjl : j < zs1.length := by omega
                      simp only [writePlace, write_field_cell h4 c zs1 j xv hcb hjl,
                        Outcome.ret.injEq, true_and] at hwr
                      subst hwr
                      have hclt : c < h4.cells.length := by
                        rcases Nat.lt_or_ge c h4.cells.length with hh | hh
                        · exact hh
                        · rw [List.getElem?_eq_none hh] at hcb
                          cases hcb
                      have hc3 : (⟨h4.cells.set c (.struct (zs1.set j xv))⟩ : Heap).cells[c]?
                          = some (.struct (zs1.set j xv)) := by
                        simp [List.getElem?_set, hclt]
                      obtain ⟨fin, hcf, hlf, hkeep, hnew⟩ :=
                        ih (zs1.set j xv) _ h1 hnd2
                          (fun j1 hj1 => hlt j1 (List.mem_cons_of_mem _ hj1)) hc3
                          (by simp [hlb])
                          (fun j1 nm1 tg1 t1 vals1 v1 hm1 =>
                            hfr j1 nm1 tg1 t1 vals1 v1 (List.mem_cons_of_mem _ hm1)) hrest
                      refine ⟨fin, hcf, hlf, ?_, ?_⟩
                      · intro j1 hj1
                        have hji : j1 ≠ j := by
                          intro heq
                          subst heq
                          rcases hj1 with hj1 | hj1
                          · exact hj1 (List.mem_cons_self _ _)
                          · rw [hval] at hj1; cases hj1
                        have hkr : j1 ∉ rest ∨ fieldValue env opts cfg fs j1 = none := by
                          rcases hj1 with hj1 | hj1
                          · exact Or.inl (fun hm => hj1 (List.mem_cons_of_mem _ hm))
                          · exact Or.inr hj1
                        rw [hkeep j1 hkr, List.getElem?_set_ne (Ne.symm hji), hoth j1 hji]
                      · intro j1 nm1 tg1 t1 v1 hm1 hg1 hval1
                        rcases List.mem_cons.mp hm1 with rfl | hm2
                        · rw [hg] at hg1
                          simp only [Option.some.injEq, Prod.mk.injEq] at hg1
                          obtain ⟨rfl, rfl, rfl⟩ := hg1
                          rw [hval] at hval1
                          cases hval1
                          refine ⟨vals, h, w, h4, xv, hv, hex, hcall, hst, ?_⟩
                          rw [hkeep j1 (Or.inl hnotin)]
                          simp [List.getElem?_set, hjl]
                        · exact hnew j1 nm1 tg1 t1 v1 hm2 hg1 hval1
                    · exfalso
                      simp only [hex, Bool.false_eq_true, if_false] at htail
                      simp [RValue.Set, goPanic] at htail
                  · simp at htail

theorem reifyStructField_congr (env : Env) (n : Nat) (opts : Options) (cfg cfg1 : Config)
    (name : String) (fs : FieldList) (c j : Nat) (hsep : opts.pathSep = "")
    (hnosq : ∀ j nm tg t, fs.get? j = some (nm, tg, t) →
      (env.parseTags (tagGet tg opts.tag)).2.squash = false)
    (hsame : ∀ j, fieldValue env opts cfg fs j = fieldValue env opts cfg1 fs j) :
    reifyStructField env (reifier env (n + 1)) opts cfg (.lval (.struct name fs) ⟨c, []⟩) j
      = reifyStructField env (reifier env (n + 1)) opts cfg1 (.lval (.struct name fs) ⟨c, []⟩)
          j := by
  funext h
  cases hg : fs.get? j with
  | none => simp [reifyStructField, RValue.Type, hg]
  | some f =>
      obtain ⟨nm, tg, t⟩ := f
      rw [reifyStructField_plain env n opts cfg name fs c j nm tg t h hg (hnosq j nm tg t hg)
          hsep,
        reifyStructField_plain env n opts cfg1 name fs c j nm tg t h hg (hnosq j nm tg t hg)
          hsep, hsame j]

/-- The run of `reifyStruct` on a struct without squash fields, no path
separator being set, depends on the Config only through the values it holds
under the names of the fields. -/
theorem reifyStruct_congr (env : Env) (n : Nat) (opts : Options) (cfg cfg1 : Config)
    (name : String) (fs : FieldList) (p : Place) (h : Heap) (hsep : opts.pathSep = "")
    (hnosq : ∀ j nm tg t, fs.get? j = some (nm, tg, t) →
      (env.parseTags (tagGet tg opts.tag)).2.squash = false)
    (hsame : ∀ j, fieldValue env opts cfg fs j = fieldValue env opts cfg1 fs j) :
    reifyStruct env (reifier env (n + 1)) opts (.lval (.struct name fs) p) cfg h
      = reifyStruct env (reifier env (n + 1)) opts (.lval (.struct name fs) p) cfg1 h := by
  have hc : chaseValuePointers (.lval (.struct name fs) p)
      = Pure.pure (.lval (.struct name fs) p) := by
    funext h1; exact chaseValuePointers_stop _ h1 (by simp [RValue.Kind, RType.Kind])
  have hc2 : ∀ a : Nat, chaseValuePointers
      (.rval (.ptr (.struct name fs)) (.ptr (some ⟨a, []⟩)))
      = Pure.pure (.lval (.struct name fs) ⟨a, []⟩) := by
    intro a; funext h1
    exact chaseValuePointers_ptr _ _ h1 (by simp [RType.Kind])
  unfold reifyStruct
  simp only [hc, pure_bind_M, RValue.Type, chaseTypePointers, reflectNew, bind_assoc_M,
    hc2, RValue.Kind, RType.Kind, beq_self_eq_true, if_true, RValue.NumField,
    bind_apply, alloc, pure_apply]
  have hbody : reifyStructField env (reifier env (n + 1)) opts cfg
      (.lval (.struct name fs) ⟨h.cells.length, []⟩)
      = reifyStructField env (reifier env (n + 1)) opts cfg1
          (.lval (.struct name fs) ⟨h.cells.length, []⟩) :=
    funext (fun j =>
      reifyStructField_congr env n opts cfg cfg1 name fs h.cells.length j hsep hnosq hsame)
  rw [hbody]

/-- A call of `reifyStruct` on a struct variable without squash fields, no
path separator being set, that returns no error: every field without a value
in the Config is as before, every field with a value in the Config holds what
the call of `reifyMergeValue` with that value returned. -/
theorem reifyStruct_inv (env : Env) (n : Nat) (opts : Options) (cfg : Config)
    (name : String) (fs : FieldList) (p : Place) (gs0 : List GVal) (h h2 : Heap)
    (hsep : opts.pathSep = "")
    (hnosq : ∀ j nm tg t, fs.get? j = some (nm, tg, t) →
      (env.parseTags (tagGet tg opts.tag)).2.squash = false)
    (hpz : ∀ v, env.pointerize (.struct name fs) (.struct name fs) v = (Pure.pure v : M RValue))
    (hr : h.read p = some (.struct gs0)) (hlen : gs0.length = fs.length)
    (hfr : ∀ j nm tg t vals v, fs.get? j = some (nm, tg, t) →
      env.parseValidatorTags (tagGet tg opts.validatorTag) = .ok vals →
      fieldValue env opts cfg fs j = some v →
      ∀ ha zs w hb, ha.cells[h.cells.length]? = some (.struct zs) → zs.length = fs.length →
      (reifier env n).reifyMergeValue ⟨opts, (env.parseTags (tagGet tg opts.tag)).2, vals⟩
        (.lval t ⟨h.cells.length, [j]⟩) v ha = .ret (w, none) hb →
      ∃ zs1, hb.cells[h.cells.length]? = some (.struct zs1) ∧ zs1.length = fs.length ∧
        ∀ j1, j1 ≠ j → zs1[j1]? = zs[j1]?)
    (hrun : reifyStruct env (reifier env (n + 1)) opts (.lval (.struct name fs) p) cfg h
      = .ret none h2) :
    ∃ fin, h2.read p = some (.struct fin) ∧ fin.length = fs.length ∧
      (∀ j, fieldValue env opts cfg fs j = none → fin[j]? = gs0[j]?) ∧
      (∀ j nm tg t v, fs.get? j = some (nm, tg, t) →
        fieldValue env opts cfg fs j = some v →
        ∃ vals ha w hb xv,
          env.parseValidatorTags (tagGet tg opts.validatorTag) = .ok vals ∧
          isExported nm = true ∧
          (reifier env n).reifyMergeValue
            ⟨opts, (env.parseTags (tagGet tg opts.tag)).2, vals⟩
            (.lval t ⟨h.cells.length, [j]⟩) v ha = .ret (w, none) hb ∧
          storeAs t w hb = .ret xv hb ∧ fin[j]? = some xv) := by
  rw [reifyStruct_run env _ opts cfg name fs p h _ hr] at hrun
  obtain ⟨res, h1, hloop, htail⟩ := bind_ret_inv _ _ _ _ _ hrun
  cases res with
  | some er => simp at htail
  | none =>
      obtain ⟨fin, hcf, hlf, hkeep, hnew⟩ :=
        reifyStruct_loop_inv env n opts cfg name fs h.cells.length hsep hnosq
          (List.range fs.length) gs0 _ h1 (List.nodup_range _)
          (fun j hj => List.mem_range.mp hj) (by simp) hlen
          (fun j nm tg t vals v _ => hfr j nm tg t vals v) hloop
      refine ⟨fin, ?_, hlf, fun j hj => hkeep j (Or.inr hj), ?_⟩
      · simp only [bind_apply, getHeap] at htail
        cases htv : env.tryValidate h1 (.lval (.struct name fs) ⟨h.cells.length, []⟩) with
        | some err => rw [htv] at htail; simp at htail
        | none =>
            rw [htv] at htail
            have hrc : h1.read ⟨h.cells.length, []⟩ = some (.struct fin) := by
              simp [Heap.read, hcf, GVal.getPath]
            simp only [hpz, bind_apply, pure_apply, RValue.Set, storeAs, RValue.isRO,
              Bool.false_eq_true, if_false, RValue.Type, RValue.load, readPlace, hrc,
              if_true, writePlace] at htail
            cases hw : h1.write p (.struct fin) with
            | none => rw [hw] at htail; simp at htail
            | some h3 =>
                rw [hw] at htail
                simp only [Outcome.ret.injEq, true_and] at htail
                subst htail
                exact Heap.write_some_read h1 h3 p _ hw
      · intro j nm tg t v hg hval
        exact hnew j nm tg t v (List.mem_range.mpr (FieldList.get?_lt fs j _ hg)) hg hval

/-! ## The claims -/

set_option maxRecDepth 100000

/-- C1: on an absent (nil) Config `Unpack` fails with `ErrNilConfig`, whatever
the destination (nil included) and the options; on a Config that is not nil
and a nil destination it fails with `ErrNilValue`. In both cases the heap, and
so the destination, is left as it was. -/
theorem Unpack_nil (env : Env) (fuel : Nat) (dst : Option (RType × GVal))
    (options : List UnpackOption) (c : Config) (h : Heap) :
    Unpack env fuel none dst options h = .ret (some (.raiseNil .ErrNilConfig)) h ∧
    Unpack env fuel (some c) none options h = .ret (some (.raiseNil .ErrNilValue)) h ∧
    (Error.raiseNil .ErrNilConfig).reason = .ErrNilConfig ∧
    (Error.raiseNil .ErrNilValue).reason = .ErrNilValue :=
  ⟨rfl, rfl, rfl, rfl⟩

/-- C5: when `toInt` yields `i`, `reifyInt` into a signed integer type of bit
width `w` succeeds exactly when `-2^(w-1) ≤ i < 2^(w-1)`; on success the value
produced is `i`; otherwise the result is the conversion error with cause
`ErrOverflow`. -/
theorem reifyInt_range (env : Env) (opts : FieldOptions) (val : Value) (t : RType) (i : Int)
    (hi : env.toInt val = .ok i) :
    ((reifyInt env opts val t).2 = none ↔
        - 2 ^ (t.Kind.bits - 1) ≤ i ∧ i < 2 ^ (t.Kind.bits - 1)) ∧
    ((reifyInt env opts val t).2 = none →
        (reifyInt env opts val t).1 = .rval t (.int i)) ∧
    ((reifyInt env opts val t).2 ≠ none →
        reifyInt env opts val t =
          (.invalid, some (.raiseConversion (.sentinel .ErrOverflow) "int")) ∧
        ((reifyInt env opts val t).2.map Error.reason) = some .ErrOverflow) := by
  have hw := wrapInt_eq_iff t.Kind i
  unfold reifyInt overflowInt
  rw [hi]
  by_cases hc : wrapInt t.Kind.bits i = i
  · simp [hc, hw.mp hc]
  · have : ¬ (- 2 ^ (t.Kind.bits - 1) ≤ i ∧ i < 2 ^ (t.Kind.bits - 1)) :=
      fun h => hc (hw.mpr h)
    simp [hc, this, Error.reason]

/-- C5, at `Int(5)` and `Int(1000)` into `int8`: the first succeeds with 5,
the second fails with `ErrOverflow`. -/
theorem reifyInt_range_witness :
    sampleEnv.toInt (.cfgInt 5) = .ok 5 ∧
    reifyInt sampleEnv (fieldOptionsOf ⟨"config", "validate", ""⟩) (.cfgInt 5) .int8
      = (.rval .int8 (.int 5), none) ∧
    reifyInt sampleEnv (fieldOptionsOf ⟨"config", "validate", ""⟩) (.cfgInt 1000) .int8
      = (.invalid, some (.raiseConversion (.sentinel .ErrOverflow) "int")) := by
  have h5 := reifyInt_range sampleEnv (fieldOptionsOf ⟨"config", "validate", ""⟩)
    (.cfgInt 5) .int8 5 rfl
  have h1000 := reifyInt_range sampleEnv (fieldOptionsOf ⟨"config", "validate", ""⟩)
    (.cfgInt 1000) .int8 1000 rfl
  refine ⟨rfl, ?_, ?_⟩
  · have hn : (reifyInt sampleEnv (fieldOptionsOf ⟨"config", "validate", ""⟩)
        (.cfgInt 5) .int8).2 = none := h5.1.mpr (by norm_num [Kind.bits, RType.Kind])
    exact Prod.ext (h5.2.1 hn) hn
  · exact (h1000.2.2 (fun hn => by
      have := h1000.1.mp hn
      norm_num [Kind.bits, RType.Kind] at this)).1

/-- C6: `doReifyPrimitive` tests `isInt(kind)` before it looks at `extras`, and
the kind of `time.Duration` is `Int64`: an `Int` source `n` into a duration
target goes through `reifyInt` and comes out as the duration of `n`
nanoseconds, not of `n` seconds. -/
theorem doReifyPrimitive_duration_int (env : Env) (opts : FieldOptions) (n : Int) (h : Heap)
    (htyp : env.typ (.cfgInt n) = .int64) (hto : env.toInt (.cfgInt n) = .ok n)
    (hn : - 2 ^ 63 ≤ n ∧ n < 2 ^ 63) :
    doReifyPrimitive env opts (.cfgInt n) .duration h
      = .ret (.rval .duration (.int n), none) h := by
  have hr := reifyInt_ok env opts (.cfgInt n) .duration n hto (by
    have e : RType.duration.Kind.bits - 1 = 63 := rfl
    rw [e]; exact hn)
  unfold doReifyPrimitive
  simp only [htyp, RType.Kind, isInt, hr]
  rfl

/-- C6, at `Int(5)`: the duration produced is 5 nanoseconds, while
`reifyDuration` on the same value gives 5 seconds. -/
theorem doReifyPrimitive_duration_int_witness :
    doReifyPrimitive sampleEnv (fieldOptionsOf ⟨"config", "validate", ""⟩) (.cfgInt 5)
        .duration ⟨[]⟩
      = .ret (.rval .duration (.int 5), none) ⟨[]⟩ ∧
    reifyDuration sampleEnv (fieldOptionsOf ⟨"config", "validate", ""⟩) (.cfgInt 5) .duration
      = (.rval .duration (.int 5000000000), none) :=
  ⟨doReifyPrimitive_duration_int sampleEnv _ 5 ⟨[]⟩ rfl rfl (by norm_num), rfl⟩

/-- C7: for a source that is neither `Int`, `Float` nor `String` and that
`toString` coerces to `s`, a failure of `time.ParseDuration(s)` is lost: the
error is stored in the variable `err` that the `default` case declares, the
`err` tested after the switch is nil, and `reifyDuration` returns the duration
left in `d` together with no error. -/
theorem reifyDuration_default_drops_parse_error (env : Env) (opts : FieldOptions)
    (val : Value) (t : RType) (s : String) (e : Cause)
    (hInt : ∀ i, val ≠ .cfgInt i) (hFloat : ∀ f, val ≠ .cfgFloat f)
    (hString : ∀ x, val ≠ .cfgString x)
    (hs : env.toString val = .ok s) (hp : (env.parseDuration s).2 = some e) :
    (env.parseDuration s).2 ≠ none ∧
    reifyDuration env opts val t
      = (.rval .duration (.int (env.parseDuration s).1), none) := by
  refine ⟨by simp [hp], ?_⟩
  cases val <;> simp_all [reifyDuration, reifyDurationEnd]

/-- C7, at `Uint(5)`: the text `5` has no unit, `time.ParseDuration` rejects
it, and `reifyDuration` returns the zero duration and no error; the same text
as a `String` source is rejected with `ErrInvalidDuration`. -/
theorem reifyDuration_default_drops_parse_error_witness :
    sampleEnv.toString (.cfgUint 5) = .ok "5" ∧
    (sampleEnv.parseDuration "5").2 = some (.lib "time: invalid duration") ∧
    reifyDuration sampleEnv (fieldOptionsOf ⟨"config", "validate", ""⟩) (.cfgUint 5) .duration
      = (.rval .duration (.int 0), none) ∧
    reifyDuration sampleEnv (fieldOptionsOf ⟨"config", "validate", ""⟩) (.cfgString "5")
        .duration
      = (.invalid, some (.raiseInvalidDuration (.lib "time: invalid duration"))) :=
  ⟨rfl, rfl,
    (reifyDuration_default_drops_parse_error sampleEnv _ (.cfgUint 5) .duration "5"
      (.lib "time: invalid duration") (by intro i; simp) (by intro f; simp)
      (by intro x; simp) rfl rfl).2,
    rfl⟩

/-- C10 as stated fails: `castArr` asks `v.Len()` of a value that is not an
array and returns the empty sequence when it is zero, so a value that is not
an array does not always become a singleton. -/
theorem castArr_not_always_singleton :
    ¬ ∀ (env : Env) (v : Value), (∀ arr, v ≠ .cfgArray arr) → (castArr env v).arr = [v] := by
  intro hall
  have h := hall sampleEnv .cfgNil (by intro arr; simp)
  simp [castArr, sampleEnv] at h

/-- C2 as stated fails: a pointer to an `int` is a pointer, so it passes the
check of `Unpack`; `reifyInto` then rejects it with `ErrInvalidTopLevelType`,
which is neither `ErrNilValue` nor `ErrPointerRequired`. -/
theorem Unpack_ptr_int_not_pointerRequired :
    ∃ e : Error,
      Unpack sampleEnv 3 (some (.mk 1 [])) (some (.ptr .int, .ptr (some ⟨0, []⟩))) []
          ⟨[.int 0]⟩ = .ret (some e) ⟨[.int 0]⟩ ∧
      e.reason = .ErrInvalidTopLevelType ∧
      e.reason ≠ .ErrNilValue ∧ e.reason ≠ .ErrPointerRequired :=
  ⟨.raiseInvalidTopLevelType, rfl, rfl, by decide, by decide⟩

/-- C2, amended: for a Config that is not nil, `Unpack` fails with
`ErrPointerRequired` on every destination whose kind is neither pointer nor
map (a struct by value, an `int`); a pointer to a type that is no pointer,
interface, map or struct (a pointer to an `int`) passes that check and fails
in `reifyInto` with `ErrInvalidTopLevelType`. Nothing is written. -/
theorem Unpack_destination_check (env : Env) (fuel : Nat) (c : Config)
    (options : List UnpackOption) (h : Heap) :
    (∀ t v, t.Kind ≠ .Ptr → t.Kind ≠ .Map →
      Unpack env fuel (some c) (some (t, v)) options h
        = .ret (some .raisePointerRequired) h) ∧
    (∀ t p, t.Kind ≠ .Ptr → t.Kind ≠ .Interface → t.Kind ≠ .Map → t.Kind ≠ .Struct →
      Unpack env (fuel + 2) (some c) (some (.ptr t, .ptr (some p))) options h
        = .ret (some .raiseInvalidTopLevelType) h) ∧
    Error.raisePointerRequired.reason = .ErrPointerRequired ∧
    Error.raiseInvalidTopLevelType.reason = .ErrInvalidTopLevelType := by
  refine ⟨?_, ?_, rfl, rfl⟩
  · intro t v hp hm
    simp [Unpack, RValue.Kind, hp, hm]
  · intro t p hp hi hm hs
    have e2 : (reifier env (fuel + 2)).reifyInto = reifyInto env (reifier env (fuel + 1)) := rfl
    simp only [Unpack, RValue.Kind, RType.Kind, e2]
    exact reifyInto_ptr_other env _ fuel rfl _ c t p h hp hi hm hs

/-- C2, amended, at a struct passed by value and at a pointer to an `int`. -/
theorem Unpack_destination_check_witness :
    Unpack sampleEnv 3 (some (.mk 1 []))
        (some (.struct "S" (.cons "A" [] .int .nil), .struct [.int 0])) [] ⟨[]⟩
      = .ret (some .raisePointerRequired) ⟨[]⟩ ∧
    Unpack sampleEnv 3 (some (.mk 1 [])) (some (.ptr .int, .ptr (some ⟨0, []⟩))) [] ⟨[.int 7]⟩
      = .ret (some .raiseInvalidTopLevelType) ⟨[.int 7]⟩ :=
  ⟨(Unpack_destination_check sampleEnv 3 (.mk 1 []) [] ⟨[]⟩).1 _ _ (by decide) (by decide),
   (Unpack_destination_check sampleEnv 1 (.mk 1 []) [] ⟨[.int 7]⟩).2.1 .int ⟨0, []⟩
     (by decide) (by decide) (by decide) (by decide)⟩

/-- C3 as stated fails: with `A int; B int8` and the Config `a: 1, b: 1000`,
field `A` converts and field `B` overflows; `Unpack` returns the error and the
destination struct (cell 0) still holds `A = 0`. The value 1 was written to
the copy that `reifyStruct` works on (cell 1), which is dropped. -/
theorem Unpack_failure_rolls_back :
    Unpack sampleEnv 5 (some (.mk 1 [("a", .cfgInt 1), ("b", .cfgInt 1000)]))
        (some (.ptr (.struct "S" (.cons "A" [] .int (.cons "B" [] .int8 .nil))),
          .ptr (some ⟨0, []⟩))) [] ⟨[.struct [.int 0, .int 0]]⟩
      = .ret (some (.raiseConversion (.sentinel .ErrOverflow) "int"))
          ⟨[.struct [.int 0, .int 0], .struct [.int 1, .int 0]]⟩ := rfl

/-- C3, amended: when `Unpack` into a pointer to a struct whose fields are all
of scalar type returns an error, every cell of the heap that existed before
the call holds what it held before: `reifyStruct` fills a fresh copy and
assigns it to the destination only after all fields and the struct validator
have succeeded, so the fields converted before the failing one keep their old
values in the destination. -/
theorem Unpack_failure_keeps_struct (env : Env) (fuel : Nat) (c : Config) (name : String)
    (fs : FieldList) (p : Place) (options : List UnpackOption) (h h1 : Heap) (e : Error)
    (hfs : fs.allScalar = true)
    (hpz : ∀ t v, env.pointerize t t v = (Pure.pure v : M RValue))
    (hrf : ∀ n v, Keeps n (env.reflect v) (fun _ => True))
    (hcv : ∀ n v t, Keeps n (env.convert v t) (fun _ => True))
    (hrun : Unpack env fuel (some c) (some (.ptr (.struct name fs), .ptr (some p))) options h
      = .ret (some e) h1) :
    (∀ b, b < h.cells.length → h1.cells[b]? = h.cells[b]?) ∧
    (∀ q : Place, q.cell < h.cells.length → h1.read q = h.read q) := by
  have key : ∀ b, b < h.cells.length → h1.cells[b]? = h.cells[b]? := by
    match fuel, hrun with
    | 0, hrun => cases hrun
    | 1, hrun =>
        have e1 : (reifier env 1).reifyInto = reifyInto env (reifier env 0) := rfl
        have e2 : (reifier env 0).fuel = 0 := rfl
        simp only [Unpack, RValue.Kind, RType.Kind, e1, reifyInto, bind_apply,
          chaseValuePointers_ptr (.struct name fs) p h (by simp [RType.Kind]), e2,
          tryTConfig, chaseValue, outOfFuel] at hrun
        cases hrun
    | k + 2, hrun =>
        rw [Unpack_ptr_struct] at hrun
        exact keepsOnError_reifyStruct env h.cells.length k _ name fs p c hfs hpz
          (hrf _) (hcv _) h e h1 (Nat.le_refl _) hrun
  refine ⟨key, fun q hq => ?_⟩
  simp only [Heap.read, key q.cell hq]

/-- C3, amended, at a destination holding `A = 7, B = 8`: after the failure
on `B` the destination still holds 7 and 8. -/
theorem Unpack_failure_keeps_struct_witness :
    ∃ h1 e,
      Unpack sampleEnv 5 (some (.mk 1 [("a", .cfgInt 1), ("b", .cfgInt 1000)]))
          (some (.ptr (.struct "S" (.cons "A" [] .int (.cons "B" [] .int8 .nil))),
            .ptr (some ⟨0, []⟩))) [] ⟨[.struct [.int 7, .int 8]]⟩ = .ret (some e) h1 ∧
      h1.read ⟨0, []⟩ = some (.struct [.int 7, .int 8]) := by
  refine ⟨_, _, rfl, ?_⟩
  have hw := (Unpack_failure_keeps_struct sampleEnv 5
    (.mk 1 [("a", .cfgInt 1), ("b", .cfgInt 1000)]) "S"
    (.cons "A" [] .int (.cons "B" [] .int8 .nil)) ⟨0, []⟩ [] ⟨[.struct [.int 7, .int 8]]⟩ _ _
    rfl
    (fun t v => by simp [sampleEnv, samplePointerize])
    (fun n v => by
      cases v <;>
        first
          | exact keeps_pure _ trivial
          | exact keeps_bind (keeps_alloc _) (fun _ _ => keeps_pure _ trivial))
    (fun n v t => keeps_pure _ trivial) rfl).2 ⟨0, []⟩ (by decide)
  rw [hw]
  rfl

/-- C8 as stated fails: a pointer to a map is a pointer target, and `reifyValue`
requires an Object for a map-based target before it looks at primitives, so
the `Nil` source is rejected with `ErrExpectedObject`. -/
theorem reifyValue_nil_ptr_map_fails :
    (reifier sampleEnv 3).reifyValue (fieldOptionsOf ⟨"config", "validate", ""⟩)
        (.ptr (.map .string .int)) .cfgNil ⟨[]⟩
      = .ret (.invalid, some .raiseExpectedObject) ⟨[]⟩ ∧
    Error.raiseExpectedObject.reason = .ErrExpectedObject := ⟨rfl, rfl⟩

/-- C9: into an array type of declared length `N`, a source sequence of a
different length fails in `reifyArray` with `ErrArraySize` and the heap is
left as it was, for every destination value; a sequence of length `N` whose
elements all convert (element `i` to a value stored as `x i`, the conversion
leaving the cell of the array alone) makes `reifyArray` on an addressable
array succeed, return that array, and leave `x i` in element `i` for every
`i < N`. -/
theorem reifyArray_exact (env : Env) (fuel : Nat) (opts : FieldOptions) (n : Nat) (e : RType)
    (arr : CfgArray) (h : Heap) :
    (arr.Len ≠ n → ∀ r dst,
      reifyArray env r opts dst (.array n e) arr h
        = .ret (.invalid, some .raiseArraySize) h) ∧
    (arr.Len = n → ∀ (p : Place) (zs : List GVal) (x : Nat → GVal),
      h.read p = some (.array zs) → zs.length = n →
      (∀ i v, arr.arr[i]? = some v → ∀ h1, ∃ w h2,
        (reifier env fuel).reifyValue opts e v h1 = .ret (w, none) h2 ∧
        storeAs e w h2 = .ret (x i) h2 ∧
        h2.cells[p.cell]? = h1.cells[p.cell]?) →
      ∃ h1 zs1,
        reifyArray env (reifier env (fuel + 1)) opts (.lval (.array n e) p) (.array n e) arr h
          = .ret (.lval (.array n e) p, none) h1 ∧
        h1.read p = some (.array zs1) ∧ zs1.length = n ∧
        ∀ i, i < n → zs1[i]? = some (x i)) ∧
    Error.raiseArraySize.reason = .ErrArraySize := by
  refine ⟨?_, ?_, rfl⟩
  · intro hne r dst
    simp [reifyArray, hne]
  · intro heq p zs x hr hl hconv
    obtain ⟨h1, zs1, hloop, hr1, hl1, _, hhigh⟩ :=
      reifyDoArray_loop (reifier env fuel) opts e n p x arr.arr 0 zs h hr hl
        (by simpa [CfgArray.Len] using heq)
        (fun i v hi h1 => by simpa using hconv i v hi h1)
    refine ⟨h1, zs1, ?_, hr1, hl1, fun i hi => hhigh i (Nat.zero_le _) hi⟩
    have hb : ∀ (m : M (Option Error)) (k : Option Error → M (RValue × Option Error)),
        m h = .ret none h1 → (m >>= k) h = k none h1 := by
      intro m k hm
      simp [hm]
    have hstep : reifyArray env (reifier env (fuel + 1)) opts (.lval (.array n e) p)
        (.array n e) arr h
        = reifyDoArray env (reifier env fuel) opts (.lval (.array n e) p) e arr h := by
      simp only [reifyArray, heq, bne_self_eq_false, Bool.false_eq_true, if_false]
      rfl
    rw [hstep]
    unfold reifyDoArray
    refine (hb _ _ hloop).trans ?_
    cases hv : env.runValidators h1 (.lval (.array n e) p) opts.validators <;>
      simp [getHeap, hv]

/-- C9, at an array of 3 `int`: a source of length 2 fails with
`ErrArraySize`, the source `[10, 20, 30]` succeeds element by element. -/
theorem reifyArray_exact_witness :
    reifyArray sampleEnv (reifier sampleEnv 2) (fieldOptionsOf ⟨"config", "validate", ""⟩)
        (.lval (.array 3 .int) ⟨0, []⟩) (.array 3 .int) ⟨[.cfgInt 1, .cfgInt 2]⟩
        ⟨[.array [.int 0, .int 0, .int 0]]⟩
      = .ret (.invalid, some .raiseArraySize) ⟨[.array [.int 0, .int 0, .int 0]]⟩ ∧
    ∃ h1 zs1,
      reifyArray sampleEnv (reifier sampleEnv 2) (fieldOptionsOf ⟨"config", "validate", ""⟩)
          (.lval (.array 3 .int) ⟨0, []⟩) (.array 3 .int)
          ⟨[.cfgInt 10, .cfgInt 20, .cfgInt 30]⟩ ⟨[.array [.int 0, .int 0, .int 0]]⟩
        = .ret (.lval (.array 3 .int) ⟨0, []⟩, none) h1 ∧
      h1.read ⟨0, []⟩ = some (.array zs1) ∧ zs1.length = 3 ∧
      ∀ i, i < 3 → zs1[i]? = some (.int (10 * (i + 1))) :=
  ⟨(reifyArray_exact sampleEnv 1 _ 3 .int ⟨[.cfgInt 1, .cfgInt 2]⟩ _).1 (by decide) _ _,
   (reifyArray_exact sampleEnv 1 _ 3 .int ⟨[.cfgInt 10, .cfgInt 20, .cfgInt 30]⟩
      ⟨[.array [.int 0, .int 0, .int 0]]⟩).2.1 rfl ⟨0, []⟩ [.int 0, .int 0, .int 0]
      (fun i => .int (10 * (i + 1))) rfl rfl
      (fun i v hi h1 => by
        match i, hi with
        | 0, hi => simp at hi; subst hi; exact ⟨_, h1, rfl, storeAs_same _ _ _, rfl⟩
        | 1, hi => simp at hi; subst hi; exact ⟨_, h1, rfl, storeAs_same _ _ _, rfl⟩
        | 2, hi => simp at hi; subst hi; exact ⟨_, h1, rfl, storeAs_same _ _ _, rfl⟩
        | i + 3, hi => simp at hi)⟩

/-- C11 (code bug): the verdict of the sequence-level validator never reaches
the result of `reifyDoArray`: with any environment the function computes
what it computes when `runValidators` accepts everything. With a validator
that rejects every sequence, `reifySlice` on `[1, 2]` into `[]int` returns
the produced slice and no error, although the validator fails on it. -/
theorem reifyDoArray_drops_validation :
    (∀ (env : Env) (r : Rec) (opts : FieldOptions) (dst : RValue) (elemT : RType)
        (arr : CfgArray),
      reifyDoArray env r opts dst elemT arr
        = reifyDoArray { env with runValidators := fun _ _ _ => none } r opts dst elemT arr) ∧
    reifySlice strictSeqEnv (reifier strictSeqEnv 2)
        ⟨⟨"config", "validate", ""⟩, ⟨false⟩, [⟨"min", "3"⟩]⟩ (.slice .int)
        ⟨[.cfgInt 1, .cfgInt 2]⟩ ⟨[]⟩
      = .ret (.rval (.slice .int) (.sliceRef (some 0) 2), none) ⟨[.array [.int 1, .int 2]]⟩ ∧
    strictSeqEnv.runValidators ⟨[.array [.int 1, .int 2]]⟩
        (.rval (.slice .int) (.sliceRef (some 0) 2)) [⟨"min", "3"⟩]
      = some (.lib "sequence rejected") := by
  refine ⟨?_, rfl, rfl⟩
  intro env r opts dst elemT arr
  funext h
  unfold reifyDoArray
  simp only [bind_apply, getHeap]
  split <;> try rfl
  rename_i o h1 _
  cases o with
  | some e => rfl
  | none =>
      by_cases hro : dst.isRO = true
      · simp only [hro, if_true]
      · rw [if_neg hro, if_neg hro]
        simp only [bind_apply, getHeap]
        cases env.runValidators h1 dst opts.validators <;> rfl

/-- C13: when the path of a field name resolves to a Config that does not
hold the final key, `reifyGetField` returns no error and leaves the heap, and
with it the destination field, as it was; this holds whatever the functions
it could call are (also ones that panic), so no conversion and no validator
takes part. -/
theorem reifyGetField_missing (env : Env) (r : Rec) (cfg src : Config) (opts : FieldOptions)
    (name field : String) (dst : RValue) (h : Heap)
    (hpath : reifyCfgPath cfg opts.opts name = (some src, field, none))
    (hmiss : src.get? field = none) :
    reifyGetField env r cfg opts name dst h = .ret none h := by
  unfold reifyGetField
  rw [hpath]
  simp only [hmiss]
  rfl

/-- C13, at the struct field `port` of a Config that holds only `host`,
without a separator and with the path `db.port` under the separator `.`:
the field keeps the value 7. -/
theorem reifyGetField_missing_witness :
    reifyGetField sampleEnv (reifier sampleEnv 0)
        (.mk 0 [("host", .cfgString "a")]) (fieldOptionsOf ⟨"config", "validate", ""⟩)
        "port" (.lval .int ⟨0, []⟩) ⟨[.int 7]⟩
      = .ret none ⟨[.int 7]⟩ ∧
    reifyGetField sampleEnv (reifier sampleEnv 0)
        (.mk 0 [("db", .cfgSub (.mk 1 [("host", .cfgString "a")]))])
        (fieldOptionsOf ⟨"config", "validate", "."⟩)
        "db.port" (.lval .int ⟨0, []⟩) ⟨[.int 7]⟩
      = .ret none ⟨[.int 7]⟩ :=
  ⟨reifyGetField_missing sampleEnv _ (.mk 0 [("host", .cfgString "a")])
      (.mk 0 [("host", .cfgString "a")]) _ "port" "port" _ _ rfl rfl,
   reifyGetField_missing sampleEnv _
      (.mk 0 [("db", .cfgSub (.mk 1 [("host", .cfgString "a")]))])
      (.mk 1 [("host", .cfgString "a")]) _ "db.port" "port" _ _ rfl rfl⟩

/-- C14: on a destination of a map type whose key type is of string kind, a
source Config without fields makes `reifyMap` return no error and leave the
heap as it was, so an existing map keeps its entries and a nil map stays nil;
on a map type whose key type is not of string kind `reifyMap` returns the
error of `raiseKeyInvalidTypeUnpack` (`ErrKeyInvalidType`) for every source
Config, the empty one included, the heap again untouched. -/
theorem reifyMap_empty_source (env : Env) (r : Rec) (opts : Options) (dst : RValue)
    (k e : RType) (src : Config) (h : Heap)
    (hT : dst.Type h = .ret (.map k e) h) :
    (k.Kind = .String → src.fields = [] → reifyMap env r opts dst src h = .ret none h) ∧
    (k.Kind ≠ .String →
      reifyMap env r opts dst src h = .ret (some .raiseKeyInvalidTypeUnpack) h) ∧
    Error.raiseKeyInvalidTypeUnpack.reason = .ErrKeyInvalidType := by
  refine ⟨?_, ?_, rfl⟩
  · intro hk hs
    simp [reifyMap, hT, hk, hs]
  · intro hk
    simp [reifyMap, hT, hk]

/-- C14, at a nil `map[string]int` variable and at a `map[int]int` variable
with the Config without fields. -/
theorem reifyMap_empty_source_witness :
    reifyMap sampleEnv (reifier sampleEnv 0) ⟨"config", "validate", ""⟩
        (.lval (.map .string .int) ⟨0, []⟩) (.mk 0 []) ⟨[.mapRef none]⟩
      = .ret none ⟨[.mapRef none]⟩ ∧
    reifyMap sampleEnv (reifier sampleEnv 0) ⟨"config", "validate", ""⟩
        (.lval (.map .int .int) ⟨0, []⟩) (.mk 0 []) ⟨[.mapRef none]⟩
      = .ret (some .raiseKeyInvalidTypeUnpack) ⟨[.mapRef none]⟩ :=
  ⟨(reifyMap_empty_source sampleEnv _ _ (.lval (.map .string .int) ⟨0, []⟩) .string .int
      (.mk 0 []) ⟨[.mapRef none]⟩ rfl).1 rfl rfl,
   (reifyMap_empty_source sampleEnv _ _ (.lval (.map .int .int) ⟨0, []⟩) .int .int
      (.mk 0 []) ⟨[.mapRef none]⟩ rfl).2.1 (by decide)⟩

/-- C19: in `reifyMergeValue`, when the existing value, with interfaces and
pointers followed, is not a nil pointer or interface and its pointer-free type
is of kind map or struct, a source value that is not an Object (`toConfig`
fails) gives the error of `raiseExpectedObject` (`ErrExpectedObject`) and no
value; the chase only reads, so the heap returned is the heap of the call and
the existing map or struct is as it was. -/
theorem reifyMergeValue_expects_object (env : Env) (r : Rec) (opts : FieldOptions)
    (oldValue old0 old : RValue) (t tOld : RType) (val : Value) (h h1 h2 : Heap)
    (hci : chaseValueInterfaces oldValue h = .ret old0 h1)
    (ht : old0.Type h1 = .ret t h1)
    (hcp : chaseValuePointers old0 h1 = .ret old h2)
    (hnil : (old.Kind == .Ptr || old.Kind == .Interface) = true →
      old.IsNil h2 = .ret false h2)
    (htOld : old.Type h2 = .ret tOld h2)
    (hk : (chaseTypePointers tOld).Kind = .Map ∨ (chaseTypePointers tOld).Kind = .Struct)
    (hv : ∀ c, val.toConfig ≠ .ok c) :
    h1 = h ∧ h2 = h ∧
    reifyMergeValue env r opts oldValue val h
      = .ret (.invalid, some .raiseExpectedObject) h ∧
    Error.raiseExpectedObject.reason = .ErrExpectedObject := by
  have e1 := readOnly_chaseValueInterfaces oldValue h old0 h1 hci
  subst e1
  have e2 := readOnly_chaseValuePointers old0 h1 old h2 hcp
  subst e2
  refine ⟨rfl, rfl, ?_, rfl⟩
  have hval : ∃ c, val.toConfig = .error c := by
    cases hc : val.toConfig with
    | error c => exact ⟨c, rfl⟩
    | ok c => exact absurd hc (hv c)
  obtain ⟨c, hc⟩ := hval
  unfold reifyMergeValue
  simp only [bind_apply, hci, ht, hcp]
  by_cases hkk : (old.Kind == .Ptr || old.Kind == .Interface) = true
  · simp only [hkk, if_true, hnil hkk, Bool.false_eq_true, if_false, bind_apply, htOld, hc]
    generalize chaseTypePointers tOld = bt at hk
    cases bt <;> simp [RType.Kind, convertibleFromConfig] at hk ⊢
  · simp only [hkk, if_false, pure_apply, Bool.false_eq_true, bind_apply, htOld, hc]
    generalize chaseTypePointers tOld = bt at hk
    cases bt <;> simp [RType.Kind, convertibleFromConfig] at hk ⊢

/-- C19, at a struct variable, at a pointer to it and at a non-nil map, each
with the source value `Int 5`. -/
theorem reifyMergeValue_expects_object_witness :
    reifyMergeValue sampleEnv (reifier sampleEnv 0) (fieldOptionsOf ⟨"config", "validate", ""⟩)
        (.lval (.struct "S" (.cons "A" [] .int .nil)) ⟨0, []⟩) (.cfgInt 5)
        ⟨[.struct [.int 7]]⟩
      = .ret (.invalid, some .raiseExpectedObject) ⟨[.struct [.int 7]]⟩ ∧
    reifyMergeValue sampleEnv (reifier sampleEnv 0) (fieldOptionsOf ⟨"config", "validate", ""⟩)
        (.rval (.ptr (.struct "S" (.cons "A" [] .int .nil))) (.ptr (some ⟨0, []⟩)))
        (.cfgString "x") ⟨[.struct [.int 7]]⟩
      = .ret (.invalid, some .raiseExpectedObject) ⟨[.struct [.int 7]]⟩ ∧
    reifyMergeValue sampleEnv (reifier sampleEnv 0) (fieldOptionsOf ⟨"config", "validate", ""⟩)
        (.rval (.map .string .int) (.mapRef (some 0))) (.cfgArray [.cfgInt 5])
        ⟨[.mapObj [("a", .int 7)]]⟩
      = .ret (.invalid, some .raiseExpectedObject) ⟨[.mapObj [("a", .int 7)]]⟩ :=
  ⟨(reifyMergeValue_expects_object sampleEnv _ _
      (.lval (.struct "S" (.cons "A" [] .int .nil)) ⟨0, []⟩)
      (.lval (.struct "S" (.cons "A" [] .int .nil)) ⟨0, []⟩)
      (.lval (.struct "S" (.cons "A" [] .int .nil)) ⟨0, []⟩)
      (.struct "S" (.cons "A" [] .int .nil)) (.struct "S" (.cons "A" [] .int .nil))
      (.cfgInt 5) ⟨[.struct [.int 7]]⟩ _ _ rfl rfl rfl (fun hk => absurd hk (by decide)) rfl (Or.inr rfl)
      (by intro c hc; cases hc)).2.2.1,
   (reifyMergeValue_expects_object sampleEnv _ _
      (.rval (.ptr (.struct "S" (.cons "A" [] .int .nil))) (.ptr (some ⟨0, []⟩)))
      (.rval (.ptr (.struct "S" (.cons "A" [] .int .nil))) (.ptr (some ⟨0, []⟩)))
      (.lval (.struct "S" (.cons "A" [] .int .nil)) ⟨0, []⟩)
      (.ptr (.struct "S" (.cons "A" [] .int .nil))) (.struct "S" (.cons "A" [] .int .nil))
      (.cfgString "x") ⟨[.struct [.int 7]]⟩ _ _ rfl rfl rfl (fun hk => absurd hk (by decide)) rfl (Or.inr rfl)
      (by intro c hc; cases hc)).2.2.1,
   (reifyMergeValue_expects_object sampleEnv _ _
      (.rval (.map .string .int) (.mapRef (some 0)))
      (.rval (.map .string .int) (.mapRef (some 0)))
      (.rval (.map .string .int) (.mapRef (some 0)))
      (.map .string .int) (.map .string .int)
      (.cfgArray [.cfgInt 5]) ⟨[.mapObj [("a", .int 7)]]⟩ _ _ rfl rfl rfl (fun hk => absurd hk (by decide)) rfl
      (Or.inl rfl) (by intro c hc; cases hc)).2.2.1⟩

/-- C12: `reifyCfgPath` is the reference path lookup. Without a separator it
returns the Config and the name it was given; with a separator the name
splits into at least one segment and the result is that of the reference
lookup on the segments: the Config reached by descending through all but the
last segment and the last segment as key, or the failure (`ErrMissingField`,
`ErrExpectedObject`) of the first segment that does not resolve to an Object.
The function is total, so it always terminates. With the separator `.`, the
name `db.host` descends into `db` and returns the key `host`; it fails at
`db` when `db` is absent or no Object. -/
theorem reifyCfgPath_refines_lookup :
    (∀ (cfg : Config) (opts : Options) (name : String),
      reifyCfgPath cfg opts name
        = if opts.pathSep = "" then (some cfg, name, none)
          else pathLookupSpec cfg (stringsSplit name opts.pathSep)) ∧
    (∀ (name sep : String), stringsSplit name sep ≠ []) ∧
    stringsSplit "db.host" "." = ["db", "host"] ∧
    reifyCfgPath (.mk 0 [("db", .cfgSub (.mk 1 [("host", .cfgString "a")]))])
        ⟨"config", "validate", "."⟩ "db.host"
      = (some (.mk 1 [("host", .cfgString "a")]), "host", none) ∧
    reifyCfgPath (.mk 0 [("x", .cfgInt 1)]) ⟨"config", "validate", "."⟩ "db.host"
      = (none, "db", some (.raiseMissing "db")) ∧
    reifyCfgPath (.mk 0 [("db", .cfgInt 1)]) ⟨"config", "validate", "."⟩ "db.host"
      = (none, "db", some .raiseExpectedObject) ∧
    reifyCfgPath (.mk 0 [("db", .cfgInt 1)]) ⟨"config", "validate", ""⟩ "db.host"
      = (some (.mk 0 [("db", .cfgInt 1)]), "db.host", none) ∧
    (Error.raiseMissing "db").reason = .ErrMissingField ∧
    Error.raiseExpectedObject.reason = .ErrExpectedObject := by
  refine ⟨?_, ?_, rfl, rfl, rfl, rfl, rfl, rfl, rfl⟩
  · intro cfg opts name
    unfold reifyCfgPath
    by_cases hs : opts.pathSep = ""
    · simp [hs]
    · simp only [beq_iff_eq, hs, if_false]
      exact reifyCfgPathLoop_spec _ cfg name (splitGo_ne_nil _ _ _ _)
  · intro name sep
    exact splitGo_ne_nil _ _ _ _

/-- C17: `reifyMergeValue` on an existing value of a slice type and a source
Array of `n` elements that all convert (element `i` to a value stored as
`x i`, the conversion leaving the fresh backing array alone) returns a slice
of length `n` over a fresh backing array whose element `i` is `x i` for every
`i < n`. Nothing of the old slice takes part: any two existing values of the
slice type give the same outcome for every source value. -/
theorem reifyMergeValue_slice_replaces (env : Env) (fuel : Nat) (opts : FieldOptions)
    (oldValue : RValue) (e : RType) (vs : List Value) (x : Nat → GVal) (h : Heap)
    (hT : oldValue.Type h = .ret (.slice e) h)
    (hconv : ∀ i v, vs[i]? = some v → ∀ h1, h.cells.length < h1.cells.length → ∃ w h2,
      (reifier env fuel).reifyValue opts e v h1 = .ret (w, none) h2 ∧
      storeAs e w h2 = .ret (x i) h2 ∧
      h2.cells[h.cells.length]? = h1.cells[h.cells.length]?) :
    (∃ h1 zs1,
      reifyMergeValue env (reifier env (fuel + 2)) opts oldValue (.cfgArray vs) h
        = .ret (.rval (.slice e) (.sliceRef (some h.cells.length) vs.length), none) h1 ∧
      h1.read ⟨h.cells.length, []⟩ = some (.array zs1) ∧ zs1.length = vs.length ∧
      ∀ i, i < vs.length → zs1[i]? = some (x i)) ∧
    (∀ (r : Rec) (val : Value) (other : RValue), other.Type h = .ret (.slice e) h →
      reifyMergeValue env r opts other val h = reifyMergeValue env r opts oldValue val h) := by
  refine ⟨?_, ?_⟩
  · have hidx : ∀ i, i < vs.length → ∀ h0,
        (RValue.rval (.slice e) (.sliceRef (some h.cells.length) vs.length)).Index i h0
          = .ret (.lval e ⟨(⟨h.cells.length, []⟩ : Place).cell,
              (⟨h.cells.length, []⟩ : Place).path ++ [i]⟩) h0 := by
      intro i hi h0
      simp [RValue.Index, RValue.Type, RValue.load, hi]
    have hr : (⟨h.cells ++ [.array (List.replicate vs.length (zero e))]⟩ : Heap).read
        ⟨h.cells.length, []⟩ = some (.array (List.replicate vs.length (zero e))) := by
      simp [Heap.read, GVal.getPath]
    obtain ⟨h1, zs1, hloop, hr1, hl1, _, hhigh⟩ :=
      reifyDoArray_loop_at (reifier env fuel) opts e vs.length ⟨h.cells.length, []⟩ _ x hidx
        vs 0 _ _ hr (by simp) (by simp)
        (fun i v hi h1 hlt => by simpa using hconv i v hi h1 hlt)
    refine ⟨h1, zs1, ?_, hr1, hl1, fun i hi => hhigh i (Nat.zero_le _) hi⟩
    rw [reifyMergeValue_slice env _ opts oldValue e _ h hT]
    have hb : ∀ (m : M (Option Error)) (k : Option Error → M (RValue × Option Error)) (ha hb),
        m ha = .ret none hb → (m >>= k) ha = k none hb := by
      intro m k ha hb hm
      simp [hm]
    show reifySlice env (reifier env (fuel + 1)) opts (.slice e) ⟨vs⟩ h = _
    simp only [reifySlice, reflectMakeSlice, bind_apply, alloc, pure_apply, CfgArray.Len]
    show reifyDoArray env (reifier env fuel) opts _ e ⟨vs⟩ _ = _
    unfold reifyDoArray
    refine (hb _ _ _ _ hloop).trans ?_
    cases hv : env.runValidators h1
        (.rval (.slice e) (.sliceRef (some h.cells.length) vs.length)) opts.validators <;>
      simp [getHeap, hv]
  · intro r val other hO
    rw [reifyMergeValue_slice env r opts other e val h hO,
      reifyMergeValue_slice env r opts oldValue e val h hT]

/-- C17, at a `[]int` variable holding one element and the source
`[10, 20, 30]`: the result is a fresh slice of three elements. -/
theorem reifyMergeValue_slice_replaces_witness :
    ∃ h1 zs1,
      reifyMergeValue sampleEnv (reifier sampleEnv 3)
          (fieldOptionsOf ⟨"config", "validate", ""⟩) (.lval (.slice .int) ⟨1, []⟩)
          (.cfgArray [.cfgInt 10, .cfgInt 20, .cfgInt 30])
          ⟨[.array [.int 1], .sliceRef (some 0) 1]⟩
        = .ret (.rval (.slice .int) (.sliceRef (some 2) 3), none) h1 ∧
      h1.read ⟨2, []⟩ = some (.array zs1) ∧ zs1.length = 3 ∧
      ∀ i, i < 3 → zs1[i]? = some (.int (10 * (i + 1))) :=
  (reifyMergeValue_slice_replaces sampleEnv 1 (fieldOptionsOf ⟨"config", "validate", ""⟩)
    (.lval (.slice .int) ⟨1, []⟩) .int [.cfgInt 10, .cfgInt 20, .cfgInt 30]
    (fun i => .int (10 * (i + 1))) ⟨[.array [.int 1], .sliceRef (some 0) 1]⟩ rfl
    (fun i v hi h1 _ => by
      match i, hi with
      | 0, hi => simp at hi; subst hi; exact ⟨_, h1, rfl, storeAs_same _ _ _, rfl⟩
      | 1, hi => simp at hi; subst hi; exact ⟨_, h1, rfl, storeAs_same _ _ _, rfl⟩
      | 2, hi => simp at hi; subst hi; exact ⟨_, h1, rfl, storeAs_same _ _ _, rfl⟩
      | i + 3, hi => simp at hi)).1

/-- C4: `reifyInto` on a variable of a type `t` that is no pointer and no
interface, handed over directly or through a pointer to it, dispatches on
`t`: for a Config (or a type declared from it) holding `c` it returns the
error of `mergeConfig(c, src)` and leaves the Config that `mergeConfig`
yields in the variable; for a map it is the call of `reifyMap` on the
variable, for a struct the call of `reifyStruct`; for every other type it
fails with `ErrInvalidTopLevelType` and returns the heap it was given. An
interface variable that is nil, or holds a value of a type that is no pointer,
interface or Config, fails in the same way. -/
theorem reifyInto_dispatch (env : Env) (r : Rec) (opts : Options) (src : Config) (t : RType)
    (p : Place) (h : Heap) (hf : r.fuel ≠ 0) (hp : t.Kind ≠ .Ptr) (hi : t.Kind ≠ .Interface)
    (dst0 : RValue) (hd : dst0 = .lval t p ∨ dst0 = .rval (.ptr t) (.ptr (some p))) :
    (convertibleFromConfig t = true → ∀ c, h.read p = some (.config c) →
      ∃ h1, h.write p (.config (env.mergeConfig c src).1) = some h1 ∧
        reifyInto env r opts dst0 src h = .ret (env.mergeConfig c src).2 h1) ∧
    (t.Kind = .Map → reifyInto env r opts dst0 src h = r.reifyMap opts (.lval t p) src h) ∧
    (t.Kind = .Struct → convertibleFromConfig t = false →
      reifyInto env r opts dst0 src h = r.reifyStruct opts (.lval t p) src h) ∧
    (t.Kind ≠ .Map → t.Kind ≠ .Struct →
      reifyInto env r opts dst0 src h = .ret (some .raiseInvalidTopLevelType) h) ∧
    (∀ m d, r.fuel ≠ 1 → h.read p = some (.iface d) →
      (d = none ∨ ∃ t1 x, d = some (t1, x) ∧ t1.Kind ≠ .Ptr ∧ t1.Kind ≠ .Interface ∧
        convertibleFromConfig t1 = false) →
      reifyInto env r opts (.lval (.iface m) p) src h
        = .ret (some .raiseInvalidTopLevelType) h) ∧
    Error.raiseInvalidTopLevelType.reason = .ErrInvalidTopLevelType := by
  obtain ⟨n, hn⟩ := Nat.exists_eq_succ_of_ne_zero hf
  have hk : (RValue.lval t p).Kind ≠ .Ptr := hp
  have hk2 : (RValue.lval t p).Kind ≠ .Interface := hi
  have hchase : chaseValuePointers dst0 h = .ret (.lval t p) h := by
    rcases hd with rfl | rfl
    · exact chaseValuePointers_stop _ h hk
    · exact chaseValuePointers_ptr t p h hp
  have hcv : chaseValue (n + 1) (.lval t p) h = .ret (.lval t p) h :=
    chaseValue_stop n _ h hk hk2
  have hct := chaseTypePointers_self t hp
  refine ⟨?_, ?_, ?_, ?_, ?_, rfl⟩
  · intro hc c hr
    obtain ⟨h1, hw, _⟩ := Heap.write_read h p _ (.config (env.mergeConfig c src).1) hr
    refine ⟨h1, hw, ?_⟩
    simp [reifyInto, hchase, hn, tryTConfig, hcv, hc, mergeConfigAt, readPlace, hr,
      writePlace, hw]
  · intro hm
    have hcf := convertibleFromConfig_false t (by rw [hm]; decide)
    simp [reifyInto, hchase, hn, tryTConfig, hcv, hcf, RValue.Type, hct, hm]
  · intro hs hcf
    simp [reifyInto, hchase, hn, tryTConfig, hcv, hcf, RValue.Type, hct, hs]
  · intro hm hs
    have hcf := convertibleFromConfig_false t hs
    simp [reifyInto, hchase, hn, tryTConfig, hcv, hcf, RValue.Type, hct]
  · intro m d hf1 hr hdyn
    obtain ⟨n1, hn1⟩ : ∃ n1, n = n1 + 1 := by
      cases n with
      | zero => exact absurd hn hf1
      | succ n1 => exact ⟨n1, rfl⟩
    subst hn1
    have hc0 : chaseValuePointers (.lval (.iface m) p) h = .ret (.lval (.iface m) p) h :=
      chaseValuePointers_stop _ h (by simp [RValue.Kind, RType.Kind])
    rcases hdyn with rfl | ⟨t1, x, rfl, h1p, h1i, h1c⟩
    · simp [reifyInto, hc0, hn, tryTConfig, chaseValue, RValue.Kind, RType.Kind, RValue.IsNil,
        RValue.load, readPlace, hr, convertibleFromConfig, RValue.Type, chaseTypePointers]
    · have hk1 : (RValue.rval t1 x).Kind ≠ .Ptr := h1p
      have hk1i : (RValue.rval t1 x).Kind ≠ .Interface := h1i
      have hstop := chaseValue_stop n1 (.rval t1 x) h hk1 hk1i
      have hcv2 : chaseValue (n1 + 1 + 1) (.lval (.iface m) p) h = .ret (.rval t1 x) h := by
        rw [chaseValue]
        simp [RValue.Kind, RType.Kind, RValue.IsNil, RValue.load, readPlace, hr, RValue.Elem,
          hstop]
      have htc : tryTConfig (n1 + 1 + 1) (.lval (.iface m) p) h = .ret none h := by
        simp [tryTConfig, hcv2, h1c]
      simp [reifyInto, hc0, hn, htc, RValue.Type, chaseTypePointers, RType.Kind]
/-- C4, evaluated: a pointer to a Config variable holding an empty Config
receives the merge of the source and returns the merge's error (none); a
pointer to an `int` variable fails with `ErrInvalidTopLevelType` on the
unchanged heap; a map variable is handed to `reifyMap` and a struct variable
to `reifyStruct`. -/
theorem reifyInto_dispatch_witness :
    (∃ h1, Heap.write ⟨[.config (.mk 1 [])]⟩ ⟨0, []⟩
          (.config (sampleEnv.mergeConfig (.mk 1 []) (.mk 2 [("a", .cfgInt 1)])).1) = some h1 ∧
        reifyInto sampleEnv (reifier sampleEnv 2) ⟨"config", "validate", ""⟩
            (.rval (.ptr .config) (.ptr (some ⟨0, []⟩))) (.mk 2 [("a", .cfgInt 1)])
            ⟨[.config (.mk 1 [])]⟩
          = .ret (sampleEnv.mergeConfig (.mk 1 []) (.mk 2 [("a", .cfgInt 1)])).2 h1) ∧
    reifyInto sampleEnv (reifier sampleEnv 2) ⟨"config", "validate", ""⟩
        (.rval (.ptr .int) (.ptr (some ⟨0, []⟩))) (.mk 1 []) ⟨[.int 7]⟩
      = .ret (some .raiseInvalidTopLevelType) ⟨[.int 7]⟩ ∧
    reifyInto sampleEnv (reifier sampleEnv 2) ⟨"config", "validate", ""⟩
        (.lval (.map .string .int) ⟨0, []⟩) (.mk 1 [("a", .cfgInt 1)]) ⟨[.mapRef none]⟩
      = (reifier sampleEnv 2).reifyMap ⟨"config", "validate", ""⟩
          (.lval (.map .string .int) ⟨0, []⟩) (.mk 1 [("a", .cfgInt 1)]) ⟨[.mapRef none]⟩ ∧
    reifyInto sampleEnv (reifier sampleEnv 2) ⟨"config", "validate", ""⟩
        (.rval (.ptr sampleInner) (.ptr (some ⟨0, []⟩))) (.mk 1 [("a", .cfgInt 1)])
        ⟨[.struct [.int 0, .int 0]]⟩
      = (reifier sampleEnv 2).reifyStruct ⟨"config", "validate", ""⟩
          (.lval sampleInner ⟨0, []⟩) (.mk 1 [("a", .cfgInt 1)]) ⟨[.struct [.int 0, .int 0]]⟩ :=
  ⟨(reifyInto_dispatch sampleEnv (reifier sampleEnv 2) ⟨"config", "validate", ""⟩
      (.mk 2 [("a", .cfgInt 1)]) .config ⟨0, []⟩ ⟨[.config (.mk 1 [])]⟩ (by decide) (by decide)
      (by decide) _ (Or.inr rfl)).1 rfl (.mk 1 []) rfl,
   (reifyInto_dispatch sampleEnv (reifier sampleEnv 2) ⟨"config", "validate", ""⟩
      (.mk 1 []) .int ⟨0, []⟩ ⟨[.int 7]⟩ (by decide) (by decide)
      (by decide) _ (Or.inr rfl)).2.2.2.1 (by decide) (by decide),
   (reifyInto_dispatch sampleEnv (reifier sampleEnv 2) ⟨"config", "validate", ""⟩
      (.mk 1 [("a", .cfgInt 1)]) (.map .string .int) ⟨0, []⟩ ⟨[.mapRef none]⟩ (by decide)
      (by decide) (by decide) _ (Or.inl rfl)).2.1 rfl,
   (reifyInto_dispatch sampleEnv (reifier sampleEnv 2) ⟨"config", "validate", ""⟩
      (.mk 1 [("a", .cfgInt 1)]) sampleInner ⟨0, []⟩ ⟨[.struct [.int 0, .int 0]]⟩ (by decide)
      (by decide) (by decide) _ (Or.inr rfl)).2.2.1 rfl rfl⟩

/-- C8, amended: `reifyValue` on a `Nil` source, for every target other than
the empty interface, every heap and every list of field validators, converts
nothing and runs no validator. When the target's base type (the type behind
its pointers) is a Config or a map, the call fails with `ErrExpectedObject`
on the unchanged heap. For every other base type that is no slice (the
primitives, arrays and structs) it returns no error and the value
`pointerize(t, baseType, reflect.Zero(baseType))`; when the target is its own
base type and `pointerize` hands its argument back, this is the zero value of
the target. For a slice base type, `Nil` having length 0, it returns no error
and `pointerize` of a fresh empty slice. A destination that is a nil pointer
is reified afresh: `reifyMergeValue` is then `reifyValue` at the pointer
type. -/
theorem reifyValue_nil (env : Env) (r : Rec) (opts : FieldOptions) (t : RType) (h : Heap)
    (hi : t ≠ .iface 0) :
    ((convertibleFromConfig (chaseTypePointers t) = true ∨ (chaseTypePointers t).Kind = .Map) →
      reifyValue env r opts t .cfgNil h = .ret (.invalid, some .raiseExpectedObject) h) ∧
    (convertibleFromConfig (chaseTypePointers t) = false → (chaseTypePointers t).Kind ≠ .Map →
      (chaseTypePointers t).Kind ≠ .Slice →
      reifyValue env r opts t .cfgNil h
        = ((env.pointerize t (chaseTypePointers t) (reflectZero (chaseTypePointers t))) >>=
            fun v => (pure (v, none) : M (RValue × Option Error))) h) ∧
    (convertibleFromConfig t = false → t.Kind ≠ .Ptr → t.Kind ≠ .Map → t.Kind ≠ .Slice →
      env.pointerize t t (reflectZero t) h = .ret (reflectZero t) h →
      reifyValue env r opts t .cfgNil h = .ret (.rval t (zero t), none) h) ∧
    (∀ e n, chaseTypePointers t = .slice e → env.Len .cfgNil = 0 →
      reifyValue env (reifier env (n + 2)) opts t .cfgNil h
        = ((env.pointerize t (.slice e) (.rval (.slice e) (.sliceRef (some h.cells.length) 0))) >>=
            fun v => (pure (v, none) : M (RValue × Option Error)))
            ⟨h.cells ++ [.array []]⟩) ∧
    (∀ t0 p, t = .ptr t0 → h.read p = some (.ptr none) →
      reifyMergeValue env r opts (.lval t p) .cfgNil h = r.reifyValue opts t .cfgNil h) ∧
    Error.raiseExpectedObject.reason = .ErrExpectedObject := by
  refine ⟨?_, ?_, ?_, ?_, ?_, rfl⟩
  · intro hc
    by_cases hcc : convertibleFromConfig (chaseTypePointers t) = true
    · simp [reifyValue, hi, hcc, Value.toConfig]
    · have hm : (chaseTypePointers t).Kind = .Map := hc.resolve_left hcc
      have hcf : convertibleFromConfig (chaseTypePointers t) = false := by
        simpa using hcc
      cases hb : chaseTypePointers t <;> rw [hb] at hm <;> simp [RType.Kind] at hm
      simp [reifyValue, hi, hb, convertibleFromConfig, RType.Kind, Value.toConfig]
  · intro hc hm hsl
    by_cases hs : (chaseTypePointers t).Kind = .Struct
    · simp [reifyValue, hi, hc, hs, Value.toConfig, reifyPrimitive]
      cases env.pointerize t (chaseTypePointers t) (reflectZero (chaseTypePointers t)) h <;> rfl
    · have hm1 : ∀ k e, chaseTypePointers t ≠ .map k e := by
        intro k e he; rw [he] at hm; exact hm rfl
      have hsl1 : ∀ e, chaseTypePointers t ≠ .slice e := by
        intro e he; rw [he] at hsl; exact hsl rfl
      simp only [reifyValue, hi, hc, hs, if_false, decide_False, Bool.false_eq_true, beq_iff_eq]
      rfl
  · intro hc hp hm hsl hpz
    have hct := chaseTypePointers_self t hp
    have hpz2 : env.pointerize t t (.rval t (zero t)) h = .ret (.rval t (zero t)) h := hpz
    by_cases hs : t.Kind = .Struct
    · simp [reifyValue, hi, hct, hc, hs, Value.toConfig, reifyPrimitive, hpz2, reflectZero]
    · have hm1 : ∀ k e, t ≠ .map k e := by
        intro k e he; rw [he] at hm; exact hm rfl
      have hsl1 : ∀ e, t ≠ .slice e := by
        intro e he; rw [he] at hsl; exact hsl rfl
      simp only [reifyValue, hi, hct, hc, hs, if_false, decide_False, Bool.false_eq_true,
        beq_iff_eq]
      simp [reifyPrimitive, hpz2, reflectZero]
  · intro e n hb hl
    simp [reifyValue, hi, hb, convertibleFromConfig, RType.Kind, reifier, reifySlice, castArr, hl,
      CfgArray.Len, reflectMakeSlice, alloc, reifyDoArray, forEachM, RValue.isRO, getHeap]
    cases env.runValidators ⟨h.cells ++ [.array []]⟩
      (.rval (.slice e) (.sliceRef (some h.cells.length) 0)) opts.validators <;> rfl
  · intro t0 p ht hr
    subst ht
    simp [reifyMergeValue, chaseValueInterfaces, RValue.Kind, RType.Kind, RValue.Type,
      chaseValuePointers, ptrDepth, chaseValuePointersLoop, RValue.IsNil, RValue.load, readPlace,
      hr]

/-- C8, amended, evaluated with a `required` validator on the field: `Nil`
into `string` is the empty string; into `*int`, and into a nil `*int`
destination, it is no error and the sample `pointerize` of `0`, a pointer to a
fresh variable holding `0`; into a struct it is the zero struct; into a slice
of `int` it is a fresh empty slice; into a pointer to a Config it is
rejected. -/
theorem reifyValue_nil_witness :
    reifyValue sampleEnv (reifier sampleEnv 2)
        ⟨⟨"config", "validate", ""⟩, ⟨false⟩, [⟨"required", ""⟩]⟩ .string .cfgNil ⟨[]⟩
      = .ret (.rval .string (.str ""), none) ⟨[]⟩ ∧
    reifyValue sampleEnv (reifier sampleEnv 2)
        ⟨⟨"config", "validate", ""⟩, ⟨false⟩, [⟨"required", ""⟩]⟩ (.ptr .int) .cfgNil ⟨[]⟩
      = .ret (.rval (.ptr .int) (.ptr (some ⟨0, []⟩)), none) ⟨[.int 0]⟩ ∧
    reifyMergeValue sampleEnv (reifier sampleEnv 2)
        ⟨⟨"config", "validate", ""⟩, ⟨false⟩, [⟨"required", ""⟩]⟩ (.lval (.ptr .int) ⟨0, []⟩)
        .cfgNil ⟨[.ptr none]⟩
      = .ret (.rval (.ptr .int) (.ptr (some ⟨1, []⟩)), none) ⟨[.ptr none, .int 0]⟩ ∧
    reifyValue sampleEnv (reifier sampleEnv 2)
        ⟨⟨"config", "validate", ""⟩, ⟨false⟩, [⟨"required", ""⟩]⟩ sampleInner .cfgNil ⟨[]⟩
      = .ret (.rval sampleInner (.struct [.int 0, .int 0]), none) ⟨[]⟩ ∧
    reifyValue sampleEnv (reifier sampleEnv 2)
        ⟨⟨"config", "validate", ""⟩, ⟨false⟩, [⟨"required", ""⟩]⟩ (.slice .int) .cfgNil ⟨[]⟩
      = .ret (.rval (.slice .int) (.sliceRef (some 0) 0), none) ⟨[.array []]⟩ ∧
    reifyValue sampleEnv (reifier sampleEnv 2)
        ⟨⟨"config", "validate", ""⟩, ⟨false⟩, [⟨"required", ""⟩]⟩ (.ptr .config) .cfgNil ⟨[]⟩
      = .ret (.invalid, some .raiseExpectedObject) ⟨[]⟩ := by
  refine ⟨?_, ?_, ?_, ?_, ?_, ?_⟩
  · exact (reifyValue_nil sampleEnv (reifier sampleEnv 2) _ .string ⟨[]⟩ (by decide)).2.2.1
      rfl (by decide) (by decide) (by decide) rfl
  · exact ((reifyValue_nil sampleEnv (reifier sampleEnv 2) _ (.ptr .int) ⟨[]⟩
      (by decide)).2.1 rfl (by decide) (by decide)).trans rfl
  · exact ((reifyValue_nil sampleEnv (reifier sampleEnv 2) _ (.ptr .int) ⟨[.ptr none]⟩
      (by decide)).2.2.2.2.1 .int ⟨0, []⟩ rfl rfl).trans rfl
  · exact (reifyValue_nil sampleEnv (reifier sampleEnv 2) _ sampleInner ⟨[]⟩ (by decide)).2.2.1
      rfl (by decide) (by decide) (by decide) rfl
  · exact ((reifyValue_nil sampleEnv (reifier sampleEnv 2) _ (.slice .int) ⟨[]⟩
      (by decide)).2.2.2.1 .int 0 rfl rfl).trans rfl
  · exact (reifyValue_nil sampleEnv (reifier sampleEnv 2) _ (.ptr .config) ⟨[]⟩ (by decide)).1
      (Or.inl rfl)

/-- C10, amended: an `Array` value is cast to its own elements in order; a
value that is not an array is cast to the empty sequence when its `Len()` is
zero and to the sequence of that one value otherwise. A value `v` that is not
an array and whose `Len()` is not zero is promoted: reified into a slice of
`e` it makes `reifySlice` allocate a slice of length 1, reify `v` itself at
`e`, and, when that conversion yields `w` stored as `x` and leaves the new
array alone, return that slice with `x` as its only element and no error;
when the conversion fails, `reifyValue` fails with its error. A
`String("x")` reified into a slice of string gives `["x"]`. -/
theorem castArr_cases (env : Env) (v : Value) :
    ((castArr env v).arr =
      match v with
      | .cfgArray arr => arr
      | _ => if env.Len v = 0 then [] else [v]) ∧
    ((∀ arr, v ≠ .cfgArray arr) → env.Len v ≠ 0 →
      castArr env v = ⟨[v]⟩ ∧
      ∀ (n : Nat) (opts : FieldOptions) (e : RType) (h : Heap),
        (∀ w h2 x,
          reifyValue env (reifier env n) opts e v ⟨h.cells ++ [.array [zero e]]⟩
            = .ret (w, none) h2 →
          storeAs e w h2 = .ret x h2 →
          h2.read ⟨h.cells.length, []⟩ = some (.array [zero e]) →
          ∃ h3, h2.write ⟨h.cells.length, [0]⟩ x = some h3 ∧
            h3.read ⟨h.cells.length, []⟩ = some (.array [x]) ∧
            reifySlice env (reifier env (n + 2)) opts (.slice e) (castArr env v) h
              = .ret (.rval (.slice e) (.sliceRef (some h.cells.length) 1), none) h3 ∧
            reifyValue env (reifier env (n + 3)) opts (.slice e) v h
              = ((env.pointerize (.slice e) (.slice e)
                    (.rval (.slice e) (.sliceRef (some h.cells.length) 1))) >>=
                  fun u => (pure (u, none) : M (RValue × Option Error))) h3) ∧
        (∀ w err h2,
          reifyValue env (reifier env n) opts e v ⟨h.cells ++ [.array [zero e]]⟩
            = .ret (w, some err) h2 →
          reifyValue env (reifier env (n + 3)) opts (.slice e) v h
            = .ret (.invalid, some err) h2)) ∧
    reifyValue sampleEnv (reifier sampleEnv 3) (fieldOptionsOf ⟨"config", "validate", ""⟩)
        (.slice .string) (.cfgString "x") ⟨[]⟩
      = .ret (.rval (.slice .string) (.sliceRef (some 0) 1), none) ⟨[.array [.str "x"]]⟩ := by
  refine ⟨?_, ?_, rfl⟩
  · cases v <;> simp [castArr] <;> split <;> simp_all
  · intro hna hl
    have hcast : castArr env v = ⟨[v]⟩ := by
      cases v <;> simp [castArr, hl]
      exact absurd rfl (hna _)
    refine ⟨hcast, ?_⟩
    intro n opts e h
    have hrv : (reifier env (n + 1)).reifyValue = reifyValue env (reifier env n) := rfl
    have hsl : ∀ h3 res,
        reifySlice env (reifier env (n + 2)) opts (.slice e) ⟨[v]⟩ h = .ret res h3 →
        reifyValue env (reifier env (n + 3)) opts (.slice e) v h
          = (match res.2 with
             | some er => (pure (.invalid, some er) : M (RValue × Option Error))
             | none => (env.pointerize (.slice e) (.slice e) res.1) >>=
                  fun u => (pure (u, none) : M (RValue × Option Error))) h3 := by
      intro h3 res hres
      have hrs : (reifier env (n + 3)).reifySlice = reifySlice env (reifier env (n + 2)) := rfl
      simp only [reifyValue, chaseTypePointers, convertibleFromConfig, RType.Kind, hcast, hrs,
        bind_apply, hres]
      simp
      rw [hres]
    refine ⟨?_, ?_⟩
    · intro w h2 x hv hst hfr
      obtain ⟨h3, hw0, hr3⟩ := Heap.write_index h2 ⟨h.cells.length, []⟩ [zero e] 0 x hfr (by simp)
      have hw : h2.write ⟨h.cells.length, [0]⟩ x = some h3 := by simpa using hw0
      have hslice : reifySlice env (reifier env (n + 2)) opts (.slice e) ⟨[v]⟩ h
          = .ret (.rval (.slice e) (.sliceRef (some h.cells.length) 1), none) h3 := by
        have hda : (reifier env (n + 2)).reifyDoArray = reifyDoArray env (reifier env (n + 1)) :=
          rfl
        simp only [reifySlice, reflectMakeSlice, CfgArray.Len, List.length, alloc, bind_apply,
          pure_apply, hda, reifyDoArray, List.enum, List.enumFrom, forEachM, hrv,
          List.replicate, Nat.zero_add]
        simp [hv, RValue.Index, RValue.Type, RValue.load, RValue.derived, RValue.isRO, RValue.Set,
          hst, writePlace, hw, getHeap]
        cases hvv : env.runValidators h3 (.rval (.slice e) (.sliceRef (some h.cells.length) 1))
          opts.validators <;> simp [hvv]
      refine ⟨h3, hw, ?_, ?_, ?_⟩
      · simpa using hr3
      · rw [hcast]; exact hslice
      · exact hsl _ _ hslice
    · intro w err h2 hv
      have hslice : reifySlice env (reifier env (n + 2)) opts (.slice e) ⟨[v]⟩ h
          = .ret (.invalid, some err) h2 := by
        have hda : (reifier env (n + 2)).reifyDoArray = reifyDoArray env (reifier env (n + 1)) :=
          rfl
        simp only [reifySlice, reflectMakeSlice, CfgArray.Len, List.length, alloc, bind_apply,
          pure_apply, hda, reifyDoArray, List.enum, List.enumFrom, forEachM, hrv,
          List.replicate, Nat.zero_add]
        simp [hv]
      exact hsl _ _ hslice

/-- C10, amended, evaluated: an array is cast to its elements, `String("x")`
to the sequence of itself; reified into a slice of string, `String("x")` is
converted to `"x"`, stored in element 0 of a fresh array of length 1, and the
slice of that array is returned with no error. -/
theorem castArr_cases_witness :
    (castArr sampleEnv (.cfgArray [.cfgInt 1, .cfgInt 2])).arr = [.cfgInt 1, .cfgInt 2] ∧
    (castArr sampleEnv (.cfgString "x")).arr = [.cfgString "x"] ∧
    ∃ h3, Heap.write ⟨[.array [.str ""]]⟩ ⟨0, [0]⟩ (.str "x") = some h3 ∧
      h3.read ⟨0, []⟩ = some (.array [.str "x"]) ∧
      reifySlice sampleEnv (reifier sampleEnv 2) (fieldOptionsOf ⟨"config", "validate", ""⟩)
          (.slice .string) (castArr sampleEnv (.cfgString "x")) ⟨[]⟩
        = .ret (.rval (.slice .string) (.sliceRef (some 0) 1), none) h3 ∧
      reifyValue sampleEnv (reifier sampleEnv 3) (fieldOptionsOf ⟨"config", "validate", ""⟩)
          (.slice .string) (.cfgString "x") ⟨[]⟩
        = ((sampleEnv.pointerize (.slice .string) (.slice .string)
              (.rval (.slice .string) (.sliceRef (some 0) 1))) >>=
            fun u => (pure (u, none) : M (RValue × Option Error))) h3 :=
  ⟨(castArr_cases sampleEnv (.cfgArray [.cfgInt 1, .cfgInt 2])).1,
   (castArr_cases sampleEnv (.cfgString "x")).1,
   (((castArr_cases sampleEnv (.cfgString "x")).2.1 (by intro arr; simp) (by decide)).2 0
      (fieldOptionsOf ⟨"config", "validate", ""⟩) .string ⟨[]⟩).1
      (.rval .string (.str "x")) ⟨[.array [.str ""]]⟩ (.str "x") rfl rfl rfl⟩

/-- C16, counterexample: in `struct { A int8; B int }` with `B` marked squash,
the Config `a: 1000` makes `reifyStruct` fail at field `A` with `ErrOverflow`,
not with `ErrInlineNeedsObject`; in `struct { M map[string]int; B int }` with
`B` marked squash, the Config `m: {x: 1}` makes it fail with
`ErrInlineNeedsObject` after the map the original struct refers to has
received the entry `x`. -/
theorem reifyStruct_squash_scalar_other_outcome :
    reifyStruct sampleEnv (reifier sampleEnv 3) ⟨"config", "validate", ""⟩
        (.lval sampleSquashScalar ⟨0, []⟩) (.mk 0 [("a", .cfgInt 1000)])
        ⟨[.struct [.int 0, .int 0]]⟩
      = .ret (some (.raiseConversion (.sentinel .ErrOverflow) "int"))
          ⟨[.struct [.int 0, .int 0], .struct [.int 0, .int 0]]⟩ ∧
    (Error.raiseConversion (.sentinel .ErrOverflow) "int").reason ≠ .ErrInlineNeedsObject ∧
    reifyStruct sampleEnv (reifier sampleEnv 5) ⟨"config", "validate", ""⟩
        (.lval sampleSquashAfterMap ⟨0, []⟩) (.mk 0 [("m", .cfgSub (.mk 1 [("x", .cfgInt 1)]))])
        ⟨[.struct [.mapRef (some 1), .int 0], .mapObj []]⟩
      = .ret (some (.raiseInlineNeedsObject "B"))
          ⟨[.struct [.mapRef (some 1), .int 0], .mapObj [("x", .int 1)],
            .struct [.mapRef (some 1), .int 0]]⟩ :=
  ⟨rfl, by decide, rfl⟩

/-- C16, amended: take a struct variable with a field `i` marked squash.
The loop of `reifyStruct` runs on a copy of the struct. When the fields before
`i` are processed without error and the squash field, with pointers and
interfaces followed, is of kind neither struct nor map (a scalar, a slice, a
nil pointer, a nil interface), `reifyStruct` fails with
`ErrInlineNeedsObject`, whatever the field's type is and wherever it stands;
for a field whose own type is no pointer, interface, struct or map that
needs no look at the heap. When a field before `i` fails, `reifyStruct` fails
with that field's error instead, and with `raiseCritical` when the validator
tag of the squash field does not parse: the outcome depends on the Config.
For a field type that is a chain of pointers to a type that is no struct, map
or interface, every call of `reifyStruct` that returns, returns an error and
never reaches the assignment to the struct variable: the heap it returns is
the heap the loop over the fields left. What the fields before `i` wrote
through maps and pointers stays written; with fields of scalar type only,
every variable that existed before the call is unchanged. -/
theorem reifyStruct_squash_needs_object (env : Env) (r : Rec) (opts : Options)
    (cfg : Config) (name : String) (fs : FieldList) (p : Place) (i : Nat) (stName : String)
    (stTag : List (String × String)) (t : RType) (h : Heap) (g : GVal)
    (hg : fs.get? i = some (stName, stTag, t))
    (hsq : (env.parseTags (tagGet stTag opts.tag)).2.squash = true)
    (hr : h.read p = some g) :
    (∀ vals hi v,
      env.parseValidatorTags (tagGet stTag opts.validatorTag) = .ok vals →
      forEachM (reifyStructField env r opts cfg (.lval (.struct name fs) ⟨h.cells.length, []⟩))
        (List.range i) ⟨h.cells ++ [g]⟩ = .ret none hi →
      chaseValue r.fuel (if isExported stName then .lval t ⟨h.cells.length, [i]⟩
        else .rolval t ⟨h.cells.length, [i]⟩) hi = .ret v hi →
      v.Kind ≠ .Struct → v.Kind ≠ .Map →
      reifyStruct env r opts (.lval (.struct name fs) p) cfg h
        = .ret (some (.raiseInlineNeedsObject stName)) hi) ∧
    (t.Kind ≠ .Ptr → t.Kind ≠ .Interface → t.Kind ≠ .Struct → t.Kind ≠ .Map → r.fuel ≠ 0 →
      ∀ vals hi,
      env.parseValidatorTags (tagGet stTag opts.validatorTag) = .ok vals →
      forEachM (reifyStructField env r opts cfg (.lval (.struct name fs) ⟨h.cells.length, []⟩))
        (List.range i) ⟨h.cells ++ [g]⟩ = .ret none hi →
      reifyStruct env r opts (.lval (.struct name fs) p) cfg h
        = .ret (some (.raiseInlineNeedsObject stName)) hi) ∧
    (∀ e hi,
      forEachM (reifyStructField env r opts cfg (.lval (.struct name fs) ⟨h.cells.length, []⟩))
        (List.range i) ⟨h.cells ++ [g]⟩ = .ret (some e) hi →
      reifyStruct env r opts (.lval (.struct name fs) p) cfg h = .ret (some e) hi) ∧
    (∀ err hi,
      env.parseValidatorTags (tagGet stTag opts.validatorTag) = .error err →
      forEachM (reifyStructField env r opts cfg (.lval (.struct name fs) ⟨h.cells.length, []⟩))
        (List.range i) ⟨h.cells ++ [g]⟩ = .ret none hi →
      reifyStruct env r opts (.lval (.struct name fs) p) cfg h
        = .ret (some (.raiseCritical err)) hi) ∧
    ((chaseTypePointers t).Kind ≠ .Struct → (chaseTypePointers t).Kind ≠ .Map →
      (chaseTypePointers t).Kind ≠ .Interface →
      ∀ res h1, reifyStruct env r opts (.lval (.struct name fs) p) cfg h = .ret res h1 →
        ∃ e, res = some e ∧
          forEachM (reifyStructField env r opts cfg
            (.lval (.struct name fs) ⟨h.cells.length, []⟩))
            (List.range fs.length) ⟨h.cells ++ [g]⟩ = .ret (some e) h1) ∧
    (∀ fuel, r = reifier env fuel → fs.allScalar = true →
      (∀ t v, env.pointerize t t v = (Pure.pure v : M RValue)) →
      (∀ v, Keeps h.cells.length (env.reflect v) (fun _ => True)) →
      (∀ v t, Keeps h.cells.length (env.convert v t) (fun _ => True)) →
      ∀ res h1, reifyStruct env r opts (.lval (.struct name fs) p) cfg h = .ret res h1 →
        (∃ e, res = some e) ∧ ∀ b, b < h.cells.length → h1.cells[b]? = h.cells[b]?) ∧
    (Error.raiseInlineNeedsObject stName).reason = .ErrInlineNeedsObject := by
  have hlt := FieldList.get?_lt fs i _ hg
  obtain ⟨rest, hsplit⟩ := range_split fs.length i hlt
  have hrun := reifyStruct_run env r opts cfg name fs p h g hr
  have hbody := reifyStructField_squash env r opts cfg name fs h.cells.length i stName stTag t
    hg hsq
  have hsome : ∀ e hi,
      forEachM (reifyStructField env r opts cfg (.lval (.struct name fs) ⟨h.cells.length, []⟩))
        (List.range fs.length) ⟨h.cells ++ [g]⟩ = .ret (some e) hi →
      reifyStruct env r opts (.lval (.struct name fs) p) cfg h = .ret (some e) hi := by
    intro e hi hl
    rw [hrun]
    simp only [bind_apply, hl, pure_apply]
  have hat : ∀ e hi,
      forEachM (reifyStructField env r opts cfg (.lval (.struct name fs) ⟨h.cells.length, []⟩))
        (List.range i) ⟨h.cells ++ [g]⟩ = .ret none hi →
      reifyStructField env r opts cfg (.lval (.struct name fs) ⟨h.cells.length, []⟩) i hi
        = .ret (some e) hi →
      reifyStruct env r opts (.lval (.struct name fs) p) cfg h = .ret (some e) hi := by
    intro e hi hl hb
    apply hsome
    rw [hsplit, forEachM_append_none _ _ _ _ _ hl]
    simp only [forEachM, bind_apply, hb, pure_apply]
  have hfail : (chaseTypePointers t).Kind ≠ .Struct → (chaseTypePointers t).Kind ≠ .Map →
      (chaseTypePointers t).Kind ≠ .Interface →
      ∀ res h1, reifyStruct env r opts (.lval (.struct name fs) p) cfg h = .ret res h1 →
        ∃ e, res = some e ∧
          forEachM (reifyStructField env r opts cfg
            (.lval (.struct name fs) ⟨h.cells.length, []⟩))
            (List.range fs.length) ⟨h.cells ++ [g]⟩ = .ret (some e) h1 := by
    intro hs hm hi res h1 e
    rw [hrun] at e
    obtain ⟨rr, h4, hloop, e⟩ := bind_ret_inv _ _ _ _ _ e
    cases rr with
    | some er =>
        simp only [pure_apply, Outcome.ret.injEq] at e
        obtain ⟨rfl, rfl⟩ := e
        exact ⟨er, rfl, hloop⟩
    | none =>
        exfalso
        obtain ⟨h5, h6, hb⟩ := forEachM_ret_none _ _ _ _ hloop i (List.mem_range.mpr hlt)
        exact reifyStructField_squash_fails env r opts cfg name fs h.cells.length i stName
          stTag t hg hsq hs hm hi h5 h6 hb
  refine ⟨?_, ?_, ?_, ?_, hfail, ?_, rfl⟩
  · intro vals hi v hv hl hc hs hm
    exact hat _ hi hl (reifyStructField_squash_other env r opts cfg name fs h.cells.length i
      stName stTag t hg hsq hi vals v hv hc hs hm)
  · intro hp hif hs hm hfu vals hi hv hl
    obtain ⟨k, hk⟩ := Nat.exists_eq_succ_of_ne_zero hfu
    have hc : chaseValue r.fuel (if isExported stName then .lval t ⟨h.cells.length, [i]⟩
        else .rolval t ⟨h.cells.length, [i]⟩) hi
        = .ret (if isExported stName then .lval t ⟨h.cells.length, [i]⟩
            else .rolval t ⟨h.cells.length, [i]⟩) hi := by
      rw [hk]
      apply chaseValue_stop <;> split <;> assumption
    refine hat _ hi hl (reifyStructField_squash_other env r opts cfg name fs h.cells.length i
      stName stTag t hg hsq hi vals _ hv hc ?_ ?_) <;> split <;> assumption
  · intro e hi hl
    apply hsome
    rw [hsplit]
    exact forEachM_append_some _ _ _ _ _ _ hl
  · intro err hi hv hl
    refine hat _ hi hl ?_
    rw [hbody, hv]
  · intro fuel hfuel hfs hpz hrf hcv res h1 e
    subst hfuel
    have hsc := (allScalar_get fs hfs i stName stTag t hg)
    have hk := isScalar_kind t hsc
    have hct := chaseTypePointers_self t hk.1
    obtain ⟨er, rfl, _⟩ := hfail (by rw [hct]; exact hk.2.2.1) (by rw [hct]; exact hk.2.2.2.1)
      (by rw [hct]; exact hk.2.1) res h1 e
    exact ⟨⟨er, rfl⟩, keepsOnError_reifyStruct env h.cells.length fuel opts name fs p cfg hfs hpz
      hrf hcv h er h1 (Nat.le_refl _) e⟩

/-- C16, amended, evaluated. In `struct { B int; A int8 }` with `B` marked
squash and the Config `a: 1000` the call fails with `ErrInlineNeedsObject`
and the struct variable is unchanged. In `struct { A int8; B int }` with `B`
marked squash the Config `a: 5` makes it fail with `ErrInlineNeedsObject`
after `A` was converted on the copy, and the Config `a: 1000` makes it fail
with the overflow of `A`. A squash field that is a nil pointer to an `int`,
and one that is a nil interface, fail with `ErrInlineNeedsObject` too. -/
theorem reifyStruct_squash_needs_object_witness :
    reifyStruct sampleEnv (reifier sampleEnv 1) ⟨"config", "validate", ""⟩
        (.lval sampleSquashFirst ⟨0, []⟩) (.mk 0 [("a", .cfgInt 1000)])
        ⟨[.struct [.int 0, .int 0]]⟩
      = .ret (some (.raiseInlineNeedsObject "B"))
          ⟨[.struct [.int 0, .int 0], .struct [.int 0, .int 0]]⟩ ∧
    reifyStruct sampleEnv (reifier sampleEnv 3) ⟨"config", "validate", ""⟩
        (.lval sampleSquashScalar ⟨0, []⟩) (.mk 0 [("a", .cfgInt 5)])
        ⟨[.struct [.int 0, .int 0]]⟩
      = .ret (some (.raiseInlineNeedsObject "B"))
          ⟨[.struct [.int 0, .int 0], .struct [.int 5, .int 0]]⟩ ∧
    reifyStruct sampleEnv (reifier sampleEnv 3) ⟨"config", "validate", ""⟩
        (.lval sampleSquashScalar ⟨0, []⟩) (.mk 0 [("a", .cfgInt 1000)])
        ⟨[.struct [.int 0, .int 0]]⟩
      = .ret (some (.raiseConversion (.sentinel .ErrOverflow) "int"))
          ⟨[.struct [.int 0, .int 0], .struct [.int 0, .int 0]]⟩ ∧
    reifyStruct sampleEnv (reifier sampleEnv 3) ⟨"config", "validate", ""⟩
        (.lval (.struct "S" (.cons "P" [("config", ",squash")] (.ptr .int) .nil)) ⟨0, []⟩)
        (.mk 0 [("p", .cfgInt 1)]) ⟨[.struct [.ptr none]]⟩
      = .ret (some (.raiseInlineNeedsObject "P"))
          ⟨[.struct [.ptr none], .struct [.ptr none]]⟩ ∧
    reifyStruct sampleEnv (reifier sampleEnv 3) ⟨"config", "validate", ""⟩
        (.lval (.struct "S" (.cons "I" [("config", ",squash")] (.iface 0) .nil)) ⟨0, []⟩)
        (.mk 0 [("i", .cfgInt 1)]) ⟨[.struct [.iface none]]⟩
      = .ret (some (.raiseInlineNeedsObject "I"))
          ⟨[.struct [.iface none], .struct [.iface none]]⟩ :=
  ⟨(reifyStruct_squash_needs_object sampleEnv (reifier sampleEnv 1) ⟨"config", "validate", ""⟩
      (.mk 0 [("a", .cfgInt 1000)]) "S"
      (.cons "B" [("config", ",squash")] .int (.cons "A" [] .int8 .nil)) ⟨0, []⟩ 0 "B"
      [("config", ",squash")] .int ⟨[.struct [.int 0, .int 0]]⟩ (.struct [.int 0, .int 0])
      rfl rfl rfl).2.1 (by decide) (by decide) (by decide) (by decide) (by decide) [] _ rfl rfl,
   (reifyStruct_squash_needs_object sampleEnv (reifier sampleEnv 3) ⟨"config", "validate", ""⟩
      (.mk 0 [("a", .cfgInt 5)]) "S"
      (.cons "A" [] .int8 (.cons "B" [("config", ",squash")] .int .nil)) ⟨0, []⟩ 1 "B"
      [("config", ",squash")] .int ⟨[.struct [.int 0, .int 0]]⟩ (.struct [.int 0, .int 0])
      rfl rfl rfl).2.1 (by decide) (by decide) (by decide) (by decide) (by decide) [] _ rfl rfl,
   (reifyStruct_squash_needs_object sampleEnv (reifier sampleEnv 3) ⟨"config", "validate", ""⟩
      (.mk 0 [("a", .cfgInt 1000)]) "S"
      (.cons "A" [] .int8 (.cons "B" [("config", ",squash")] .int .nil)) ⟨0, []⟩ 1 "B"
      [("config", ",squash")] .int ⟨[.struct [.int 0, .int 0]]⟩ (.struct [.int 0, .int 0])
      rfl rfl rfl).2.2.1 _ _ rfl,
   (reifyStruct_squash_needs_object sampleEnv (reifier sampleEnv 3) ⟨"config", "validate", ""⟩
      (.mk 0 [("p", .cfgInt 1)]) "S"
      (.cons "P" [("config", ",squash")] (.ptr .int) .nil) ⟨0, []⟩ 0 "P"
      [("config", ",squash")] (.ptr .int) ⟨[.struct [.ptr none]]⟩ (.struct [.ptr none])
      rfl rfl rfl).1 [] _ (.lval (.ptr .int) ⟨1, [0]⟩) rfl rfl rfl (by decide) (by decide),
   (reifyStruct_squash_needs_object sampleEnv (reifier sampleEnv 3) ⟨"config", "validate", ""⟩
      (.mk 0 [("i", .cfgInt 1)]) "S"
      (.cons "I" [("config", ",squash")] (.iface 0) .nil) ⟨0, []⟩ 0 "I"
      [("config", ",squash")] (.iface 0) ⟨[.struct [.iface none]]⟩ (.struct [.iface none])
      rfl rfl rfl).1 [] _ (.lval (.iface 0) ⟨1, [0]⟩) rfl rfl rfl (by decide) (by decide)⟩

/-- C20 as stated fails: a map of type `map[string]interface{}` that holds
itself under the key `self`, merged with the Config `self: {x: 1}`, receives
the key `x`, which is neither one of its previous keys nor a key of the
source: the call for `self` merges the nested Config into the old entry, which
is the destination map. -/
theorem reifyMap_self_entry_adds_key :
    reifyMap sampleEnv (reifier sampleEnv 4) ⟨"config", "validate", ""⟩
        (.rval (.map .string (.iface 0)) (.mapRef (some 0)))
        (.mk 1 [("self", .cfgSub (.mk 2 [("x", .cfgInt 1)]))])
        ⟨[.mapObj [("self", .iface (some (.map .string (.iface 0), .mapRef (some 0))))]]⟩
      = .ret none
          ⟨[.mapObj [("self", .iface (some (.map .string (.iface 0), .mapRef (some 0)))),
                     ("x", .iface (some (.int64, .int 1)))]]⟩ ∧
    (entryOf [("self", GVal.iface (some (.map .string (.iface 0), .mapRef (some 0))))]
      "x").isSome = false ∧
    "x" ∉ (Config.mk 1 [("self", .cfgSub (.mk 2 [("x", .cfgInt 1)]))]).fields.map
      (fun kv => kv.1) := by
  refine ⟨rfl, rfl, ?_⟩
  simp [Config.fields]
/-- C20, amended: take a map with string keys, a Config that is not empty
and whose keys are distinct, and a call of `reifyMap` that returns no error,
where the calls made for the source entries leave the map object (and the map
variable) as they are; a map that is reachable from one of its own entries is
what this excludes. Then the map object holds a key exactly when it held it
before or the source has it, every entry whose key the source does not have
is as before, and the entry of every source key is the value stored from what
the call for it returned: `reifyValue` into the element type for a key the
map did not hold, `reifyMergeValue` against the old entry for a key it held
(`MergedEntries`). The first part is about a map value that is not nil, the
second about a map variable that is not nil, the third about a nil map
variable, which receives a fresh map object first. -/
theorem reifyMap_merge_frame (env : Env) (r : Rec) (opts : Options) (k e : RType)
    (src : Config) (h h1 : Heap)
    (hk : k.Kind = .String) (hne : src.fields ≠ [])
    (hnd : (src.fields.map (fun kv => kv.1)).Nodup) :
    (∀ (a : Nat) (es : List (String × GVal)),
      h.cells[a]? = some (.mapObj es) →
      (∀ kv, kv ∈ src.fields → ∀ ha w hb, (∃ c, ha.cells[a]? = some (.mapObj c)) →
        entryCall r opts e es kv ha = .ret (w, none) hb → hb.cells[a]? = ha.cells[a]?) →
      reifyMap env r opts (.rval (.map k e) (.mapRef (some a))) src h = .ret none h1 →
      ∃ fin, h1.cells[a]? = some (.mapObj fin) ∧ MergedEntries r opts e a es fin src) ∧
    (∀ (p : Place) (a : Nat) (es : List (String × GVal)),
      h.read p = some (.mapRef (some a)) → p.cell ≠ a →
      h.cells[a]? = some (.mapObj es) →
      (∀ kv, kv ∈ src.fields → ∀ ha w hb, ha.read p = some (.mapRef (some a)) →
        (∃ c, ha.cells[a]? = some (.mapObj c)) →
        entryCall r opts e es kv ha = .ret (w, none) hb →
        hb.cells[a]? = ha.cells[a]? ∧ hb.cells[p.cell]? = ha.cells[p.cell]?) →
      reifyMap env r opts (.lval (.map k e) p) src h = .ret none h1 →
      ∃ fin, h1.read p = some (.mapRef (some a)) ∧ h1.cells[a]? = some (.mapObj fin) ∧
        MergedEntries r opts e a es fin src) ∧
    (∀ (p : Place),
      h.read p = some (.mapRef none) →
      (∀ kv, kv ∈ src.fields → ∀ ha w hb, ha.read p = some (.mapRef (some h.cells.length)) →
        (∃ c, ha.cells[h.cells.length]? = some (.mapObj c)) →
        entryCall r opts e [] kv ha = .ret (w, none) hb →
        hb.cells[h.cells.length]? = ha.cells[h.cells.length]? ∧
          hb.cells[p.cell]? = ha.cells[p.cell]?) →
      reifyMap env r opts (.lval (.map k e) p) src h = .ret none h1 →
      ∃ fin, h1.read p = some (.mapRef (some h.cells.length)) ∧
        h1.cells[h.cells.length]? = some (.mapObj fin) ∧
        MergedEntries r opts e h.cells.length [] fin src) := by
  have hsetl : ∀ (p : Place) (a : Nat), p.cell ≠ a → ∀ (h2 : Heap) (c : GVal),
      (RValue.lval (.map k e) p).load h2 = .ret (.mapRef (some a)) h2 →
      (RValue.lval (.map k e) p).load ⟨h2.cells.set a c⟩
        = .ret (.mapRef (some a)) ⟨h2.cells.set a c⟩ := by
    intro p a hpa h2 c hl
    refine load_lval_frame _ p _ h2 _ hl ?_
    simp [List.getElem?_set, Ne.symm hpa]
  refine ⟨?_, ?_, ?_⟩
  · intro a es hc hfr hrun
    rw [reifyMap_nonempty env r opts (.rval (.map k e) (.mapRef (some a))) k e src h rfl hk hne] at hrun
    have hloop : forEachM (reifyMapEntry r opts (.rval (.map k e) (.mapRef (some a))) e)
        src.fields h = .ret none h1 := by
      simpa [RValue.IsNil, RValue.load] using hrun
    obtain ⟨fin, hcf, _, hkeep, hnew⟩ :=
      reifyMap_loop_inv r opts (.rval (.map k e) (.mapRef (some a))) k e a es rfl
        (fun _ => rfl) (fun _ _ _ => rfl) src.fields es h h1 hnd rfl hc (fun _ _ => rfl)
        (fun kv hm ha w hb _ hca hcall => ⟨hfr kv hm ha w hb hca hcall, rfl⟩) hloop
    exact ⟨fin, hcf, mergedEntries_of r opts e a es fin src hkeep hnew⟩
  · intro p a es hr hpa hc hfr hrun
    rw [reifyMap_nonempty env r opts (.lval (.map k e) p) k e src h rfl hk hne] at hrun
    have hloop : forEachM (reifyMapEntry r opts (.lval (.map k e) p) e)
        src.fields h = .ret none h1 := by
      simpa [RValue.IsNil, RValue.load, readPlace, hr] using hrun
    obtain ⟨fin, hcf, hlf, hkeep, hnew⟩ :=
      reifyMap_loop_inv r opts (.lval (.map k e) p) k e a es rfl
        (fun _ => rfl) (hsetl p a hpa) src.fields es h h1 hnd
        ((load_lval_iff _ _ _ _).mpr hr) hc (fun _ _ => rfl)
        (fun kv hm ha w hb hla hca hcall => by
          obtain ⟨h1c, h2c⟩ := hfr kv hm ha w hb ((load_lval_iff _ _ _ _).mp hla) hca hcall
          exact ⟨h1c, load_lval_frame _ p _ ha hb hla h2c⟩) hloop
    exact ⟨fin, (load_lval_iff _ _ _ _).mp hlf, hcf,
      mergedEntries_of r opts e a es fin src hkeep hnew⟩
  · intro p hr hfr hrun
    rw [reifyMap_nonempty env r opts (.lval (.map k e) p) k e src h rfl hk hne] at hrun
    have hlt := Heap.read_cell_lt h p _ hr
    have hr1 : (⟨h.cells ++ [.mapObj []]⟩ : Heap).read p = some (.mapRef none) := by
      simp only [Heap.read, List.getElem?_append_left hlt]
      exact hr
    obtain ⟨h2, hw, hr2, hoth, _⟩ :=
      Heap.write_read ⟨h.cells ++ [.mapObj []]⟩ p _ (.mapRef (some h.cells.length)) hr1
    have hc2 : h2.cells[h.cells.length]? = some (.mapObj []) := by
      rw [hoth _ (Nat.ne_of_gt hlt)]
      simp
    have hloop : forEachM (reifyMapEntry r opts (.lval (.map k e) p) e)
        src.fields h2 = .ret none h1 := by
      simpa [RValue.IsNil, RValue.load, readPlace, hr, reflectMakeMap, alloc, RValue.Set,
        storeAs, RValue.Type, writePlace, hw] using hrun
    obtain ⟨fin, hcf, hlf, hkeep, hnew⟩ :=
      reifyMap_loop_inv r opts (.lval (.map k e) p) k e h.cells.length [] rfl
        (fun _ => rfl) (hsetl p h.cells.length (Nat.ne_of_lt hlt)) src.fields [] h2 h1 hnd
        ((load_lval_iff _ _ _ _).mpr hr2) hc2 (fun _ _ => rfl)
        (fun kv hm ha w hb hla hca hcall => by
          obtain ⟨h1c, h2c⟩ := hfr kv hm ha w hb ((load_lval_iff _ _ _ _).mp hla) hca hcall
          exact ⟨h1c, load_lval_frame _ p _ ha hb hla h2c⟩) hloop
    exact ⟨fin, (load_lval_iff _ _ _ _).mp hlf, hcf,
      mergedEntries_of r opts e h.cells.length [] fin src hkeep hnew⟩

/-- C20, amended, evaluated. The map `{a: 1, c: 3}` of type `map[string]int`
merged with `a: 10, b: 20` holds `a = 10`, `b = 20`, `c = 3`. The map
`{c: 3}` of type `map[string]interface{}` merged with `o: {x: 1}` receives
under `o` a pointer to a fresh Config, a value that depends on the heap the
call ran on. A nil variable of type `map[string]int` merged with `a: 10`
receives a fresh map object holding `a = 10`. In each case the entries
afterwards are `MergedEntries` of the entries before. -/
theorem reifyMap_merge_frame_witness :
    (reifyMap sampleEnv (reifier sampleEnv 2) ⟨"config", "validate", ""⟩
        (.rval (.map .string .int) (.mapRef (some 0)))
        (.mk 0 [("a", .cfgInt 10), ("b", .cfgInt 20)])
        ⟨[.mapObj [("a", .int 1), ("c", .int 3)]]⟩
      = .ret none ⟨[.mapObj [("a", .int 10), ("c", .int 3), ("b", .int 20)]]⟩ ∧
     ∃ fin, (⟨[.mapObj [("a", .int 10), ("c", .int 3), ("b", .int 20)]]⟩ : Heap).cells[0]?
        = some (.mapObj fin) ∧
      MergedEntries (reifier sampleEnv 2) ⟨"config", "validate", ""⟩ .int 0
        [("a", .int 1), ("c", .int 3)] fin (.mk 0 [("a", .cfgInt 10), ("b", .cfgInt 20)])) ∧
    (reifyMap sampleEnv (reifier sampleEnv 2) ⟨"config", "validate", ""⟩
        (.rval (.map .string (.iface 0)) (.mapRef (some 0)))
        (.mk 1 [("o", .cfgSub (.mk 2 [("x", .cfgInt 1)]))])
        ⟨[.mapObj [("c", .iface (some (.int64, .int 3)))]]⟩
      = .ret none ⟨[.mapObj [("c", .iface (some (.int64, .int 3))),
            ("o", .iface (some (.ptr .config, .ptr (some ⟨1, []⟩))))],
          .config (.mk 2 [("x", .cfgInt 1)])]⟩ ∧
     ∃ fin, (⟨[.mapObj [("c", .iface (some (.int64, .int 3))),
            ("o", .iface (some (.ptr .config, .ptr (some ⟨1, []⟩))))],
          .config (.mk 2 [("x", .cfgInt 1)])]⟩ : Heap).cells[0]? = some (.mapObj fin) ∧
      MergedEntries (reifier sampleEnv 2) ⟨"config", "validate", ""⟩ (.iface 0) 0
        [("c", .iface (some (.int64, .int 3)))] fin
        (.mk 1 [("o", .cfgSub (.mk 2 [("x", .cfgInt 1)]))])) ∧
    (reifyMap sampleEnv (reifier sampleEnv 2) ⟨"config", "validate", ""⟩
        (.lval (.map .string .int) ⟨0, []⟩) (.mk 0 [("a", .cfgInt 10)]) ⟨[.mapRef none]⟩
      = .ret none ⟨[.mapRef (some 1), .mapObj [("a", .int 10)]]⟩ ∧
     ∃ fin, (⟨[.mapRef (some 1), .mapObj [("a", .int 10)]]⟩ : Heap).read ⟨0, []⟩
        = some (.mapRef (some 1)) ∧
      (⟨[.mapRef (some 1), .mapObj [("a", .int 10)]]⟩ : Heap).cells[1]? = some (.mapObj fin) ∧
      MergedEntries (reifier sampleEnv 2) ⟨"config", "validate", ""⟩ .int 1 [] fin
        (.mk 0 [("a", .cfgInt 10)])) := by
  refine ⟨⟨rfl, ?_⟩, ⟨rfl, ?_⟩, ⟨rfl, ?_⟩⟩
  · refine (reifyMap_merge_frame sampleEnv (reifier sampleEnv 2) ⟨"config", "validate", ""⟩
      .string .int (.mk 0 [("a", .cfgInt 10), ("b", .cfgInt 20)])
      ⟨[.mapObj [("a", .int 1), ("c", .int 3)]]⟩
      ⟨[.mapObj [("a", .int 10), ("c", .int 3), ("b", .int 20)]]⟩ rfl
      (by simp [Config.fields]) (by simp [Config.fields])).1 0
      [("a", .int 1), ("c", .int 3)] rfl ?_ rfl
    intro kv hm ha w hb _ hcall
    simp only [Config.fields, List.mem_cons, List.mem_singleton, List.not_mem_nil,
      or_false] at hm
    rcases hm with rfl | rfl
    · have hc : entryCall (reifier sampleEnv 2) ⟨"config", "validate", ""⟩ .int
          [("a", .int 1), ("c", .int 3)] ("a", .cfgInt 10) ha
          = .ret (.rval .int (.int 10), none) ha := rfl
      rw [hc] at hcall
      cases hcall
      rfl
    · have hc : entryCall (reifier sampleEnv 2) ⟨"config", "validate", ""⟩ .int
          [("a", .int 1), ("c", .int 3)] ("b", .cfgInt 20) ha
          = .ret (.rval .int (.int 20), none) ha := rfl
      rw [hc] at hcall
      cases hcall
      rfl
  · refine (reifyMap_merge_frame sampleEnv (reifier sampleEnv 2) ⟨"config", "validate", ""⟩
      .string (.iface 0) (.mk 1 [("o", .cfgSub (.mk 2 [("x", .cfgInt 1)]))])
      ⟨[.mapObj [("c", .iface (some (.int64, .int 3)))]]⟩
      ⟨[.mapObj [("c", .iface (some (.int64, .int 3))),
            ("o", .iface (some (.ptr .config, .ptr (some ⟨1, []⟩))))],
          .config (.mk 2 [("x", .cfgInt 1)])]⟩ rfl
      (by simp [Config.fields]) (by simp [Config.fields])).1 0
      [("c", .iface (some (.int64, .int 3)))] rfl ?_ rfl
    intro kv hm ha w hb hca hcall
    simp only [Config.fields, List.mem_cons, List.mem_singleton, List.not_mem_nil,
      or_false] at hm
    subst hm
    have hc : entryCall (reifier sampleEnv 2) ⟨"config", "validate", ""⟩ (.iface 0)
        [("c", .iface (some (.int64, .int 3)))] ("o", .cfgSub (.mk 2 [("x", .cfgInt 1)])) ha
        = .ret (.rval (.ptr .config) (.ptr (some ⟨ha.cells.length, []⟩)), none)
            ⟨ha.cells ++ [.config (.mk 2 [("x", .cfgInt 1)])]⟩ := rfl
    rw [hc] at hcall
    cases hcall
    obtain ⟨c, hc0⟩ := hca
    have hlt : 0 < ha.cells.length := by
      rcases Nat.lt_or_ge 0 ha.cells.length with hlt | hge
      · exact hlt
      · rw [List.getElem?_eq_none hge] at hc0
        cases hc0
    simp [List.getElem?_append_left hlt]
  · refine (reifyMap_merge_frame sampleEnv (reifier sampleEnv 2) ⟨"config", "validate", ""⟩
      .string .int (.mk 0 [("a", .cfgInt 10)]) ⟨[.mapRef none]⟩
      ⟨[.mapRef (some 1), .mapObj [("a", .int 10)]]⟩ rfl
      (by simp [Config.fields]) (by simp [Config.fields])).2.2 ⟨0, []⟩ rfl ?_ rfl
    intro kv hm ha w hb _ _ hcall
    simp only [Config.fields, List.mem_cons, List.mem_singleton, List.not_mem_nil,
      or_false] at hm
    subst hm
    have hc : entryCall (reifier sampleEnv 2) ⟨"config", "validate", ""⟩ .int
        [] ("a", .cfgInt 10) ha = .ret (.rval .int (.int 10), none) ha := rfl
    rw [hc] at hcall
    cases hcall
    exact ⟨rfl, rfl⟩

/-- C15: take a struct with an exported field `i` marked squash whose type is
a struct `Inner`, for every Config, heap and environment. The round of the
loop of `reifyStruct` for that field is `reifyStruct` on the field with the
very Config `reifyStruct` was given. With no path separator set and no squash
field inside `Inner`, a round that returns no error (the calls for the
sub-fields leaving the other sub-fields of the copy alone) leaves in the
squash field a struct in which every sub-field, `A` and `B` among them, holds
the value stored from merging the value the Config itself holds under the
sub-field's name, and is as before when the Config has no such key. The round
is the same for every other Config that holds the same values under the names
of the sub-fields: what the Config holds under a key named after the squash
field plays no part. For `struct { Inner struct { A, B int } }` with `Inner`
squashed and the Config `a: 1, b: 2, inner: {a: 10, b: 20}`, `reifyStruct`
stores `A = 1, B = 2`. -/
theorem reifyStruct_squash_same_config (env : Env) (n : Nat) (opts : Options) (cfg : Config)
    (name : String) (fs : FieldList) (c i : Nat) (stName : String)
    (stTag : List (String × String)) (nameI : String) (fsI : FieldList)
    (vals : List Validator) (h : Heap)
    (hg : fs.get? i = some (stName, stTag, .struct nameI fsI))
    (hsq : (env.parseTags (tagGet stTag opts.tag)).2.squash = true)
    (hex : isExported stName = true)
    (hv : env.parseValidatorTags (tagGet stTag opts.validatorTag) = .ok vals) :
    reifyStructField env (reifier env (n + 3)) opts cfg (.lval (.struct name fs) ⟨c, []⟩) i h
      = reifyStruct env (reifier env (n + 1)) opts (.lval (.struct nameI fsI) ⟨c, [i]⟩) cfg h ∧
    (opts.pathSep = "" →
      (∀ j nm tg t, fsI.get? j = some (nm, tg, t) →
        (env.parseTags (tagGet tg opts.tag)).2.squash = false) →
      (∀ v, env.pointerize (.struct nameI fsI) (.struct nameI fsI) v = (Pure.pure v : M RValue)) →
      ∀ gs0 h1, h.read ⟨c, [i]⟩ = some (.struct gs0) → gs0.length = fsI.length →
      (∀ j nm tg t valsj v, fsI.get? j = some (nm, tg, t) →
        env.parseValidatorTags (tagGet tg opts.validatorTag) = .ok valsj →
        cfg.get? (env.fieldName (env.parseTags (tagGet tg opts.tag)).1 nm) = some v →
        ∀ ha zs w hb, ha.cells[h.cells.length]? = some (.struct zs) → zs.length = fsI.length →
        (reifier env n).reifyMergeValue ⟨opts, (env.parseTags (tagGet tg opts.tag)).2, valsj⟩
          (.lval t ⟨h.cells.length, [j]⟩) v ha = .ret (w, none) hb →
        ∃ zs1, hb.cells[h.cells.length]? = some (.struct zs1) ∧ zs1.length = fsI.length ∧
          ∀ j1, j1 ≠ j → zs1[j1]? = zs[j1]?) →
      reifyStructField env (reifier env (n + 3)) opts cfg (.lval (.struct name fs) ⟨c, []⟩) i h
        = .ret none h1 →
      ∃ fin, h1.read ⟨c, [i]⟩ = some (.struct fin) ∧ fin.length = fsI.length ∧
        ∀ j nm tg t, fsI.get? j = some (nm, tg, t) →
          (cfg.get? (env.fieldName (env.parseTags (tagGet tg opts.tag)).1 nm) = none →
            fin[j]? = gs0[j]?) ∧
          (∀ v, cfg.get? (env.fieldName (env.parseTags (tagGet tg opts.tag)).1 nm) = some v →
            ∃ valsj ha w hb xv,
              env.parseValidatorTags (tagGet tg opts.validatorTag) = .ok valsj ∧
              isExported nm = true ∧
              (reifier env n).reifyMergeValue
                ⟨opts, (env.parseTags (tagGet tg opts.tag)).2, valsj⟩
                (.lval t ⟨h.cells.length, [j]⟩) v ha = .ret (w, none) hb ∧
              storeAs t w hb = .ret xv hb ∧ fin[j]? = some xv)) ∧
    (opts.pathSep = "" →
      (∀ j nm tg t, fsI.get? j = some (nm, tg, t) →
        (env.parseTags (tagGet tg opts.tag)).2.squash = false) →
      ∀ cfg1 : Config,
      (∀ j nm tg t, fsI.get? j = some (nm, tg, t) →
        cfg.get? (env.fieldName (env.parseTags (tagGet tg opts.tag)).1 nm)
          = cfg1.get? (env.fieldName (env.parseTags (tagGet tg opts.tag)).1 nm)) →
      reifyStructField env (reifier env (n + 3)) opts cfg (.lval (.struct name fs) ⟨c, []⟩) i h
        = reifyStructField env (reifier env (n + 3)) opts cfg1
            (.lval (.struct name fs) ⟨c, []⟩) i h) ∧
    reifyStruct sampleEnv (reifier sampleEnv 4) ⟨"config", "validate", ""⟩
        (.lval sampleOuter ⟨0, []⟩) sampleSquashConfig ⟨[.struct [.struct [.int 0, .int 0]]]⟩
      = .ret none ⟨[.struct [.struct [.int 1, .int 2]], .struct [.struct [.int 1, .int 2]],
          .struct [.int 1, .int 2]]⟩ := by
  have hbody : ∀ cfg0 : Config,
      reifyStructField env (reifier env (n + 3)) opts cfg0 (.lval (.struct name fs) ⟨c, []⟩) i h
        = reifyStruct env (reifier env (n + 1)) opts (.lval (.struct nameI fsI) ⟨c, [i]⟩)
            cfg0 h := fun cfg0 =>
    reifyStructField_squash_struct env (n + 1) opts cfg0 name fs c i stName stTag nameI fsI
      vals h hg hsq hex hv
  have hfv : ∀ (cfg0 : Config) j nm tg t, fsI.get? j = some (nm, tg, t) →
      fieldValue env opts cfg0 fsI j
        = cfg0.get? (env.fieldName (env.parseTags (tagGet tg opts.tag)).1 nm) := by
    intro cfg0 j nm tg t hj
    simp [fieldValue, hj]
  refine ⟨hbody cfg, ?_, ?_, rfl⟩
  · intro hsep hnosq hpz gs0 h1 hr hlen hfr hrun
    rw [hbody cfg] at hrun
    obtain ⟨fin, hrf, hlf, hkeep, hnew⟩ :=
      reifyStruct_inv env n opts cfg nameI fsI ⟨c, [i]⟩ gs0 h h1 hsep hnosq hpz hr hlen
        (fun j nm tg t valsj v hj hvj hval =>
          hfr j nm tg t valsj v hj hvj (by rw [← hfv cfg j nm tg t hj]; exact hval)) hrun
    refine ⟨fin, hrf, hlf, ?_⟩
    intro j nm tg t hj
    refine ⟨fun hnone => hkeep j (by rw [hfv cfg j nm tg t hj]; exact hnone), ?_⟩
    intro v hsome
    exact hnew j nm tg t v hj (by rw [hfv cfg j nm tg t hj]; exact hsome)
  · intro hsep hnosq cfg1 hsame
    rw [hbody cfg, hbody cfg1]
    refine reifyStruct_congr env n opts cfg cfg1 nameI fsI ⟨c, [i]⟩ h hsep hnosq ?_
    intro j
    cases hj : fsI.get? j with
    | none => simp [fieldValue, hj]
    | some f =>
        obtain ⟨nm, tg, t⟩ := f
        rw [hfv cfg j nm tg t hj, hfv cfg1 j nm tg t hj]
        exact hsame j nm tg t hj

/-- C15, at `struct { Inner struct { A, B int } }` with `Inner` squashed, the
copy of the struct in cell 1 and the Config
`a: 1, b: 2, inner: {a: 10, b: 20}`: the round of the loop for `Inner` is
`reifyStruct` on the field with that Config; it leaves `A = 1, B = 2` in the
field, both merged from the keys `a` and `b` of the Config itself; and it is
the round made for the Config `a: 1, b: 2, inner: {a: 77}`. -/
theorem reifyStruct_squash_same_config_witness :
    reifyStructField sampleEnv (reifier sampleEnv 4) ⟨"config", "validate", ""⟩
        sampleSquashConfig (.lval sampleOuter ⟨1, []⟩) 0
        ⟨[.struct [.struct [.int 0, .int 0]], .struct [.struct [.int 0, .int 0]]]⟩
      = reifyStruct sampleEnv (reifier sampleEnv 2) ⟨"config", "validate", ""⟩
          (.lval sampleInner ⟨1, [0]⟩) sampleSquashConfig
          ⟨[.struct [.struct [.int 0, .int 0]], .struct [.struct [.int 0, .int 0]]]⟩ ∧
    reifyStructField sampleEnv (reifier sampleEnv 4) ⟨"config", "validate", ""⟩
        sampleSquashConfig (.lval sampleOuter ⟨1, []⟩) 0
        ⟨[.struct [.struct [.int 0, .int 0]], .struct [.struct [.int 0, .int 0]]]⟩
      = .ret none ⟨[.struct [.struct [.int 0, .int 0]], .struct [.struct [.int 1, .int 2]],
          .struct [.int 1, .int 2]]⟩ ∧
    (∃ fin, (⟨[.struct [.struct [.int 0, .int 0]], .struct [.struct [.int 1, .int 2]],
          .struct [.int 1, .int 2]]⟩ : Heap).read ⟨1, [0]⟩ = some (.struct fin) ∧
      fin.length = 2 ∧
      (∃ ha w hb xv,
        (reifier sampleEnv 1).reifyMergeValue ⟨⟨"config", "validate", ""⟩, ⟨false⟩, []⟩
          (.lval .int ⟨2, [0]⟩) (.cfgInt 1) ha = .ret (w, none) hb ∧
        storeAs .int w hb = .ret xv hb ∧ fin[0]? = some xv) ∧
      (∃ ha w hb xv,
        (reifier sampleEnv 1).reifyMergeValue ⟨⟨"config", "validate", ""⟩, ⟨false⟩, []⟩
          (.lval .int ⟨2, [1]⟩) (.cfgInt 2) ha = .ret (w, none) hb ∧
        storeAs .int w hb = .ret xv hb ∧ fin[1]? = some xv)) ∧
    reifyStructField sampleEnv (reifier sampleEnv 4) ⟨"config", "validate", ""⟩
        sampleSquashConfig (.lval sampleOuter ⟨1, []⟩) 0
        ⟨[.struct [.struct [.int 0, .int 0]], .struct [.struct [.int 0, .int 0]]]⟩
      = reifyStructField sampleEnv (reifier sampleEnv 4) ⟨"config", "validate", ""⟩
          (.mk 0 [("a", .cfgInt 1), ("b", .cfgInt 2),
            ("inner", .cfgSub (.mk 1 [("a", .cfgInt 77)]))])
          (.lval sampleOuter ⟨1, []⟩) 0
          ⟨[.struct [.struct [.int 0, .int 0]], .struct [.struct [.int 0, .int 0]]]⟩ := by
  have hthm := reifyStruct_squash_same_config sampleEnv 1 ⟨"config", "validate", ""⟩
    sampleSquashConfig "Outer" (.cons "Inner" [("config", ",squash")] sampleInner .nil) 1 0
    "Inner" [("config", ",squash")] "Inner" (.cons "A" [] .int (.cons "B" [] .int .nil)) []
    ⟨[.struct [.struct [.int 0, .int 0]], .struct [.struct [.int 0, .int 0]]]⟩
    rfl rfl rfl rfl
  have hnosq : ∀ j nm tg t,
      (FieldList.cons "A" [] .int (.cons "B" [] .int .nil)).get? j = some (nm, tg, t) →
      (sampleEnv.parseTags (tagGet tg "config")).2.squash = false := by
    intro j nm tg t hj
    match j with
    | 0 =>
        simp only [FieldList.get?, Option.some.injEq, Prod.mk.injEq] at hj
        obtain ⟨_, rfl, _⟩ := hj
        rfl
    | 1 =>
        simp only [FieldList.get?, Option.some.injEq, Prod.mk.injEq] at hj
        obtain ⟨_, rfl, _⟩ := hj
        rfl
    | j + 2 => simp [FieldList.get?] at hj
  have hsc : ∀ j nm tg t,
      (FieldList.cons "A" [] .int (.cons "B" [] .int .nil)).get? j = some (nm, tg, t) →
      t.isScalar = true := by
    intro j nm tg t hj
    match j with
    | 0 =>
        simp only [FieldList.get?, Option.some.injEq, Prod.mk.injEq] at hj
        obtain ⟨_, _, rfl⟩ := hj
        rfl
    | 1 =>
        simp only [FieldList.get?, Option.some.injEq, Prod.mk.injEq] at hj
        obtain ⟨_, _, rfl⟩ := hj
        rfl
    | j + 2 => simp [FieldList.get?] at hj
  refine ⟨hthm.1, rfl, ?_, ?_⟩
  · obtain ⟨fin, hrf, hlf, hfields⟩ := hthm.2.1 rfl hnosq
      (fun v => by simp [sampleEnv, samplePointerize]) [.int 0, .int 0]
      ⟨[.struct [.struct [.int 0, .int 0]], .struct [.struct [.int 1, .int 2]],
          .struct [.int 1, .int 2]]⟩ rfl rfl
      (fun j nm tg t valsj v hj _ _ ha zs w hb hca0 _ hcall => by
        have hca : ha.cells[2]? = some (.struct zs) := hca0
        have hlt : 3 ≤ ha.cells.length := by
          rcases Nat.lt_or_ge 2 ha.cells.length with hlt | hge
          · exact hlt
          · rw [List.getElem?_eq_none hge] at hca
            cases hca
        have hk := (keeps_reifier_reifyMergeValue sampleEnv 3 1 _ t ⟨2, [j]⟩ v
          (hsc j nm tg t hj)
          (fun t v => by simp [sampleEnv, samplePointerize])
          (fun v => by
            cases v <;>
              first
                | exact keeps_pure _ trivial
                | exact keeps_bind (keeps_alloc _) (fun _ _ => keeps_pure _ trivial))
          (fun v t => keeps_pure _ trivial)) ha (w, none) hb hlt hcall
        refine ⟨zs, ?_, by assumption, fun _ _ => rfl⟩
        show hb.cells[2]? = _
        exact (hk.1.2 2 (by decide)).trans hca)
      rfl
    refine ⟨fin, hrf, hlf, ?_, ?_⟩
    · obtain ⟨_, ha, w, hb, xv, _, _, hcall, hst, hx⟩ :=
        (hfields 0 "A" [] .int rfl).2 (.cfgInt 1) rfl
      exact ⟨ha, w, hb, xv, hcall, hst, hx⟩
    · obtain ⟨_, ha, w, hb, xv, _, _, hcall, hst, hx⟩ :=
        (hfields 1 "B" [] .int rfl).2 (.cfgInt 2) rfl
      exact ⟨ha, w, hb, xv, hcall, hst, hx⟩
  · refine hthm.2.2.1 rfl hnosq _ ?_
    intro j nm tg t hj
    match j with
    | 0 =>
        simp only [FieldList.get?, Option.some.injEq, Prod.mk.injEq] at hj
        obtain ⟨rfl, rfl, _⟩ := hj
        rfl
    | 1 =>
        simp only [FieldList.get?, Option.some.injEq, Prod.mk.injEq] at hj
        obtain ⟨rfl, rfl, _⟩ := hj
        rfl
    | j + 2 => simp [FieldList.get?] at hj

end Ucfg
